import Mathlib

/-!
Join-clause elaboration of the SQL optimizer builder (`pkg/sql/opt/optbuilder/join.go`).

A shallow embedding of the join builder: table-alias validation, the
common-column finder of NATURAL joins, the USING-predicate builder with its
column visibility rewriter, the join operator constructor and the top-level
dispatch on the join condition, followed by theorems about them.

Conventions of the embedding.
* A Go `panic` is an `Except.error`; a normal return is `Except.ok`.
* A `*scopeColumn` pointing into one of the two column slices handed to
  `buildUsingJoinPredicate` is a `scopeColumnPtr`: the slice it points into and
  the index in that slice.  The two slices are distinct arrays (they belong to
  the two child scopes built independently by `buildDataSource`).
* Writes through such pointers (`col.hidden = true`) are made explicit: the
  functions return the updated slices next to their results.
* The memo is a structurally interned expression store: the handle of a node is
  identified with the node itself.
-/

set_option linter.dupNamespace false

namespace optbuilder

/-! ## Data model -/

/-- The type `tree.Name`: an unqualified SQL identifier. -/
abbrev Name := String

/-- The type `tree.NameList`. -/
abbrev NameList := List Name

/-- The type `opt.ColumnID`. -/
abbrev ColumnID := Nat

/-- Modelled from the spec: `tree.TableName` is declared outside this file.  The
qualifier has the three name parts read by `validateJoinTableNames`; the two
flags stand for the remaining fields of the struct, which take part in the
whole-struct comparison of `skipDups` and in nothing else. -/
structure TableName where
  TableName : Name
  SchemaName : Name
  CatalogName : Name
  ExplicitSchema : Bool
  ExplicitCatalog : Bool
deriving DecidableEq, Repr

namespace types

/-- Modelled from the spec: `types.T` is declared outside this file.  Only the
distinguished bottom type `Unknown` and comparison with it are used here; every
other type is identified by a code. -/
inductive T where
  | Unknown
  | Typ (code : Nat)
deriving DecidableEq, Repr

end types

/-- The type `sqlbase.JoinType`, a Go integer type. -/
abbrev JoinType := Int

namespace sqlbase

/-- Join type constant `sqlbase.InnerJoin`. -/
def InnerJoin : JoinType := 0
/-- Join type constant `sqlbase.LeftOuterJoin`. -/
def LeftOuterJoin : JoinType := 1
/-- Join type constant `sqlbase.RightOuterJoin`. -/
def RightOuterJoin : JoinType := 2
/-- Join type constant `sqlbase.FullOuterJoin`. -/
def FullOuterJoin : JoinType := 3

end sqlbase

/-- Modelled from the spec: the expression store (`memo`, `b.factory`) is
declared outside this file.  Structurally identical subtrees are interned, so a
handle (`memo.GroupID`, and the `memo.ListID` of an interned list) is identified
with the tree it stands for; `zero` is the group id `0`, `EmptyList` and
`ListCons` build the interned lists.  `InternColumnID` is the identity. -/
inductive GroupID where
  | zero
  | EmptyList
  | ListCons (head tail : GroupID)
  | ConstructTrue
  | ConstructVariable (col : ColumnID)
  | ConstructEq (left right : GroupID)
  | ConstructAnd (conditions : GroupID)
  | ConstructCoalesce (args : GroupID)
  | ConstructFilters (conditions : GroupID)
  | ConstructInnerJoin (left right filter : GroupID)
  | ConstructLeftJoin (left right filter : GroupID)
  | ConstructRightJoin (left right filter : GroupID)
  | ConstructFullJoin (left right filter : GroupID)
  | ConstructProject (input : GroupID) (cols : List ColumnID) (exprs : GroupID)
  | scalar (code : Nat)
  | relational (code : Nat)
deriving DecidableEq, Repr

/-- The factory's `InternList`: the handle of a list of handles. -/
def InternList : List GroupID → GroupID
  | [] => GroupID.EmptyList
  | g :: gs => GroupID.ListCons g (InternList gs)

/-- The two column slices a `*scopeColumn` can point into. -/
inductive Side where
  | left
  | right
deriving DecidableEq, Repr

/-- A `*scopeColumn` into `leftCols` or `rightCols`: `&cols[idx]`. -/
structure scopeColumnPtr where
  base : Side
  idx : Nat
deriving DecidableEq, Repr

/-- Modelled from the spec: `tree.TypedExpr` is declared outside this file.  The
only typed expression built here is `NewTypedCoalesceExpr` over two column
pointers; any other typed expression is identified by a code. -/
inductive TypedExpr where
  | CoalesceExpr (exprs : List scopeColumnPtr) (typ : types.T)
  | other (code : Nat)
deriving DecidableEq, Repr

/-- The struct `scopeColumn`, an element of a scope. -/
structure scopeColumn where
  name : Name
  table : TableName
  typ : types.T
  id : ColumnID
  hidden : Bool
  expr : Option TypedExpr
  group : GroupID
deriving DecidableEq, Repr

/-- The struct `scope`: the ordered output columns and the memo group. -/
structure scope where
  cols : List scopeColumn
  group : GroupID
  context : String
deriving DecidableEq, Repr

/-- The errors raised by the join builder.  The first four are `builderError`s
carrying a pg error code; the others are internal failures (a plain Go `panic`,
a failure of the scalar builder, a runtime index error). -/
inductive Error where
  | DuplicateAlias (source : Name)
  | DuplicateColumn (name : Name)
  | UndefinedColumn (name : Name) (context : String)
  | DatatypeMismatch (left right : types.T) (name : Name)
  | unsupportedJoinType (joinType : JoinType)
  | unsupportedJoinCondition
  | scalarError (code : Nat)
  | indexOutOfRange
deriving DecidableEq, Repr

deriving instance DecidableEq for Except

/-- Modelled from the spec: the metadata behind `synthesizeColumn` is declared
outside this file.  Column ids are handed out by a counter, so that every
synthesized column gets an id not handed out before. -/
structure Builder where
  numColumns : Nat
deriving DecidableEq, Repr

/-- An AST expression `tree.Expr`, identified by a code. -/
structure Expr where
  code : Nat
deriving DecidableEq, Repr

/-- The services of the type system and of the scalar builder, which are
external to this file. -/
structure Services where
  Equivalent : types.T → types.T → Bool
  FindEqualComparisonFunction : types.T → types.T → Bool
  DatumTypeHasCompositeKeyEncoding : types.T → Bool
  buildScalar : Builder → Expr → List scopeColumn → Except Error (GroupID × Builder)

/-- The join condition `join.Cond`: `nil`, `*tree.OnJoinCond`,
`*tree.UsingJoinCond`, `tree.NaturalJoinCond`, or a value of another type. -/
inductive JoinCond where
  | nil
  | OnJoinCond (onExpr : Expr)
  | UsingJoinCond (Cols : NameList)
  | NaturalJoinCond
  | unsupported
deriving DecidableEq, Repr

/-- A Go map as an association list with at most one entry per key. -/
abbrev GoMap (κ ν : Type) := List (κ × ν)

namespace GoMap

/-- The lookup `v, ok := m[k]`. -/
def get {κ ν : Type} [DecidableEq κ] (m : GoMap κ ν) (k : κ) : Option ν :=
  (m.find? (fun e => decide (e.1 = k))).map Prod.snd

/-- The assignment `m[k] = v`. -/
def set {κ ν : Type} [DecidableEq κ] (m : GoMap κ ν) (k : κ) (v : ν) : GoMap κ ν :=
  (k, v) :: m.filter (fun e => !decide (e.1 = k))

/-- The set of keys of the map. -/
def keys {κ ν : Type} (m : GoMap κ ν) : List κ := m.map Prod.fst

end GoMap

/-! ## Operations -/

/-- Modelled from the spec: `scope.push` is declared outside this file; it
gives the fresh, empty scope the builder is about to construct. -/
def scope.push (_inScope : scope) : scope :=
  { cols := [], group := GroupID.zero, context := "" }

/-- Modelled from the spec: `scope.appendColumnsFromScope` is declared outside
this file; it appends the columns of `src` in order. -/
def scope.appendColumnsFromScope (s src : scope) : scope :=
  { s with cols := s.cols ++ src.cols }

/-- The closure `skipDups` of `validateJoinTableNames`: the ordinals (in
increasing order, as a `FastIntSet` iterates) of the columns with a non-empty
table name that differs from the previous column's table name. -/
def skipDups (sc : scope) : List Nat :=
  (List.range sc.cols.length).filter (fun i =>
    match sc.cols[i]? with
    | none => false
    | some col =>
      if col.table.TableName = "" then false
      else decide (i = 0) || decide (some col.table ≠ (sc.cols[i - 1]?).map (fun c => c.table)))

/-- The inner loop of `validateJoinTableNames` over the right ordinals. -/
def validateJoinTableNames.rightLoop (leftName : TableName) (rightScope : scope) :
    List Nat → Except Error Unit
  | [] => Except.ok ()
  | right :: rest =>
    match rightScope.cols[right]? with
    | none => Except.error Error.indexOutOfRange
    | some rightCol =>
      let rightName := rightCol.table
      if leftName.TableName ≠ rightName.TableName ∨
          leftName.SchemaName ≠ rightName.SchemaName ∨
          leftName.CatalogName ≠ rightName.CatalogName then
        validateJoinTableNames.rightLoop leftName rightScope rest
      else
        Except.error (Error.DuplicateAlias leftName.TableName)

/-- The outer loop of `validateJoinTableNames` over the left ordinals. -/
def validateJoinTableNames.leftLoop (leftScope rightScope : scope) (rightOrds : List Nat) :
    List Nat → Except Error Unit
  | [] => Except.ok ()
  | left :: rest =>
    match leftScope.cols[left]? with
    | none => Except.error Error.indexOutOfRange
    | some leftCol =>
      match validateJoinTableNames.rightLoop leftCol.table rightScope rightOrds with
      | Except.error e => Except.error e
      | Except.ok () => validateJoinTableNames.leftLoop leftScope rightScope rightOrds rest

/-- The function `validateJoinTableNames`: checks that table names are not
repeated between the left and right sides of a join. -/
def validateJoinTableNames (leftScope rightScope : scope) : Except Error Unit :=
  let leftOrds := skipDups leftScope
  let rightOrds := skipDups rightScope
  validateJoinTableNames.leftLoop leftScope rightScope rightOrds leftOrds

/-- The inner loop of `commonColumns` over the right columns, for one left
column; it stops at the first match. -/
def commonColumns.inner (leftCol : scopeColumn) : List scopeColumn → NameList → NameList
  | [], common => common
  | rightCol :: rest, common =>
    if rightCol.hidden then commonColumns.inner leftCol rest common
    else if leftCol.name = rightCol.name then common ++ [leftCol.name]
    else commonColumns.inner leftCol rest common

/-- The outer loop of `commonColumns` over the left columns. -/
def commonColumns.outer (rightCols : List scopeColumn) : List scopeColumn → NameList → NameList
  | [], common => common
  | leftCol :: rest, common =>
    if leftCol.hidden then commonColumns.outer rightCols rest common
    else commonColumns.outer rightCols rest (commonColumns.inner leftCol rightCols common)

/-- The function `commonColumns`: the names of columns common on the left and
right sides, for use by NATURAL JOIN. -/
def commonColumns (leftScope rightScope : scope) : NameList :=
  commonColumns.outer rightScope.cols leftScope.cols []

/-- The loop of `findUsingColumn`, at index `i` of the slice. -/
def findUsingColumn.loop (base : Side) (name : Name) (context : String) :
    Nat → List scopeColumn → Except Error (scopeColumnPtr × scopeColumn)
  | _, [] => Except.error (Error.UndefinedColumn name context)
  | i, col :: rest =>
    if !col.hidden && decide (col.name = name) then Except.ok (⟨base, i⟩, col)
    else findUsingColumn.loop base name context (i + 1) rest

/-- The function `findUsingColumn`: the column in `cols` that has the given
name, as the pointer `&cols[i]` together with the column it points at; an error
naming the side if there is none.  `base` says which slice `cols` is. -/
def findUsingColumn (base : Side) (cols : List scopeColumn) (name : Name) (context : String) :
    Except Error (scopeColumnPtr × scopeColumn) :=
  findUsingColumn.loop base name context 0 cols

/-- Modelled from the spec: `synthesizeColumn` is declared outside this file.
It appends to the scope a new, non-hidden column with the given label, type,
typed expression and group, under a fresh id, and returns that column. -/
def synthesizeColumn (b : Builder) (s : scope) (label : String) (typ : types.T)
    (expr : TypedExpr) (group : GroupID) : scopeColumn × scope × Builder :=
  let col : scopeColumn :=
    { name := label
      table := { TableName := "", SchemaName := "", CatalogName := "",
                 ExplicitSchema := false, ExplicitCatalog := false }
      typ := typ
      id := b.numColumns + 1
      hidden := false
      expr := some expr
      group := group }
  (col, { s with cols := s.cols ++ [col] }, { numColumns := b.numColumns + 1 })

/-- The local variables of `buildUsingJoinPredicate` that its loop updates. -/
structure usingState where
  joined : GoMap Name (Option scopeColumnPtr)
  conditions : List GroupID
  mergedCols : GoMap ColumnID GroupID
  outScope : scope
  b : Builder
deriving DecidableEq, Repr

/-- The second half of the loop body of `buildUsingJoinPredicate`, once the
name has been resolved to `leftCol` and `rightCol` and their types compared:
constructs the equality predicate and adds the merged column to the scope,
constructing a new column if needed. -/
def buildUsingJoinPredicate.merge (sv : Services) (joinType : JoinType) (st : usingState)
    (name : Name) (leftPtr : scopeColumnPtr) (leftCol : scopeColumn)
    (rightPtr : scopeColumnPtr) (rightCol : scopeColumn) : usingState :=
  let leftVar := GroupID.ConstructVariable leftCol.id
  let rightVar := GroupID.ConstructVariable rightCol.id
  let eq := GroupID.ConstructEq leftVar rightVar
  let conditions := st.conditions ++ [eq]
  if joinType = sqlbase.InnerJoin ∨ joinType = sqlbase.LeftOuterJoin then
    { st with
      conditions := conditions
      outScope := { st.outScope with cols := st.outScope.cols ++ [leftCol] }
      joined := st.joined.set name (some leftPtr) }
  else if joinType = sqlbase.RightOuterJoin ∧
      sv.DatumTypeHasCompositeKeyEncoding leftCol.typ = false then
    { st with
      conditions := conditions
      outScope := { st.outScope with cols := st.outScope.cols ++ [rightCol] }
      joined := st.joined.set name (some rightPtr) }
  else
    let typ := if leftCol.typ ≠ types.T.Unknown then leftCol.typ else rightCol.typ
    let texpr := TypedExpr.CoalesceExpr [leftPtr, rightPtr] typ
    let merged := GroupID.ConstructCoalesce (InternList [leftVar, rightVar])
    let r := synthesizeColumn st.b st.outScope leftCol.name typ texpr merged
    { conditions := conditions
      outScope := r.2.1
      b := r.2.2
      mergedCols := st.mergedCols.set r.1.id merged
      joined := st.joined.set name none }

/-- The body of the loop over `names` in `buildUsingJoinPredicate`: the checks
on the name, then `merge`. -/
def buildUsingJoinPredicate.body (sv : Services) (joinType : JoinType)
    (leftCols rightCols : List scopeColumn) (st : usingState) (name : Name) :
    Except Error usingState :=
  match st.joined.get name with
  | some _ => Except.error (Error.DuplicateColumn name)
  | none =>
    match findUsingColumn Side.left leftCols name "left" with
    | Except.error e => Except.error e
    | Except.ok (leftPtr, leftCol) =>
      match findUsingColumn Side.right rightCols name "right" with
      | Except.error e => Except.error e
      | Except.ok (rightPtr, rightCol) =>
        if !sv.Equivalent leftCol.typ rightCol.typ &&
            !sv.FindEqualComparisonFunction leftCol.typ rightCol.typ then
          Except.error (Error.DatatypeMismatch leftCol.typ rightCol.typ leftCol.name)
        else
          Except.ok
            (buildUsingJoinPredicate.merge sv joinType st name leftPtr leftCol rightPtr rightCol)

/-- The loop over `names` in `buildUsingJoinPredicate`. -/
def buildUsingJoinPredicate.loop (sv : Services) (joinType : JoinType)
    (leftCols rightCols : List scopeColumn) : List Name → usingState → Except Error usingState
  | [], st => Except.ok st
  | name :: rest, st =>
    match buildUsingJoinPredicate.body sv joinType leftCols rightCols st name with
    | Except.error e => Except.error e
    | Except.ok st1 => buildUsingJoinPredicate.loop sv joinType leftCols rightCols rest st1

/-- The loop of `hideMatchingColumns`, at index `i` of the slice `cols`.  It
returns the slice after the writes `col.hidden = true` and the columns of the
scope after the appends. -/
def hideMatchingColumns.loop (base : Side) (joined : GoMap Name (Option scopeColumnPtr)) :
    Nat → List scopeColumn → List scopeColumn → List scopeColumn × List scopeColumn
  | _, [], scopeCols => ([], scopeCols)
  | i, col :: rest, scopeCols =>
    match joined.get col.name with
    | some foundCol =>
      if some (scopeColumnPtr.mk base i) = foundCol then
        let r := hideMatchingColumns.loop base joined (i + 1) rest scopeCols
        (col :: r.1, r.2)
      else
        let col1 := { col with hidden := true }
        let r := hideMatchingColumns.loop base joined (i + 1) rest (scopeCols ++ [col1])
        (col1 :: r.1, r.2)
    | none =>
      let r := hideMatchingColumns.loop base joined (i + 1) rest (scopeCols ++ [col])
      (col :: r.1, r.2)

/-- The function `hideMatchingColumns`: skips the columns that are in `joined`,
hides and appends the other columns named like a column in `joined`, appends all
other columns without modification.  Returns the written slice and the scope. -/
def hideMatchingColumns (base : Side) (cols : List scopeColumn)
    (joined : GoMap Name (Option scopeColumnPtr)) (s : scope) : List scopeColumn × scope :=
  let r := hideMatchingColumns.loop base joined 0 cols s.cols
  (r.1, { s with cols := r.2 })

/-- The function `constructFilter`: the memo group for a list of conditions. -/
def constructFilter (conditions : List GroupID) : GroupID :=
  match conditions with
  | [] => GroupID.ConstructTrue
  | [c] => c
  | _ => GroupID.ConstructAnd (InternList conditions)

/-- The function `constructJoin`. -/
def constructJoin (joinType : JoinType) (left right filter : GroupID) : Except Error GroupID :=
  let filter := GroupID.ConstructFilters (InternList [filter])
  if joinType = sqlbase.InnerJoin then Except.ok (GroupID.ConstructInnerJoin left right filter)
  else if joinType = sqlbase.LeftOuterJoin then Except.ok (GroupID.ConstructLeftJoin left right filter)
  else if joinType = sqlbase.RightOuterJoin then Except.ok (GroupID.ConstructRightJoin left right filter)
  else if joinType = sqlbase.FullOuterJoin then Except.ok (GroupID.ConstructFullJoin left right filter)
  else Except.error (Error.unsupportedJoinType joinType)

/-- Modelled from the spec: `constructProject` is declared outside this file.
The projection restates every column of the scope, in scope order, with its
expression handle. -/
def constructProject (input : GroupID) (cols : List scopeColumn) : GroupID :=
  GroupID.ConstructProject input (cols.map (fun c => c.id)) (InternList (cols.map (fun c => c.group)))

/-- What `buildUsingJoinPredicate` returns, with the two input slices as they
are after the call. -/
structure usingResult where
  mergedCols : GoMap ColumnID GroupID
  out : GroupID
  outScope : scope
  leftCols : List scopeColumn
  rightCols : List scopeColumn
  b : Builder
deriving DecidableEq, Repr

/-- The function `buildUsingJoinPredicate`. -/
def buildUsingJoinPredicate (sv : Services) (b : Builder) (joinType : JoinType)
    (leftCols rightCols : List scopeColumn) (names : NameList) (inScope : scope) :
    Except Error usingResult :=
  let st0 : usingState :=
    { joined := [], conditions := [], mergedCols := [], outScope := inScope.push, b := b }
  match buildUsingJoinPredicate.loop sv joinType leftCols rightCols names st0 with
  | Except.error e => Except.error e
  | Except.ok st =>
    let l := hideMatchingColumns Side.left leftCols st.joined st.outScope
    let r := hideMatchingColumns Side.right rightCols st.joined l.2
    Except.ok
      { mergedCols := st.mergedCols
        out := constructFilter st.conditions
        outScope := r.2
        leftCols := l.1
        rightCols := r.1
        b := st.b }

/-- What the join builder returns: the output scope, the two child scopes as
they are after the call, and the builder. -/
structure joinResult where
  outScope : scope
  leftScope : scope
  rightScope : scope
  b : Builder
deriving DecidableEq, Repr

/-- The function `buildUsingJoin`. -/
def buildUsingJoin (sv : Services) (b : Builder) (joinType : JoinType) (names : NameList)
    (leftScope rightScope inScope : scope) : Except Error joinResult :=
  match buildUsingJoinPredicate sv b joinType leftScope.cols rightScope.cols names inScope with
  | Except.error e => Except.error e
  | Except.ok res =>
    match constructJoin joinType leftScope.group rightScope.group res.out with
    | Except.error e => Except.error e
    | Except.ok group =>
      let outScope := { res.outScope with group := group }
      let outScope :=
        if res.mergedCols.length > 0 then
          let cols := outScope.cols.map (fun col =>
            match res.mergedCols.get col.id with
            | some mergedCol => { col with group := mergedCol }
            | none => { col with group := GroupID.zero })
          { outScope with cols := cols, group := constructProject outScope.group cols }
        else outScope
      Except.ok
        { outScope := outScope
          leftScope := { leftScope with cols := res.leftCols }
          rightScope := { rightScope with cols := res.rightCols }
          b := res.b }

/-- The function `buildJoin`, after the two children have been built: `joinType`
is the value of `JoinTypeFromAstString(join.Join)`, `cond` is `join.Cond`. -/
def buildJoin (sv : Services) (b : Builder) (joinType : JoinType) (cond : JoinCond)
    (leftScope rightScope inScope : scope) : Except Error joinResult :=
  match validateJoinTableNames leftScope rightScope with
  | Except.error e => Except.error e
  | Except.ok () =>
    match cond with
    | JoinCond.NaturalJoinCond =>
      buildUsingJoin sv b joinType (commonColumns leftScope rightScope) leftScope rightScope inScope
    | JoinCond.UsingJoinCond cols =>
      buildUsingJoin sv b joinType cols leftScope rightScope inScope
    | JoinCond.OnJoinCond onExpr =>
      let outScope := inScope.push
      let outScope := outScope.appendColumnsFromScope leftScope
      let outScope := outScope.appendColumnsFromScope rightScope
      let outScope := { outScope with context := "ON" }
      match sv.buildScalar b onExpr outScope.cols with
      | Except.error e => Except.error e
      | Except.ok (filter, b1) =>
        match constructJoin joinType leftScope.group rightScope.group filter with
        | Except.error e => Except.error e
        | Except.ok group =>
          Except.ok { outScope := { outScope with group := group }
                      leftScope := leftScope, rightScope := rightScope, b := b1 }
    | JoinCond.nil =>
      let outScope := inScope.push
      let outScope := outScope.appendColumnsFromScope leftScope
      let outScope := outScope.appendColumnsFromScope rightScope
      let filter := GroupID.ConstructTrue
      match constructJoin joinType leftScope.group rightScope.group filter with
      | Except.error e => Except.error e
      | Except.ok group =>
        Except.ok { outScope := { outScope with group := group }
                    leftScope := leftScope, rightScope := rightScope, b := b }
    | JoinCond.unsupported => Except.error Error.unsupportedJoinCondition

/-! ## Auxiliary definitions used in the statements -/

/-- The test made by `findUsingColumn` on a column: not hidden, and named `name`. -/
def usingMatch (name : Name) (c : scopeColumn) : Bool :=
  !c.hidden && decide (c.name = name)

/-- The pointer recorded in `joined` for a name: the left column's for inner and
left outer joins, the right column's for a right outer join unless the left
column's type has composite key encoding, and `nil` otherwise. -/
def chosenRepresentative (sv : Services) (joinType : JoinType)
    (leftCols rightCols : List scopeColumn) (name : Name) : Option scopeColumnPtr :=
  match leftCols.find? (usingMatch name) with
  | none => none
  | some l =>
    if joinType = sqlbase.InnerJoin ∨ joinType = sqlbase.LeftOuterJoin then
      some ⟨Side.left, leftCols.findIdx (usingMatch name)⟩
    else if joinType = sqlbase.RightOuterJoin ∧
        sv.DatumTypeHasCompositeKeyEncoding l.typ = false then
      some ⟨Side.right, rightCols.findIdx (usingMatch name)⟩
    else none

/-- The group of a synthesized merged column: `COALESCE(left, right)`. -/
def coalesceGroup (l r : scopeColumn) : GroupID :=
  GroupID.ConstructCoalesce
    (InternList [GroupID.ConstructVariable l.id, GroupID.ConstructVariable r.id])

/-- The type of a synthesized merged column: the left type unless it is `Unknown`. -/
def coalesceType (l r : scopeColumn) : types.T :=
  if l.typ ≠ types.T.Unknown then l.typ else r.typ

/-- The column synthesized for the pair `l`, `r` (found at the given pointers)
under the id `k`. -/
def coalesceColumn (k : ColumnID) (lp : scopeColumnPtr) (l : scopeColumn)
    (rp : scopeColumnPtr) (r : scopeColumn) : scopeColumn :=
  { name := l.name
    table := { TableName := "", SchemaName := "", CatalogName := "",
               ExplicitSchema := false, ExplicitCatalog := false }
    typ := coalesceType l r
    id := k
    hidden := false
    expr := some (TypedExpr.CoalesceExpr [lp, rp] (coalesceType l r))
    group := coalesceGroup l r }

/-- What the loop appends to the output scope for one name, with the ids handed
out during the loop lying in `(lo, hi]` and `m` the final merged-column map. -/
def MergedSpec (sv : Services) (joinType : JoinType) (leftCols rightCols : List scopeColumn)
    (lo hi : Nat) (m : GoMap ColumnID GroupID) (name : Name) (col : scopeColumn) : Prop :=
  ∃ l r, leftCols.find? (usingMatch name) = some l ∧
    rightCols.find? (usingMatch name) = some r ∧
    ((joinType = sqlbase.InnerJoin ∨ joinType = sqlbase.LeftOuterJoin) → col = l) ∧
    (¬ (joinType = sqlbase.InnerJoin ∨ joinType = sqlbase.LeftOuterJoin) →
      (joinType = sqlbase.RightOuterJoin ∧ sv.DatumTypeHasCompositeKeyEncoding l.typ = false) →
      col = r) ∧
    (¬ (joinType = sqlbase.InnerJoin ∨ joinType = sqlbase.LeftOuterJoin) →
      ¬ (joinType = sqlbase.RightOuterJoin ∧ sv.DatumTypeHasCompositeKeyEncoding l.typ = false) →
      ∃ k, lo < k ∧ k ≤ hi ∧ m.get k = some (coalesceGroup l r) ∧
        col = coalesceColumn k ⟨Side.left, leftCols.findIdx (usingMatch name)⟩ l
          ⟨Side.right, rightCols.findIdx (usingMatch name)⟩ r)

/-- What `hideMatchingColumns` does with the column at index `ic.1` of the slice
`base`: skip it, hide and append it, or append it unchanged. -/
def hideAction (base : Side) (joined : GoMap Name (Option scopeColumnPtr))
    (ic : Nat × scopeColumn) : Option scopeColumn :=
  match joined.get ic.2.name with
  | some foundCol =>
    if some (scopeColumnPtr.mk base ic.1) = foundCol then none
    else some { ic.2 with hidden := true }
  | none => some ic.2

/-- An example type system: two types are equivalent when they are equal, no
equality operator exists between different types, and the type with code 9 has
composite key encoding. -/
def exampleServices : Services :=
  { Equivalent := fun a b => decide (a = b)
    FindEqualComparisonFunction := fun _ _ => false
    DatumTypeHasCompositeKeyEncoding := fun t => decide (t = types.T.Typ 9)
    buildScalar := fun b e _ => Except.ok (GroupID.scalar e.code, b) }

/-- An example column of type code 1 with the given name, table name and id. -/
def exampleColumn (name table : String) (id : Nat) : scopeColumn :=
  { name := name
    table := { TableName := table, SchemaName := "", CatalogName := "",
               ExplicitSchema := false, ExplicitCatalog := false }
    typ := types.T.Typ 1
    id := id
    hidden := false
    expr := none
    group := GroupID.zero }

/-- The example of the doc comment: `left` has columns `(a, b, x)`. -/
def exampleLeft : List scopeColumn :=
  [exampleColumn "a" "left" 1, exampleColumn "b" "left" 2, exampleColumn "x" "left" 3]

/-- The example of the doc comment: `right` has columns `(a, b, y)`. -/
def exampleRight : List scopeColumn :=
  [exampleColumn "a" "right" 4, exampleColumn "b" "right" 5, exampleColumn "y" "right" 6]

/-- An empty enclosing scope. -/
def exampleInScope : scope := { cols := [], group := GroupID.zero, context := "" }

/-- The hidden copy of a column. -/
def scopeColumn.hide (c : scopeColumn) : scopeColumn := { c with hidden := true }

/-- The result of the inner join of the example with `USING (a, b)`. -/
def exampleInnerResult : usingResult :=
  { mergedCols := []
    out := GroupID.ConstructAnd (InternList
      [GroupID.ConstructEq (GroupID.ConstructVariable 1) (GroupID.ConstructVariable 4),
       GroupID.ConstructEq (GroupID.ConstructVariable 2) (GroupID.ConstructVariable 5)])
    outScope :=
      { cols := [exampleColumn "a" "left" 1, exampleColumn "b" "left" 2,
                 exampleColumn "x" "left" 3, (exampleColumn "a" "right" 4).hide,
                 (exampleColumn "b" "right" 5).hide, exampleColumn "y" "right" 6]
        group := GroupID.zero
        context := "" }
    leftCols := exampleLeft
    rightCols := [(exampleColumn "a" "right" 4).hide, (exampleColumn "b" "right" 5).hide,
                  exampleColumn "y" "right" 6]
    b := { numColumns := 6 } }

/-- Whether the column at index `i` of the slice `base` is the one chosen as the
merged representative of some USING name. -/
def isRepresentative (chosen : Name → Option scopeColumnPtr) (names : NameList)
    (base : Side) (i : Nat) : Bool :=
  names.any (fun n => decide (chosen n = some ⟨base, i⟩))

/-- The columns of the slice `base` that follow the merged columns in the output:
every column except those chosen as a merged representative, in order; a column
whose name is a USING name is hidden, every other column is unchanged. -/
def remainingColumns (chosen : Name → Option scopeColumnPtr) (names : NameList)
    (base : Side) (cols : List scopeColumn) : List scopeColumn :=
  cols.enum.filterMap (fun ic =>
    if isRepresentative chosen names base ic.1 then none
    else if ic.2.name ∈ names then some ic.2.hide
    else some ic.2)

/-- The result of the full outer join of the example with `USING (a, b)`, as
name, table name, id and hidden flag of each output column. -/
def exampleFullColumns : List (Name × Name × ColumnID × Bool) :=
  [("a", "", 7, false), ("b", "", 8, false),
   ("a", "left", 1, true), ("b", "left", 2, true), ("x", "left", 3, false),
   ("a", "right", 4, true), ("b", "right", 5, true), ("y", "right", 6, false)]

/-- The column synthesized in the example for the USING name `name`, under the id
`id`, for the left column of id `leftId` at index `idx` of the left slice and the
right column of id `rightId` at index `idx` of the right slice. -/
def exampleMerged (name : String) (id leftId rightId idx : Nat) : scopeColumn :=
  { name := name
    table := { TableName := "", SchemaName := "", CatalogName := "",
               ExplicitSchema := false, ExplicitCatalog := false }
    typ := types.T.Typ 1
    id := id
    hidden := false
    expr := some (TypedExpr.CoalesceExpr [⟨Side.left, idx⟩, ⟨Side.right, idx⟩] (types.T.Typ 1))
    group := GroupID.ConstructCoalesce (InternList
      [GroupID.ConstructVariable leftId, GroupID.ConstructVariable rightId]) }

/-- The result of the full outer join of the example with `USING (a, b)`. -/
def exampleFullResult : usingResult :=
  { mergedCols :=
      [(8, GroupID.ConstructCoalesce (InternList
            [GroupID.ConstructVariable 2, GroupID.ConstructVariable 5])),
       (7, GroupID.ConstructCoalesce (InternList
            [GroupID.ConstructVariable 1, GroupID.ConstructVariable 4]))]
    out := GroupID.ConstructAnd (InternList
      [GroupID.ConstructEq (GroupID.ConstructVariable 1) (GroupID.ConstructVariable 4),
       GroupID.ConstructEq (GroupID.ConstructVariable 2) (GroupID.ConstructVariable 5)])
    outScope :=
      { cols := [exampleMerged "a" 7 1 4 0, exampleMerged "b" 8 2 5 1,
                 (exampleColumn "a" "left" 1).hide, (exampleColumn "b" "left" 2).hide,
                 exampleColumn "x" "left" 3, (exampleColumn "a" "right" 4).hide,
                 (exampleColumn "b" "right" 5).hide, exampleColumn "y" "right" 6]
        group := GroupID.zero
        context := "" }
    leftCols := [(exampleColumn "a" "left" 1).hide, (exampleColumn "b" "left" 2).hide,
                 exampleColumn "x" "left" 3]
    rightCols := [(exampleColumn "a" "right" 4).hide, (exampleColumn "b" "right" 5).hide,
                  exampleColumn "y" "right" 6]
    b := { numColumns := 8 } }

/-- A left scope in which two non-hidden columns carry the name `a`. -/
def exampleRepeatedLeft : scope :=
  { cols := [exampleColumn "a" "left" 1, exampleColumn "a" "left" 2]
    group := GroupID.relational 1
    context := "" }

/-- A right scope in which two non-hidden columns carry the name `a`. -/
def exampleRepeatedRight : scope :=
  { cols := [exampleColumn "a" "right" 4, exampleColumn "a" "right" 5,
             exampleColumn "b" "right" 6]
    group := GroupID.relational 2
    context := "" }

/-- Two table names match in all name parts: table, schema and catalog. -/
def sameQualifier (a b : TableName) : Prop :=
  a.TableName = b.TableName ∧ a.SchemaName = b.SchemaName ∧ a.CatalogName = b.CatalogName

/-- Some left column and some right column carry the same qualified table name,
with a non-empty table name. -/
def aliasCollision (leftScope rightScope : scope) : Prop :=
  ∃ l ∈ leftScope.cols, ∃ r ∈ rightScope.cols,
    l.table.TableName ≠ "" ∧ r.table.TableName ≠ "" ∧
    l.table.TableName = r.table.TableName ∧ l.table.SchemaName = r.table.SchemaName ∧
    l.table.CatalogName = r.table.CatalogName

/-- A left scope whose columns come from table `t1`. -/
def exampleAliasLeft : scope :=
  { cols := [exampleColumn "a" "t1" 1, exampleColumn "b" "t1" 2]
    group := GroupID.relational 1
    context := "" }

/-- A right scope with columns from table `t2` followed by a column from `t1`. -/
def exampleAliasRight : scope :=
  { cols := [exampleColumn "c" "t2" 3, exampleColumn "d" "t2" 4, exampleColumn "e" "t1" 5]
    group := GroupID.relational 2
    context := "" }

/-- A scope of two anonymous columns (empty table name). -/
def exampleAnonymous : scope :=
  { cols := [exampleColumn "a" "" 1, exampleColumn "a" "" 2]
    group := GroupID.relational 3
    context := "" }

/-- A left column list without any column named `z`, with a hidden column `h`. -/
def exampleHiddenLeft : List scopeColumn :=
  [exampleColumn "a" "left" 1, (exampleColumn "h" "left" 2).hide, exampleColumn "h" "left" 3]

/-- A right column list whose column `a` has the type of code 2. -/
def exampleMismatchRight : List scopeColumn :=
  [{ exampleColumn "a" "right" 4 with typ := types.T.Typ 2 }, exampleColumn "y" "right" 6]

/-- The state of the loop of `buildUsingJoinPredicate` before the first name. -/
def exampleInitialState : usingState :=
  { joined := [], conditions := [], mergedCols := [], outScope := exampleInScope.push,
    b := { numColumns := 6 } }

/-- Whether an error is an internal failure (a plain Go `panic` or a runtime
error) rather than a `builderError` carrying a pg error code for the user. -/
def Error.isInternal : Error → Bool
  | Error.unsupportedJoinType _ => true
  | Error.unsupportedJoinCondition => true
  | Error.indexOutOfRange => true
  | _ => false

/-- The fields of a column that identify it for the caller: id, name, table name,
type and hidden flag. -/
def scopeColumn.fields (c : scopeColumn) : ColumnID × Name × TableName × types.T × Bool :=
  (c.id, c.name, c.table, c.typ, c.hidden)

/-- The equality predicate emitted for a USING name, between the left and the
right column it resolves to. -/
def IsUsingCondition (leftCols rightCols : List scopeColumn) (name : Name) (cond : GroupID) :
    Prop :=
  ∃ l r, leftCols.find? (usingMatch name) = some l ∧
    rightCols.find? (usingMatch name) = some r ∧
    cond = GroupID.ConstructEq (GroupID.ConstructVariable l.id) (GroupID.ConstructVariable r.id)

/-- The example left scope, over the relational group 1. -/
def exampleLeftScope : scope :=
  { cols := exampleLeft, group := GroupID.relational 1, context := "" }

/-- The example right scope, over the relational group 2. -/
def exampleRightScope : scope :=
  { cols := exampleRight, group := GroupID.relational 2, context := "" }

/-- The columns of the full outer join of the example after the projection loop:
the two merged columns keep their COALESCE group, all others are passthrough. -/
def exampleFullJoinColumns : List scopeColumn :=
  exampleFullResult.outScope.cols.map
    (fun c => { c with group := (exampleFullResult.mergedCols.get c.id).getD GroupID.zero })

/-- The result of `buildUsingJoin` for the full outer join of the example with
`USING (a, b)`: a projection over the full join. -/
def exampleFullJoinResult : joinResult :=
  { outScope :=
      { cols := exampleFullJoinColumns
        group := GroupID.ConstructProject
          (GroupID.ConstructFullJoin (GroupID.relational 1) (GroupID.relational 2)
            (GroupID.ConstructFilters (InternList [exampleFullResult.out])))
          [7, 8, 1, 2, 3, 4, 5, 6]
          (InternList (exampleFullJoinColumns.map (fun c => c.group)))
        context := "" }
    leftScope := { exampleLeftScope with cols := exampleFullResult.leftCols }
    rightScope := { exampleRightScope with cols := exampleFullResult.rightCols }
    b := { numColumns := 8 } }

/-- What `hideMatchingColumns` leaves in the slice `base` at index `ic.1`: the
column itself, or the column with `hidden = true` after the write through the
pointer. -/
def writeAction (base : Side) (joined : GoMap Name (Option scopeColumnPtr))
    (ic : Nat × scopeColumn) : scopeColumn :=
  match joined.get ic.2.name with
  | some foundCol =>
    if some (scopeColumnPtr.mk base ic.1) = foundCol then ic.2
    else { ic.2 with hidden := true }
  | none => ic.2

/-- The slice `base` as a successful call leaves it: a column named like a USING
name that was not chosen as a merged representative has `hidden = true`, every
other column is unchanged. -/
def writtenColumns (chosen : Name → Option scopeColumnPtr) (names : NameList)
    (base : Side) (cols : List scopeColumn) : List scopeColumn :=
  cols.enum.map (fun ic =>
    if ic.2.name ∈ names ∧ isRepresentative chosen names base ic.1 = false then ic.2.hide
    else ic.2)

/-- The ids of the columns that `hideMatchingColumns` appends for the slice
`base`, whose first index is `k`. -/
def hideIds (base : Side) (joined : GoMap Name (Option scopeColumnPtr)) (k : Nat)
    (cols : List scopeColumn) : List ColumnID :=
  ((cols.enumFrom k).filterMap (hideAction base joined)).map (fun c => c.id)

/-- The ids of the output columns that a call would produce if the loop stopped
in the state `st`: the merged columns so far, then what `hideMatchingColumns`
appends for the left and for the right slice. -/
def pendingIds (leftCols rightCols : List scopeColumn) (st : usingState) : List ColumnID :=
  st.outScope.cols.map (fun c => c.id) ++ hideIds Side.left st.joined 0 leftCols ++
    hideIds Side.right st.joined 0 rightCols

/-- The USING name list of a join condition: the common columns for NATURAL, the
given list for USING, none for the other conditions. -/
def usingNames (cond : JoinCond) (leftScope rightScope : scope) : NameList :=
  match cond with
  | JoinCond.NaturalJoinCond => commonColumns leftScope rightScope
  | JoinCond.UsingJoinCond cols => cols
  | _ => []

/-- The ids of the output columns of the full outer join of the example: the
synthesized ids 7 and 8, then the ids 1 to 6 of the input columns. -/
def exampleFullJoinIds : List ColumnID := [7, 8, 1, 2, 3, 4, 5, 6]

/-- The checks of the USING-predicate builder as the spec words them: the names
are taken in list order, `seen` being the names already processed; for each name
the checks are, in this order, duplicate name, missing on the left, missing on
the right, type mismatch; the first check that fails gives the error, and `none`
means that every name passes. -/
def firstFailure (sv : Services) (leftCols rightCols : List scopeColumn) :
    List Name → List Name → Option Error
  | _, [] => none
  | seen, n :: rest =>
    if n ∈ seen then some (Error.DuplicateColumn n)
    else
      match leftCols.find? (usingMatch n) with
      | none => some (Error.UndefinedColumn n "left")
      | some l =>
        match rightCols.find? (usingMatch n) with
        | none => some (Error.UndefinedColumn n "right")
        | some r =>
          if sv.Equivalent l.typ r.typ = false ∧
              sv.FindEqualComparisonFunction l.typ r.typ = false then
            some (Error.DatatypeMismatch l.typ r.typ l.name)
          else firstFailure sv leftCols rightCols (n :: seen) rest

/-- A left scope with two non-hidden columns named `x`, a name the right scope
does not carry, and one column named `a`. -/
def exampleUnsharedLeft : scope :=
  { cols := [exampleColumn "x" "left" 1, exampleColumn "x" "left" 2,
             exampleColumn "a" "left" 3]
    group := GroupID.relational 1
    context := "" }

/-! ## Theorems -/

/-! ## Lemmas on maps and on `findUsingColumn` -/

theorem GoMap.get_filter_ne {κ ν : Type} [DecidableEq κ] (m : GoMap κ ν) (k k1 : κ)
    (h : k1 ≠ k) :
    GoMap.get (m.filter (fun e => !decide (e.1 = k))) k1 = GoMap.get m k1 := by
  unfold GoMap.get
  rw [List.find?_filter]
  have hp : (fun a : κ × ν => decide ((!decide (a.1 = k)) = true ∧ decide (a.1 = k1) = true)) =
      (fun e : κ × ν => decide (e.1 = k1)) := by
    funext a
    by_cases h1 : a.1 = k1
    · have h2 : ¬ a.1 = k := fun e => h (h1 ▸ e)
      simp [h1, h2]
      exact h
    · simp [h1]
  rw [hp]

theorem GoMap.get_set {κ ν : Type} [DecidableEq κ] (m : GoMap κ ν) (k : κ) (v : ν) (k1 : κ) :
    GoMap.get (GoMap.set m k v) k1 = if k1 = k then some v else GoMap.get m k1 := by
  by_cases h : k1 = k
  · subst h
    simp [GoMap.get, GoMap.set, List.find?_cons]
  · have h2 : ¬ k = k1 := fun e => h e.symm
    have h3 := GoMap.get_filter_ne m k k1 h
    rw [if_neg h, ← h3]
    unfold GoMap.get GoMap.set
    rw [List.find?_cons]
    simp only [h2, decide_False]

theorem findUsingColumn_loop_eq (base : Side) (name : Name) (context : String)
    (cols : List scopeColumn) (i : Nat) :
    findUsingColumn.loop base name context i cols =
      match cols.find? (usingMatch name) with
      | some c => Except.ok (⟨base, i + cols.findIdx (usingMatch name)⟩, c)
      | none => Except.error (Error.UndefinedColumn name context) := by
  induction cols generalizing i with
  | nil => rfl
  | cons col rest ih =>
    unfold findUsingColumn.loop
    by_cases h : usingMatch name col = true
    · have h2 : (!col.hidden && decide (col.name = name)) = true := h
      simp [h2, List.find?_cons, h, List.findIdx_cons]
    · have h2 : ¬ (!col.hidden && decide (col.name = name)) = true := h
      simp only [h2, if_false, ih]
      simp only [Bool.not_eq_true] at h
      simp only [List.find?_cons, h, List.findIdx_cons]
      cases hf : List.find? (usingMatch name) rest with
      | none => rfl
      | some c => simp; omega

theorem findUsingColumn_eq (base : Side) (cols : List scopeColumn) (name : Name)
    (context : String) :
    findUsingColumn base cols name context =
      match cols.find? (usingMatch name) with
      | some c => Except.ok (⟨base, cols.findIdx (usingMatch name)⟩, c)
      | none => Except.error (Error.UndefinedColumn name context) := by
  unfold findUsingColumn
  rw [findUsingColumn_loop_eq]
  simp

/-! ## The loop of `buildUsingJoinPredicate` -/

theorem body_eq (sv : Services) (joinType : JoinType) (leftCols rightCols : List scopeColumn)
    (st : usingState) (name : Name) :
    buildUsingJoinPredicate.body sv joinType leftCols rightCols st name =
      match st.joined.get name with
      | some _ => Except.error (Error.DuplicateColumn name)
      | none =>
        match leftCols.find? (usingMatch name) with
        | none => Except.error (Error.UndefinedColumn name "left")
        | some l =>
          match rightCols.find? (usingMatch name) with
          | none => Except.error (Error.UndefinedColumn name "right")
          | some r =>
            if sv.Equivalent l.typ r.typ = false ∧
                sv.FindEqualComparisonFunction l.typ r.typ = false then
              Except.error (Error.DatatypeMismatch l.typ r.typ l.name)
            else
              Except.ok (buildUsingJoinPredicate.merge sv joinType st name
                ⟨Side.left, leftCols.findIdx (usingMatch name)⟩ l
                ⟨Side.right, rightCols.findIdx (usingMatch name)⟩ r) := by
  unfold buildUsingJoinPredicate.body
  rw [findUsingColumn_eq, findUsingColumn_eq]
  cases st.joined.get name with
  | some _ => rfl
  | none =>
    cases leftCols.find? (usingMatch name) with
    | none => rfl
    | some l =>
      cases rightCols.find? (usingMatch name) with
      | none => rfl
      | some r =>
        simp only []
        by_cases h1 : sv.Equivalent l.typ r.typ = true <;>
          by_cases h2 : sv.FindEqualComparisonFunction l.typ r.typ = true <;>
          simp [h1, h2]

theorem body_ok {sv : Services} {joinType : JoinType} {leftCols rightCols : List scopeColumn}
    {st st1 : usingState} {name : Name}
    (h : buildUsingJoinPredicate.body sv joinType leftCols rightCols st name = Except.ok st1) :
    st.joined.get name = none ∧
    ∃ l r, leftCols.find? (usingMatch name) = some l ∧
      rightCols.find? (usingMatch name) = some r ∧
      (sv.Equivalent l.typ r.typ = true ∨ sv.FindEqualComparisonFunction l.typ r.typ = true) ∧
      st1 = buildUsingJoinPredicate.merge sv joinType st name
        ⟨Side.left, leftCols.findIdx (usingMatch name)⟩ l
        ⟨Side.right, rightCols.findIdx (usingMatch name)⟩ r := by
  rw [body_eq] at h
  cases hj : st.joined.get name with
  | some _ => rw [hj] at h; simp at h
  | none =>
    rw [hj] at h
    refine ⟨rfl, ?_⟩
    cases hl : leftCols.find? (usingMatch name) with
    | none => rw [hl] at h; simp at h
    | some l =>
      cases hr : rightCols.find? (usingMatch name) with
      | none => rw [hl, hr] at h; simp at h
      | some r =>
        rw [hl, hr] at h
        simp only [] at h
        split at h
        · simp at h
        · rename_i hc
          refine ⟨l, r, rfl, rfl, ?_, ?_⟩
          · by_cases h1 : sv.Equivalent l.typ r.typ = true
            · exact Or.inl h1
            · right
              simp only [Bool.not_eq_true] at h1
              simp only [h1, true_and, Bool.not_eq_false] at hc
              exact hc
          · injection h with h
            exact h.symm

theorem merge_joined (sv : Services) (joinType : JoinType) (leftCols rightCols : List scopeColumn)
    (st : usingState) (name : Name) (l r : scopeColumn)
    (hl : leftCols.find? (usingMatch name) = some l) :
    (buildUsingJoinPredicate.merge sv joinType st name
        ⟨Side.left, leftCols.findIdx (usingMatch name)⟩ l
        ⟨Side.right, rightCols.findIdx (usingMatch name)⟩ r).joined =
      st.joined.set name (chosenRepresentative sv joinType leftCols rightCols name) := by
  unfold buildUsingJoinPredicate.merge chosenRepresentative
  rw [hl]
  simp only []
  split
  · rfl
  · split <;> rfl

theorem loop_joined (sv : Services) (joinType : JoinType) (leftCols rightCols : List scopeColumn) :
    ∀ (names : List Name) (st st1 : usingState),
      buildUsingJoinPredicate.loop sv joinType leftCols rightCols names st = Except.ok st1 →
      names.Nodup ∧ (∀ n ∈ names, st.joined.get n = none) ∧
      ∀ n, st1.joined.get n =
        if n ∈ names then some (chosenRepresentative sv joinType leftCols rightCols n)
        else st.joined.get n := by
  intro names
  induction names with
  | nil =>
    intro st st1 h
    simp only [buildUsingJoinPredicate.loop, Except.ok.injEq] at h
    subst h
    simp
  | cons name rest ih =>
    intro st st1 h
    unfold buildUsingJoinPredicate.loop at h
    cases hb : buildUsingJoinPredicate.body sv joinType leftCols rightCols st name with
    | error e => rw [hb] at h; simp at h
    | ok st2 =>
      rw [hb] at h
      simp only [] at h
      obtain ⟨hnd, hnone, hget⟩ := ih st2 st1 h
      obtain ⟨hj, l, r, hl, _, _, hst2⟩ := body_ok hb
      have hj2 : ∀ n, st2.joined.get n =
          if n = name then some (chosenRepresentative sv joinType leftCols rightCols name)
          else st.joined.get n := by
        intro n
        rw [hst2, merge_joined sv joinType leftCols rightCols st name l r hl, GoMap.get_set]
      have hnotin : name ∉ rest := by
        intro hin
        have := hnone name hin
        rw [hj2 name] at this
        simp at this
      refine ⟨List.nodup_cons.mpr ⟨hnotin, hnd⟩, ?_, ?_⟩
      · intro n hn
        rcases List.mem_cons.mp hn with h1 | h1
        · rw [h1]; exact hj
        · have := hnone n h1
          rw [hj2 n] at this
          have hne : n ≠ name := fun e => hnotin (e ▸ h1)
          rw [if_neg hne] at this
          exact this
      · intro n
        rw [hget n]
        by_cases h1 : n ∈ rest
        · simp [h1]
        · rw [if_neg h1, hj2 n]
          by_cases h2 : n = name
          · subst h2; simp
          · simp [h1, h2]

theorem merge_left (sv : Services) (joinType : JoinType) (st : usingState) (name : Name)
    (lp rp : scopeColumnPtr) (l r : scopeColumn)
    (hA : joinType = sqlbase.InnerJoin ∨ joinType = sqlbase.LeftOuterJoin) :
    buildUsingJoinPredicate.merge sv joinType st name lp l rp r =
      { st with
        conditions := st.conditions ++
          [GroupID.ConstructEq (GroupID.ConstructVariable l.id) (GroupID.ConstructVariable r.id)]
        outScope := { st.outScope with cols := st.outScope.cols ++ [l] }
        joined := st.joined.set name (some lp) } := by
  unfold buildUsingJoinPredicate.merge
  simp only []
  rw [if_pos hA]

theorem merge_right (sv : Services) (joinType : JoinType) (st : usingState) (name : Name)
    (lp rp : scopeColumnPtr) (l r : scopeColumn)
    (hA : ¬ (joinType = sqlbase.InnerJoin ∨ joinType = sqlbase.LeftOuterJoin))
    (hB : joinType = sqlbase.RightOuterJoin ∧ sv.DatumTypeHasCompositeKeyEncoding l.typ = false) :
    buildUsingJoinPredicate.merge sv joinType st name lp l rp r =
      { st with
        conditions := st.conditions ++
          [GroupID.ConstructEq (GroupID.ConstructVariable l.id) (GroupID.ConstructVariable r.id)]
        outScope := { st.outScope with cols := st.outScope.cols ++ [r] }
        joined := st.joined.set name (some rp) } := by
  unfold buildUsingJoinPredicate.merge
  simp only []
  rw [if_neg hA, if_pos hB]

theorem merge_synth (sv : Services) (joinType : JoinType) (st : usingState) (name : Name)
    (lp rp : scopeColumnPtr) (l r : scopeColumn)
    (hA : ¬ (joinType = sqlbase.InnerJoin ∨ joinType = sqlbase.LeftOuterJoin))
    (hB : ¬ (joinType = sqlbase.RightOuterJoin ∧
      sv.DatumTypeHasCompositeKeyEncoding l.typ = false)) :
    buildUsingJoinPredicate.merge sv joinType st name lp l rp r =
      { conditions := st.conditions ++
          [GroupID.ConstructEq (GroupID.ConstructVariable l.id) (GroupID.ConstructVariable r.id)]
        outScope := { st.outScope with
          cols := st.outScope.cols ++ [coalesceColumn (st.b.numColumns + 1) lp l rp r] }
        b := { numColumns := st.b.numColumns + 1 }
        mergedCols := st.mergedCols.set (st.b.numColumns + 1) (coalesceGroup l r)
        joined := st.joined.set name none } := by
  unfold buildUsingJoinPredicate.merge
  simp only []
  rw [if_neg hA, if_neg hB]
  rfl

theorem MergedSpec.weaken {sv : Services} {joinType : JoinType}
    {leftCols rightCols : List scopeColumn} {lo lo1 hi : Nat} {m : GoMap ColumnID GroupID}
    {name : Name} {col : scopeColumn} (hlo : lo ≤ lo1)
    (h : MergedSpec sv joinType leftCols rightCols lo1 hi m name col) :
    MergedSpec sv joinType leftCols rightCols lo hi m name col := by
  obtain ⟨l, r, hl, hr, h1, h2, h3⟩ := h
  refine ⟨l, r, hl, hr, h1, h2, ?_⟩
  intro hA hB
  obtain ⟨k, hk1, hk2, hk3, hk4⟩ := h3 hA hB
  exact ⟨k, by omega, hk2, hk3, hk4⟩

theorem loop_merged (sv : Services) (joinType : JoinType) (leftCols rightCols : List scopeColumn) :
    ∀ (names : List Name) (st st1 : usingState),
      buildUsingJoinPredicate.loop sv joinType leftCols rightCols names st = Except.ok st1 →
      st.b.numColumns ≤ st1.b.numColumns ∧
      (∀ k, k ≤ st.b.numColumns ∨ st1.b.numColumns < k →
        st1.mergedCols.get k = st.mergedCols.get k) ∧
      (∀ k, st.b.numColumns < k → k ≤ st1.b.numColumns → ∃ g, st1.mergedCols.get k = some g) ∧
      ((joinType = sqlbase.InnerJoin ∨ joinType = sqlbase.LeftOuterJoin) →
        st1.mergedCols = st.mergedCols) ∧
      ∃ merged, st1.outScope.cols = st.outScope.cols ++ merged ∧
        List.Forall₂ (MergedSpec sv joinType leftCols rightCols st.b.numColumns
          st1.b.numColumns st1.mergedCols) names merged := by
  intro names
  induction names with
  | nil =>
    intro st st1 h
    simp only [buildUsingJoinPredicate.loop, Except.ok.injEq] at h
    subst h
    refine ⟨le_refl _, fun _ _ => rfl, ?_, fun _ => rfl, [], by simp, List.Forall₂.nil⟩
    intro k h1 h2
    omega
  | cons name rest ih =>
    intro st st1 h
    unfold buildUsingJoinPredicate.loop at h
    cases hb : buildUsingJoinPredicate.body sv joinType leftCols rightCols st name with
    | error e => rw [hb] at h; simp at h
    | ok st2 =>
      rw [hb] at h
      simp only [] at h
      obtain ⟨hle, hframe, hkeys, hnone, merged, hcols, hall⟩ := ih st2 st1 h
      obtain ⟨_, l, r, hl, hr, _, hst2⟩ := body_ok hb
      by_cases hA : joinType = sqlbase.InnerJoin ∨ joinType = sqlbase.LeftOuterJoin
      · rw [merge_left sv joinType st name _ _ l r hA] at hst2
        subst hst2
        refine ⟨hle, hframe, hkeys, hnone, l :: merged, ?_, ?_⟩
        · rw [hcols]; simp
        · exact List.Forall₂.cons
            ⟨l, r, hl, hr, fun _ => rfl, fun h1 => absurd hA h1, fun h1 => absurd hA h1⟩ hall
      · by_cases hB : joinType = sqlbase.RightOuterJoin ∧
            sv.DatumTypeHasCompositeKeyEncoding l.typ = false
        · rw [merge_right sv joinType st name _ _ l r hA hB] at hst2
          subst hst2
          refine ⟨hle, hframe, hkeys, fun h1 => absurd h1 hA, r :: merged, ?_, ?_⟩
          · rw [hcols]; simp
          · exact List.Forall₂.cons
              ⟨l, r, hl, hr, fun h1 => absurd h1 hA, fun _ _ => rfl, fun _ h2 => absurd hB h2⟩ hall
        · rw [merge_synth sv joinType st name _ _ l r hA hB] at hst2
          subst hst2
          simp only [] at hle hframe hkeys hcols hall
          have hset : ∀ k, GoMap.get (GoMap.set st.mergedCols (st.b.numColumns + 1)
              (coalesceGroup l r)) k =
              if k = st.b.numColumns + 1 then some (coalesceGroup l r)
              else st.mergedCols.get k := fun k => GoMap.get_set _ _ _ _
          refine ⟨by omega, ?_, ?_, fun h1 => absurd h1 hA, ?_⟩
          · intro k hk
            have hne : k ≠ st.b.numColumns + 1 := by omega
            rw [hframe k (by omega), hset k, if_neg hne]
          · intro k h1 h2
            by_cases hk : k = st.b.numColumns + 1
            · refine ⟨coalesceGroup l r, ?_⟩
              rw [hframe k (by omega), hset k, if_pos hk]
            · exact hkeys k (by omega) h2
          · refine ⟨coalesceColumn (st.b.numColumns + 1)
              ⟨Side.left, leftCols.findIdx (usingMatch name)⟩ l
              ⟨Side.right, rightCols.findIdx (usingMatch name)⟩ r :: merged, ?_, ?_⟩
            · rw [hcols]; simp
            · refine List.Forall₂.cons ?_ (hall.imp (fun _ _ h1 => MergedSpec.weaken (by omega) h1))
              refine ⟨l, r, hl, hr, fun h1 => absurd h1 hA, fun _ h2 => absurd h2 hB, ?_⟩
              intro _ _
              refine ⟨st.b.numColumns + 1, by omega, hle, ?_, rfl⟩
              rw [hframe _ (Or.inl (le_refl _)), hset, if_pos rfl]

theorem usingMatch_iff (name : Name) (c : scopeColumn) :
    usingMatch name c = true ↔ c.hidden = false ∧ c.name = name := by
  unfold usingMatch
  simp

theorem MergedSpec.name_eq {sv : Services} {joinType : JoinType}
    {leftCols rightCols : List scopeColumn} {lo hi : Nat} {m : GoMap ColumnID GroupID}
    {name : Name} {col : scopeColumn}
    (h : MergedSpec sv joinType leftCols rightCols lo hi m name col) :
    col.name = name ∧ col.hidden = false := by
  obtain ⟨l, r, hl, hr, h1, h2, h3⟩ := h
  have hlm := (usingMatch_iff name l).mp (List.find?_some hl)
  have hrm := (usingMatch_iff name r).mp (List.find?_some hr)
  by_cases hA : joinType = sqlbase.InnerJoin ∨ joinType = sqlbase.LeftOuterJoin
  · rw [h1 hA]; exact ⟨hlm.2, hlm.1⟩
  · by_cases hB : joinType = sqlbase.RightOuterJoin ∧
        sv.DatumTypeHasCompositeKeyEncoding l.typ = false
    · rw [h2 hA hB]; exact ⟨hrm.2, hrm.1⟩
    · obtain ⟨k, _, _, _, hk⟩ := h3 hA hB
      rw [hk]
      exact ⟨hlm.2, rfl⟩

theorem forall₂_mergedSpec_names {sv : Services} {joinType : JoinType}
    {leftCols rightCols : List scopeColumn} {lo hi : Nat} {m : GoMap ColumnID GroupID}
    {names : List Name} {merged : List scopeColumn}
    (h : List.Forall₂ (MergedSpec sv joinType leftCols rightCols lo hi m) names merged) :
    merged.map (fun c => c.name) = names ∧ (∀ c ∈ merged, c.hidden = false) ∧
      merged.length = names.length := by
  induction h with
  | nil => simp
  | cons h1 _ ih =>
    obtain ⟨ih1, ih2, ih3⟩ := ih
    have hn := MergedSpec.name_eq h1
    refine ⟨?_, ?_, ?_⟩
    · simp [hn.1, ih1]
    · intro c hc
      rcases List.mem_cons.mp hc with h2 | h2
      · rw [h2]; exact hn.2
      · exact ih2 c h2
    · simp [ih3]

/-! ## `hideMatchingColumns` -/

theorem hide_loop_snd (base : Side) (joined : GoMap Name (Option scopeColumnPtr)) :
    ∀ (cols : List scopeColumn) (i : Nat) (acc : List scopeColumn),
      (hideMatchingColumns.loop base joined i cols acc).2 =
        acc ++ (cols.enumFrom i).filterMap (hideAction base joined) := by
  intro cols
  induction cols with
  | nil => intro i acc; simp [hideMatchingColumns.loop]
  | cons col rest ih =>
    intro i acc
    unfold hideMatchingColumns.loop
    simp only [List.enumFrom_cons, List.filterMap_cons, hideAction]
    cases hj : joined.get col.name with
    | none => simp only [ih, List.append_assoc, List.singleton_append]
    | some foundCol =>
      simp only []
      by_cases hp : some (scopeColumnPtr.mk base i) = foundCol
      · simp only [hp, if_true, ih]
      · simp only [hp, if_false, ih, List.append_assoc, List.singleton_append]

theorem hide_visible (base : Side) (joined : GoMap Name (Option scopeColumnPtr)) :
    ∀ (cols : List scopeColumn) (i : Nat),
      ((cols.enumFrom i).filterMap (hideAction base joined)).filter (fun c => !c.hidden) =
        cols.filter (fun c => !c.hidden && (joined.get c.name).isNone) := by
  intro cols
  induction cols with
  | nil => intro i; rfl
  | cons col rest ih =>
    intro i
    simp only [List.enumFrom_cons, List.filterMap_cons, hideAction, List.filter_cons]
    cases hj : joined.get col.name with
    | none =>
      simp only [Option.isNone_none, Bool.and_true, List.filter_cons]
      by_cases hh : col.hidden = true
      · simp [hh, ih]
      · simp [hh, ih]
    | some foundCol =>
      simp only [Option.isNone_some, Bool.and_false]
      by_cases hp : some (scopeColumnPtr.mk base i) = foundCol
      · simp [hp, ih]
      · simp [hp, ih, List.filter_cons]

theorem buildUsingJoinPredicate_ok {sv : Services} {b : Builder} {joinType : JoinType}
    {leftCols rightCols : List scopeColumn} {names : NameList} {inScope : scope}
    {res : usingResult}
    (h : buildUsingJoinPredicate sv b joinType leftCols rightCols names inScope = Except.ok res) :
    ∃ st, buildUsingJoinPredicate.loop sv joinType leftCols rightCols names
        { joined := [], conditions := [], mergedCols := [], outScope := inScope.push, b := b } =
          Except.ok st ∧
      res.mergedCols = st.mergedCols ∧ res.out = constructFilter st.conditions ∧
      res.b = st.b ∧
      res.outScope.cols = st.outScope.cols ++
        (leftCols.enum.filterMap (hideAction Side.left st.joined)) ++
        (rightCols.enum.filterMap (hideAction Side.right st.joined)) := by
  unfold buildUsingJoinPredicate at h
  simp only [] at h
  split at h
  · simp at h
  · rename_i st hst
    refine ⟨st, hst, ?_⟩
    injection h with h
    subst h
    simp [hideMatchingColumns, hide_loop_snd, List.enum]

/-! ## The column-order law of USING joins -/

theorem usingJoin_visible (sv : Services) (b : Builder) (joinType : JoinType)
    (leftCols rightCols : List scopeColumn) (names : NameList) (inScope : scope)
    (res : usingResult)
    (h : buildUsingJoinPredicate sv b joinType leftCols rightCols names inScope = Except.ok res) :
    names.Nodup ∧
    ∃ merged : List scopeColumn,
      merged.map (fun c => c.name) = names ∧
      (∀ c ∈ merged, c.hidden = false) ∧
      merged = res.outScope.cols.take names.length ∧
      res.outScope.cols.filter (fun c => !c.hidden) =
        merged ++ leftCols.filter (fun c => !c.hidden && decide (c.name ∉ names)) ++
          rightCols.filter (fun c => !c.hidden && decide (c.name ∉ names)) := by
  obtain ⟨st, hst, _, _, _, hcols⟩ := buildUsingJoinPredicate_ok h
  obtain ⟨hnd, _, hj⟩ := loop_joined sv joinType leftCols rightCols names _ st hst
  obtain ⟨_, _, _, _, merged, hm, hall⟩ := loop_merged sv joinType leftCols rightCols names _ st hst
  obtain ⟨hn1, hn2, hn3⟩ := forall₂_mergedSpec_names hall
  have hpush : (scope.push inScope).cols = [] := rfl
  simp only [hpush, List.nil_append] at hm
  have hnone : ∀ c : scopeColumn,
      (!c.hidden && (st.joined.get c.name).isNone) = (!c.hidden && decide (c.name ∉ names)) := by
    intro c
    rw [hj c.name]
    by_cases hc : c.name ∈ names
    · simp [hc]
    · simp [hc, GoMap.get]
  refine ⟨hnd, merged, hn1, hn2, ?_, ?_⟩
  · rw [hcols, hm, List.append_assoc, ← hn3, List.take_left]
  · rw [hcols, hm, List.filter_append, List.filter_append]
    unfold List.enum
    rw [hide_visible, hide_visible]
    have hmf : merged.filter (fun c => !c.hidden) = merged := by
      apply List.filter_eq_self.mpr
      intro c hc
      simp [hn2 c hc]
    rw [hmf]
    simp only [hnone]

/-- C1 (column-order law).  On every successful call of `buildUsingJoinPredicate`,
for every join type, the non-hidden columns of the output scope are, in order:
one merged column per USING name in USING-list order (the first `names.length`
columns of the scope, named like the USING names and not hidden), then the
non-hidden left columns whose name is not a USING name, in left order, then the
non-hidden right columns whose name is not a USING name, in right order. -/
theorem usingJoin_column_order (sv : Services) (b : Builder) (joinType : JoinType)
    (leftCols rightCols : List scopeColumn) (names : NameList) (inScope : scope)
    (res : usingResult)
    (h : buildUsingJoinPredicate sv b joinType leftCols rightCols names inScope = Except.ok res) :
    ∃ merged : List scopeColumn,
      merged.map (fun c => c.name) = names ∧
      (∀ c ∈ merged, c.hidden = false) ∧
      merged = res.outScope.cols.take names.length ∧
      res.outScope.cols.filter (fun c => !c.hidden) =
        merged ++ leftCols.filter (fun c => !c.hidden && decide (c.name ∉ names)) ++
          rightCols.filter (fun c => !c.hidden && decide (c.name ∉ names)) :=
  (usingJoin_visible sv b joinType leftCols rightCols names inScope res h).2

/-- Witness for C1: `left(a,b,x)`, `right(a,b,y)`, `USING (a, b)`, inner join; the
visible columns are `[a, b, left.x, right.y]`. -/
theorem usingJoin_column_order_witness :
    buildUsingJoinPredicate exampleServices { numColumns := 6 } sqlbase.InnerJoin
        exampleLeft exampleRight ["a", "b"] exampleInScope = Except.ok exampleInnerResult ∧
      exampleInnerResult.outScope.cols.filter (fun c => !c.hidden) =
        [exampleColumn "a" "left" 1, exampleColumn "b" "left" 2,
         exampleColumn "x" "left" 3, exampleColumn "y" "right" 6] ∧
      ∃ merged : List scopeColumn,
        merged.map (fun c => c.name) = ["a", "b"] ∧
        (∀ c ∈ merged, c.hidden = false) ∧
        merged = exampleInnerResult.outScope.cols.take ["a", "b"].length ∧
        exampleInnerResult.outScope.cols.filter (fun c => !c.hidden) =
          merged ++ exampleLeft.filter (fun c => !c.hidden && decide (c.name ∉ ["a", "b"])) ++
            exampleRight.filter (fun c => !c.hidden && decide (c.name ∉ ["a", "b"])) :=
  ⟨by decide, by decide,
    usingJoin_column_order exampleServices { numColumns := 6 } sqlbase.InnerJoin
      exampleLeft exampleRight ["a", "b"] exampleInScope exampleInnerResult (by decide)⟩

theorem filter_name_of_nodup (n : Name) :
    ∀ (merged : List scopeColumn) (names : List Name),
      merged.map (fun c => c.name) = names → names.Nodup → n ∈ names →
      ∃ c, merged[names.indexOf n]? = some c ∧
        merged.filter (fun c => decide (c.name = n)) = [c] := by
  intro merged
  induction merged with
  | nil =>
    intro names h _ hn
    simp at h
    subst h
    simp at hn
  | cons c rest ih =>
    intro names h hnd hn
    simp only [List.map_cons] at h
    subst h
    have hnd2 := List.nodup_cons.mp hnd
    by_cases hc : c.name = n
    · refine ⟨c, ?_, ?_⟩
      · simp [hc]
      · have hnot : n ∉ rest.map (fun c => c.name) := hc ▸ hnd2.1
        have : rest.filter (fun c => decide (c.name = n)) = [] := by
          apply List.filter_eq_nil_iff.mpr
          intro a ha
          simp only [decide_eq_true_eq]
          intro hna
          exact hnot (List.mem_map.mpr ⟨a, ha, hna⟩)
        simp [List.filter_cons, hc, this]
    · have hn2 : n ∈ rest.map (fun c => c.name) := by
        rcases List.mem_cons.mp hn with h1 | h1
        · exact absurd h1.symm hc
        · exact h1
      obtain ⟨c1, h1, h2⟩ := ih _ rfl hnd2.2 hn2
      refine ⟨c1, ?_, ?_⟩
      · rw [List.indexOf_cons_ne _ hc]
        simpa using h1
      · simp [List.filter_cons, hc, h2]

/-- C3 (single visible column per USING name).  On every successful call of
`buildUsingJoinPredicate`, for every join type and every name of the USING list,
the output scope has exactly one non-hidden column with that name: filtering the
output columns on "not hidden and named `name`" leaves a single column, and it
is the merged column, at the position of `name` in the USING list.  Every other
output column with that name is therefore hidden. -/
theorem usingJoin_single_visible_column (sv : Services) (b : Builder) (joinType : JoinType)
    (leftCols rightCols : List scopeColumn) (names : NameList) (inScope : scope)
    (res : usingResult) (name : Name)
    (h : buildUsingJoinPredicate sv b joinType leftCols rightCols names inScope = Except.ok res)
    (hn : name ∈ names) :
    names.indexOf name < names.length ∧
    ∃ c, res.outScope.cols[names.indexOf name]? = some c ∧
      res.outScope.cols.filter (fun c => !c.hidden && decide (c.name = name)) = [c] := by
  obtain ⟨hnd, merged, hn1, hn2, hn3, hvis⟩ :=
    usingJoin_visible sv b joinType leftCols rightCols names inScope res h
  obtain ⟨c, hc1, hc2⟩ := filter_name_of_nodup name merged names hn1 hnd hn
  have hlt : names.indexOf name < names.length := List.indexOf_lt_length.mpr hn
  refine ⟨hlt, c, ?_, ?_⟩
  · rw [hn3, List.getElem?_take] at hc1
    simpa [hlt] using hc1
  · have hsplit : res.outScope.cols.filter (fun c => !c.hidden && decide (c.name = name)) =
        (res.outScope.cols.filter (fun c => !c.hidden)).filter
          (fun c => decide (c.name = name)) := by
      rw [List.filter_filter]
      congr 1
      funext a
      exact Bool.and_comm _ _
    rw [hsplit, hvis, List.filter_append, List.filter_append, hc2]
    have hempty : ∀ cols : List scopeColumn,
        (cols.filter (fun c => !c.hidden && decide (c.name ∉ names))).filter
          (fun c => decide (c.name = name)) = [] := by
      intro cols
      apply List.filter_eq_nil_iff.mpr
      intro a ha
      have := (List.mem_filter.mp ha).2
      simp only [Bool.and_eq_true, decide_eq_true_eq] at this
      simp only [decide_eq_true_eq]
      intro hna
      exact this.2 (hna ▸ hn)
    rw [hempty, hempty]
    rfl

/-- Witness for C3: the name `a` in the inner join of the example. -/
theorem usingJoin_single_visible_column_witness :
    (buildUsingJoinPredicate exampleServices { numColumns := 6 } sqlbase.InnerJoin
        exampleLeft exampleRight ["a", "b"] exampleInScope = Except.ok exampleInnerResult ∧
      "a" ∈ ["a", "b"]) ∧
    List.indexOf "a" ["a", "b"] < ["a", "b"].length ∧
    ∃ c, exampleInnerResult.outScope.cols[List.indexOf "a" ["a", "b"]]? = some c ∧
      exampleInnerResult.outScope.cols.filter (fun c => !c.hidden && decide (c.name = "a")) =
        [c] :=
  ⟨⟨by decide, by decide⟩,
    usingJoin_single_visible_column exampleServices { numColumns := 6 } sqlbase.InnerJoin
      exampleLeft exampleRight ["a", "b"] exampleInScope exampleInnerResult "a"
      (by decide) (by decide)⟩

/-! ## The full output sequence of USING joins -/

theorem chosenRepresentative_points (sv : Services) (joinType : JoinType)
    (leftCols rightCols : List scopeColumn) (n : Name) (base : Side) (i : Nat) (c : scopeColumn)
    (h : chosenRepresentative sv joinType leftCols rightCols n = some ⟨base, i⟩)
    (hc : (match base with
      | Side.left => leftCols
      | Side.right => rightCols)[i]? = some c) :
    c.name = n := by
  unfold chosenRepresentative at h
  cases hl : leftCols.find? (usingMatch n) with
  | none => rw [hl] at h; simp at h
  | some l =>
    rw [hl] at h
    simp only [] at h
    split at h
    · injection h with h
      injection h with h1 h2
      subst h1
      subst h2
      exact ((usingMatch_iff n c).mp (List.findIdx_of_getElem?_eq_some hc)).2
    · split at h
      · injection h with h
        injection h with h1 h2
        subst h1
        subst h2
        exact ((usingMatch_iff n c).mp (List.findIdx_of_getElem?_eq_some hc)).2
      · simp at h

theorem hideAction_eq_remaining (sv : Services) (joinType : JoinType)
    (leftCols rightCols : List scopeColumn) (names : NameList)
    (joined : GoMap Name (Option scopeColumnPtr)) (base : Side)
    (hj : ∀ n, joined.get n =
      if n ∈ names then some (chosenRepresentative sv joinType leftCols rightCols n) else none) :
    (match base with
      | Side.left => leftCols
      | Side.right => rightCols).enum.filterMap (hideAction base joined) =
    remainingColumns (chosenRepresentative sv joinType leftCols rightCols) names base
      (match base with
        | Side.left => leftCols
        | Side.right => rightCols) := by
  unfold remainingColumns
  apply List.filterMap_congr
  intro ic hic
  have hget := List.mem_enum_iff_getElem?.mp hic
  unfold hideAction
  rw [hj ic.2.name]
  have hrep : isRepresentative (chosenRepresentative sv joinType leftCols rightCols) names
      base ic.1 = true ↔
      (ic.2.name ∈ names ∧
        chosenRepresentative sv joinType leftCols rightCols ic.2.name = some ⟨base, ic.1⟩) := by
    unfold isRepresentative
    rw [List.any_eq_true]
    constructor
    · rintro ⟨n, hn, hch⟩
      have hch2 := of_decide_eq_true hch
      have := chosenRepresentative_points sv joinType leftCols rightCols n base ic.1 ic.2 hch2 hget
      rw [this]
      exact ⟨hn, hch2⟩
    · rintro ⟨hn, hch⟩
      exact ⟨ic.2.name, hn, decide_eq_true hch⟩
  by_cases hn : ic.2.name ∈ names
  · rw [if_pos hn]
    simp only []
    by_cases hch : chosenRepresentative sv joinType leftCols rightCols ic.2.name =
        some ⟨base, ic.1⟩
    · have h1 := hrep.mpr ⟨hn, hch⟩
      rw [if_pos hch.symm, if_pos h1]
    · have h1 : ¬ isRepresentative (chosenRepresentative sv joinType leftCols rightCols) names
          base ic.1 = true := fun e => hch (hrep.mp e).2
      have h2 : ¬ some (scopeColumnPtr.mk base ic.1) =
          chosenRepresentative sv joinType leftCols rightCols ic.2.name := fun e => hch e.symm
      rw [if_neg h2, if_neg h1, if_pos hn]
      rfl
  · rw [if_neg hn]
    have h1 : ¬ isRepresentative (chosenRepresentative sv joinType leftCols rightCols) names
        base ic.1 = true := fun e => hn (hrep.mp e).1
    simp only []
    rw [if_neg h1, if_neg hn]

/-- C2 (full output sequence of a USING join).  On every successful call of
`buildUsingJoinPredicate` the columns of the output scope are exactly: the merged
columns, one per USING name in order, then every left column except those chosen
as a merged representative, in left order, then every right column except those
chosen as a merged representative, in right order; among these a column whose
name is a USING name is appended hidden and is otherwise unchanged, and every
other column is appended unchanged. -/
theorem usingJoin_output_sequence (sv : Services) (b : Builder) (joinType : JoinType)
    (leftCols rightCols : List scopeColumn) (names : NameList) (inScope : scope)
    (res : usingResult)
    (h : buildUsingJoinPredicate sv b joinType leftCols rightCols names inScope = Except.ok res) :
    ∃ merged : List scopeColumn,
      merged.map (fun c => c.name) = names ∧
      res.outScope.cols = merged ++
        remainingColumns (chosenRepresentative sv joinType leftCols rightCols) names
          Side.left leftCols ++
        remainingColumns (chosenRepresentative sv joinType leftCols rightCols) names
          Side.right rightCols := by
  obtain ⟨st, hst, _, _, _, hcols⟩ := buildUsingJoinPredicate_ok h
  obtain ⟨_, _, hj⟩ := loop_joined sv joinType leftCols rightCols names _ st hst
  obtain ⟨_, _, _, _, merged, hm, hall⟩ := loop_merged sv joinType leftCols rightCols names _ st hst
  obtain ⟨hn1, _, _⟩ := forall₂_mergedSpec_names hall
  have hpush : (scope.push inScope).cols = [] := rfl
  simp only [hpush, List.nil_append] at hm
  have hj2 : ∀ n, st.joined.get n =
      if n ∈ names then some (chosenRepresentative sv joinType leftCols rightCols n)
      else none := by
    intro n
    rw [hj n]
    rfl
  refine ⟨merged, hn1, ?_⟩
  rw [hcols, hm]
  have hL := hideAction_eq_remaining sv joinType leftCols rightCols names st.joined Side.left hj2
  have hR := hideAction_eq_remaining sv joinType leftCols rightCols names st.joined Side.right hj2
  simp only [] at hL hR
  rw [hL, hR]

/-- Witness for C2: the example of the doc comment.  The inner join gives the six
columns `left.a, left.b, left.x, right.a (hidden), right.b (hidden), right.y`; the
full outer join gives the eight columns `a, b, left.a (hidden), left.b (hidden),
left.x, right.a (hidden), right.b (hidden), right.y`. -/
theorem usingJoin_output_sequence_witness :
    buildUsingJoinPredicate exampleServices { numColumns := 6 } sqlbase.InnerJoin
        exampleLeft exampleRight ["a", "b"] exampleInScope = Except.ok exampleInnerResult ∧
    (buildUsingJoinPredicate exampleServices { numColumns := 6 } sqlbase.FullOuterJoin
        exampleLeft exampleRight ["a", "b"] exampleInScope).map
      (fun r => r.outScope.cols.map (fun c => (c.name, c.table.TableName, c.id, c.hidden))) =
        Except.ok exampleFullColumns ∧
    ∃ merged : List scopeColumn,
      merged.map (fun c => c.name) = ["a", "b"] ∧
      exampleInnerResult.outScope.cols = merged ++
        remainingColumns
          (chosenRepresentative exampleServices sqlbase.InnerJoin exampleLeft exampleRight)
          ["a", "b"] Side.left exampleLeft ++
        remainingColumns
          (chosenRepresentative exampleServices sqlbase.InnerJoin exampleLeft exampleRight)
          ["a", "b"] Side.right exampleRight :=
  ⟨by decide, by decide,
    usingJoin_output_sequence exampleServices { numColumns := 6 } sqlbase.InnerJoin
      exampleLeft exampleRight ["a", "b"] exampleInScope exampleInnerResult (by decide)⟩

/-! ## The merged columns -/

theorem forall₂_getElem? {α β : Type} {R : α → β → Prop} {l1 : List α} {l2 : List β}
    (h : List.Forall₂ R l1 l2) :
    ∀ (i : Nat) (a : α), l1[i]? = some a → ∃ b, l2[i]? = some b ∧ R a b := by
  induction h with
  | nil => intro i a ha; simp at ha
  | cons h1 _ ih =>
    intro i a ha
    cases i with
    | zero =>
      simp only [List.getElem?_cons_zero, Option.some.injEq] at ha
      subst ha
      exact ⟨_, by simp, h1⟩
    | succ j =>
      simp only [List.getElem?_cons_succ] at ha
      obtain ⟨b, hb1, hb2⟩ := ih j a ha
      exact ⟨b, by simpa using hb1, hb2⟩

theorem loop_newkeys (sv : Services) (joinType : JoinType) (leftCols rightCols : List scopeColumn) :
    ∀ (names : List Name) (st st1 : usingState),
      buildUsingJoinPredicate.loop sv joinType leftCols rightCols names st = Except.ok st1 →
      ∀ k, st.b.numColumns < k → k ≤ st1.b.numColumns →
        ∃ (j : Nat) (nm : Name) (l r : scopeColumn), names[j]? = some nm ∧
          leftCols.find? (usingMatch nm) = some l ∧
          rightCols.find? (usingMatch nm) = some r ∧
          ¬ (joinType = sqlbase.InnerJoin ∨ joinType = sqlbase.LeftOuterJoin) ∧
          ¬ (joinType = sqlbase.RightOuterJoin ∧
            sv.DatumTypeHasCompositeKeyEncoding l.typ = false) ∧
          st1.outScope.cols[st.outScope.cols.length + j]? =
            some (coalesceColumn k ⟨Side.left, leftCols.findIdx (usingMatch nm)⟩ l
              ⟨Side.right, rightCols.findIdx (usingMatch nm)⟩ r) := by
  intro names
  induction names with
  | nil =>
    intro st st1 h k h1 h2
    simp only [buildUsingJoinPredicate.loop, Except.ok.injEq] at h
    subst h
    omega
  | cons name rest ih =>
    intro st st1 h k h1 h2
    have h0 := h
    unfold buildUsingJoinPredicate.loop at h
    cases hb : buildUsingJoinPredicate.body sv joinType leftCols rightCols st name with
    | error e => rw [hb] at h; simp at h
    | ok st2 =>
      rw [hb] at h
      simp only [] at h
      obtain ⟨_, l, r, hl, hr, _, hst2⟩ := body_ok hb
      obtain ⟨_, _, _, _, merged, hcols, _⟩ :=
        loop_merged sv joinType leftCols rightCols rest st2 st1 h
      have shift : ∀ (c : scopeColumn), st2.outScope.cols = st.outScope.cols ++ [c] →
          st2.b.numColumns < k →
          ∃ (j : Nat) (nm : Name) (l r : scopeColumn), (name :: rest)[j]? = some nm ∧
            leftCols.find? (usingMatch nm) = some l ∧
            rightCols.find? (usingMatch nm) = some r ∧
            ¬ (joinType = sqlbase.InnerJoin ∨ joinType = sqlbase.LeftOuterJoin) ∧
            ¬ (joinType = sqlbase.RightOuterJoin ∧
              sv.DatumTypeHasCompositeKeyEncoding l.typ = false) ∧
            st1.outScope.cols[st.outScope.cols.length + j]? =
              some (coalesceColumn k ⟨Side.left, leftCols.findIdx (usingMatch nm)⟩ l
                ⟨Side.right, rightCols.findIdx (usingMatch nm)⟩ r) := by
        intro c hc hk
        obtain ⟨j, n, l1, r1, hj, hl1, hr1, hA, hB, hget⟩ := ih st2 st1 h k hk h2
        refine ⟨j + 1, n, l1, r1, by simpa using hj, hl1, hr1, hA, hB, ?_⟩
        rw [← hget, hc]
        simp only [List.length_append, List.length_singleton]
        congr 1
        omega
      by_cases hA : joinType = sqlbase.InnerJoin ∨ joinType = sqlbase.LeftOuterJoin
      · rw [merge_left sv joinType st name _ _ l r hA] at hst2
        exact shift l (by rw [hst2]) (by rw [hst2]; exact h1)
      · by_cases hB : joinType = sqlbase.RightOuterJoin ∧
            sv.DatumTypeHasCompositeKeyEncoding l.typ = false
        · rw [merge_right sv joinType st name _ _ l r hA hB] at hst2
          exact shift r (by rw [hst2]) (by rw [hst2]; exact h1)
        · rw [merge_synth sv joinType st name _ _ l r hA hB] at hst2
          by_cases hk : k = st.b.numColumns + 1
          · refine ⟨0, name, l, r, by simp, hl, hr, hA, hB, ?_⟩
            rw [hcols, hst2, hk]
            simp only [Nat.add_zero, List.append_assoc]
            rw [List.getElem?_append_right (le_refl _)]
            simp
          · exact shift _ (by rw [hst2]) (by rw [hst2]; simp only []; omega)

theorem usingJoin_merged (sv : Services) (b : Builder) (joinType : JoinType)
    (leftCols rightCols : List scopeColumn) (names : NameList) (inScope : scope)
    (res : usingResult)
    (h : buildUsingJoinPredicate sv b joinType leftCols rightCols names inScope = Except.ok res) :
    ((joinType = sqlbase.InnerJoin ∨ joinType = sqlbase.LeftOuterJoin) → res.mergedCols = []) ∧
    (∀ (i : Nat) (name : Name), names[i]? = some name →
      ∃ c, res.outScope.cols[i]? = some c ∧
        MergedSpec sv joinType leftCols rightCols b.numColumns res.b.numColumns
          res.mergedCols name c) ∧
    (∀ k, res.mergedCols.get k ≠ none →
      ∃ (j : Nat) (nm : Name) (l r : scopeColumn), names[j]? = some nm ∧
        leftCols.find? (usingMatch nm) = some l ∧
        rightCols.find? (usingMatch nm) = some r ∧
        ¬ (joinType = sqlbase.InnerJoin ∨ joinType = sqlbase.LeftOuterJoin) ∧
        ¬ (joinType = sqlbase.RightOuterJoin ∧
          sv.DatumTypeHasCompositeKeyEncoding l.typ = false) ∧
        res.outScope.cols[j]? =
          some (coalesceColumn k ⟨Side.left, leftCols.findIdx (usingMatch nm)⟩ l
            ⟨Side.right, rightCols.findIdx (usingMatch nm)⟩ r)) := by
  obtain ⟨st, hst, hmc, _, hb, hcols⟩ := buildUsingJoinPredicate_ok h
  obtain ⟨_, hframe, _, hnone, merged, hm, hall⟩ :=
    loop_merged sv joinType leftCols rightCols names _ st hst
  have hnew := loop_newkeys sv joinType leftCols rightCols names _ st hst
  have hpush : (scope.push inScope).cols = [] := rfl
  simp only [hpush, List.nil_append, List.length_nil, Nat.zero_add] at hm hnew hframe hall
  have hframe2 : ∀ k, k ≤ b.numColumns ∨ st.b.numColumns < k →
      st.mergedCols.get k = GoMap.get [] k := hframe
  obtain ⟨_, _, hlen⟩ := forall₂_mergedSpec_names hall
  have hprefix : ∀ (j : Nat) (c : scopeColumn),
      st.outScope.cols[j]? = some c → res.outScope.cols[j]? = some c := by
    intro j c hj
    rw [hcols, List.append_assoc]
    have hlt : j < st.outScope.cols.length := by
      by_contra hge
      rw [List.getElem?_eq_none (by omega)] at hj
      simp at hj
    rw [List.getElem?_append_left hlt]
    exact hj
  refine ⟨?_, ?_, ?_⟩
  · intro hA
    rw [hmc, hnone hA]
  · intro i name hi
    obtain ⟨c, hc1, hc2⟩ := forall₂_getElem? hall i name hi
    refine ⟨c, hprefix i c (by rw [hm]; exact hc1), ?_⟩
    rw [hmc, hb]
    exact hc2
  · intro k hk
    rw [hmc] at hk
    have hrange : b.numColumns < k ∧ k ≤ st.b.numColumns := by
      by_contra hcon
      have : k ≤ b.numColumns ∨ st.b.numColumns < k := by
        by_cases h1 : k ≤ b.numColumns
        · exact Or.inl h1
        · by_cases h2 : st.b.numColumns < k
          · exact Or.inr h2
          · exact absurd ⟨Nat.lt_of_not_le h1, Nat.le_of_not_lt h2⟩ hcon
      rw [hframe2 k this] at hk
      exact hk rfl
    obtain ⟨j, name, l, r, hj, hl, hr, hA, hB, hget⟩ := hnew k hrange.1 hrange.2
    exact ⟨j, name, l, r, hj, hl, hr, hA, hB, hprefix j _ (by simpa using hget)⟩

/-- C4 (merged column identity for inner, left and right joins).  On every
successful call of `buildUsingJoinPredicate` and for every index `i` of the USING
list, the name `names[i]` resolves to the first non-hidden left column `l` and
the first non-hidden right column `r` of that name.  For an inner or left outer
join, output column `i` is `l` itself (all fields equal, not hidden) and the
merged-column mapping is empty.  For a right outer join where the type of `l` does
not have composite key encoding, output column `i` is `r` itself, and every entry
of the mapping belongs to another name, one whose left column type has composite
key encoding: no entry is added for `names[i]`. -/
theorem usingJoin_merged_identity (sv : Services) (b : Builder) (joinType : JoinType)
    (leftCols rightCols : List scopeColumn) (names : NameList) (inScope : scope)
    (res : usingResult) (i : Nat) (name : Name)
    (h : buildUsingJoinPredicate sv b joinType leftCols rightCols names inScope = Except.ok res)
    (hi : names[i]? = some name) :
    ∃ l r, leftCols.find? (usingMatch name) = some l ∧
      rightCols.find? (usingMatch name) = some r ∧
      l.hidden = false ∧ r.hidden = false ∧
      ((joinType = sqlbase.InnerJoin ∨ joinType = sqlbase.LeftOuterJoin) →
        res.outScope.cols[i]? = some l ∧ res.mergedCols = []) ∧
      ((joinType = sqlbase.RightOuterJoin ∧
          sv.DatumTypeHasCompositeKeyEncoding l.typ = false) →
        res.outScope.cols[i]? = some r ∧
        ∀ k, res.mergedCols.get k ≠ none →
          ∃ (j : Nat) (nm : Name) (l1 : scopeColumn), j ≠ i ∧ names[j]? = some nm ∧
            leftCols.find? (usingMatch nm) = some l1 ∧
            sv.DatumTypeHasCompositeKeyEncoding l1.typ = true ∧
            (res.outScope.cols[j]?).map (fun c => c.id) = some k) := by
  obtain ⟨hempty, hpoint, hkeys⟩ :=
    usingJoin_merged sv b joinType leftCols rightCols names inScope res h
  obtain ⟨c, hc, l, r, hl, hr, h1, h2, _⟩ := hpoint i name hi
  have hlm := (usingMatch_iff name l).mp (List.find?_some hl)
  have hrm := (usingMatch_iff name r).mp (List.find?_some hr)
  refine ⟨l, r, hl, hr, hlm.1, hrm.1, ?_, ?_⟩
  · intro hA
    rw [hc, h1 hA]
    exact ⟨rfl, hempty hA⟩
  · intro hB
    have hA : ¬ (joinType = sqlbase.InnerJoin ∨ joinType = sqlbase.LeftOuterJoin) := by
      rw [hB.1]
      decide
    rw [hc, h2 hA hB]
    refine ⟨rfl, ?_⟩
    intro k hk
    obtain ⟨j, nm, l1, r1, hj, hl1, _, _, hB1, hget⟩ := hkeys k hk
    have hcomp : sv.DatumTypeHasCompositeKeyEncoding l1.typ = true := by
      cases hv : sv.DatumTypeHasCompositeKeyEncoding l1.typ with
      | true => rfl
      | false => exact absurd ⟨hB.1, hv⟩ hB1
    refine ⟨j, nm, l1, ?_, hj, hl1, hcomp, ?_⟩
    · intro hji
      subst hji
      rw [hi] at hj
      injection hj with hj
      subst hj
      rw [hl] at hl1
      injection hl1 with hl1
      subst hl1
      rw [hB.2] at hcomp
      exact Bool.noConfusion hcomp
    · rw [hget]
      rfl

/-- Witness for C4: the name `a` (index 0) in the inner join of the example. -/
theorem usingJoin_merged_identity_witness :
    (buildUsingJoinPredicate exampleServices { numColumns := 6 } sqlbase.InnerJoin
        exampleLeft exampleRight ["a", "b"] exampleInScope = Except.ok exampleInnerResult ∧
      ["a", "b"][0]? = some "a") ∧
    ∃ l r, exampleLeft.find? (usingMatch "a") = some l ∧
      exampleRight.find? (usingMatch "a") = some r ∧
      l.hidden = false ∧ r.hidden = false ∧
      ((sqlbase.InnerJoin = sqlbase.InnerJoin ∨ sqlbase.InnerJoin = sqlbase.LeftOuterJoin) →
        exampleInnerResult.outScope.cols[0]? = some l ∧ exampleInnerResult.mergedCols = []) ∧
      ((sqlbase.InnerJoin = sqlbase.RightOuterJoin ∧
          exampleServices.DatumTypeHasCompositeKeyEncoding l.typ = false) →
        exampleInnerResult.outScope.cols[0]? = some r ∧
        ∀ k, exampleInnerResult.mergedCols.get k ≠ none →
          ∃ (j : Nat) (nm : Name) (l1 : scopeColumn), j ≠ 0 ∧ ["a", "b"][j]? = some nm ∧
            exampleLeft.find? (usingMatch nm) = some l1 ∧
            exampleServices.DatumTypeHasCompositeKeyEncoding l1.typ = true ∧
            (exampleInnerResult.outScope.cols[j]?).map (fun c => c.id) = some k) :=
  ⟨⟨by decide, by decide⟩,
    usingJoin_merged_identity exampleServices { numColumns := 6 } sqlbase.InnerJoin
      exampleLeft exampleRight ["a", "b"] exampleInScope exampleInnerResult 0 "a"
      (by decide) (by decide)⟩

/-- C5 (synthesized COALESCE column).  On every successful call of
`buildUsingJoinPredicate` and for every index `i` of the USING list, with `l` and
`r` the left and right columns the name resolves to: if the join type is full
outer, or right outer and the type of `l` has composite key encoding, then output
column `i` is a new column, under an id `k` not handed out before the call, whose
name is the name of `l`, whose type is the type of `l` unless that is `Unknown`
and then the type of `r`, which is not hidden, and whose group is
`Coalesce([Variable(l.id), Variable(r.id)])`; the merged-column mapping maps `k`
to that same group; and every key of the mapping is the id of such a synthesized
output column, for a USING name under the same condition. -/
theorem usingJoin_synthesized_coalesce (sv : Services) (b : Builder) (joinType : JoinType)
    (leftCols rightCols : List scopeColumn) (names : NameList) (inScope : scope)
    (res : usingResult) (i : Nat) (name : Name)
    (h : buildUsingJoinPredicate sv b joinType leftCols rightCols names inScope = Except.ok res)
    (hi : names[i]? = some name) :
    ∃ l r, leftCols.find? (usingMatch name) = some l ∧
      rightCols.find? (usingMatch name) = some r ∧
      ((joinType = sqlbase.FullOuterJoin ∨ (joinType = sqlbase.RightOuterJoin ∧
          sv.DatumTypeHasCompositeKeyEncoding l.typ = true)) →
        (∃ k c, b.numColumns < k ∧ res.outScope.cols[i]? = some c ∧
          c.id = k ∧ c.name = l.name ∧
          c.typ = (if l.typ ≠ types.T.Unknown then l.typ else r.typ) ∧
          c.hidden = false ∧
          c.group = GroupID.ConstructCoalesce
            (InternList [GroupID.ConstructVariable l.id, GroupID.ConstructVariable r.id]) ∧
          res.mergedCols.get k = some (GroupID.ConstructCoalesce
            (InternList [GroupID.ConstructVariable l.id, GroupID.ConstructVariable r.id]))) ∧
        (∀ k1, res.mergedCols.get k1 ≠ none →
          ∃ (j : Nat) (nm : Name) (l1 : scopeColumn) (c1 : scopeColumn),
            names[j]? = some nm ∧ leftCols.find? (usingMatch nm) = some l1 ∧
            (joinType = sqlbase.FullOuterJoin ∨ (joinType = sqlbase.RightOuterJoin ∧
              sv.DatumTypeHasCompositeKeyEncoding l1.typ = true)) ∧
            res.outScope.cols[j]? = some c1 ∧ c1.id = k1 ∧ b.numColumns < k1)) := by
  obtain ⟨_, hpoint, hkeys⟩ :=
    usingJoin_merged sv b joinType leftCols rightCols names inScope res h
  obtain ⟨st, hst, hmc, _, _, _⟩ := buildUsingJoinPredicate_ok h
  obtain ⟨_, hframe, _, _, _, _, _⟩ :=
    loop_merged sv joinType leftCols rightCols names _ st hst
  have hframe2 : ∀ k, k ≤ b.numColumns ∨ st.b.numColumns < k →
      st.mergedCols.get k = GoMap.get [] k := hframe
  obtain ⟨c, hc, l, r, hl, hr, _, _, h3⟩ := hpoint i name hi
  refine ⟨l, r, hl, hr, ?_⟩
  intro hjt
  have hA : ¬ (joinType = sqlbase.InnerJoin ∨ joinType = sqlbase.LeftOuterJoin) := by
    rcases hjt with h1 | h1
    · rw [h1]; decide
    · rw [h1.1]; decide
  have hB : ¬ (joinType = sqlbase.RightOuterJoin ∧
      sv.DatumTypeHasCompositeKeyEncoding l.typ = false) := by
    rcases hjt with h1 | h1
    · rw [h1]
      intro h2
      exact absurd h2.1 (by decide)
    · intro h2
      rw [h1.2] at h2
      exact Bool.noConfusion h2.2
  obtain ⟨k, hk1, _, hk3, hk4⟩ := h3 hA hB
  refine ⟨⟨k, c, hk1, hc, ?_, ?_, ?_, ?_, ?_, hk3⟩, ?_⟩
  · rw [hk4]; rfl
  · rw [hk4]; rfl
  · rw [hk4]; rfl
  · rw [hk4]; rfl
  · rw [hk4]; rfl
  · intro k1 hne
    obtain ⟨j, nm, l1, r1, hj, hl1, _, _, hB1, hget⟩ := hkeys k1 hne
    have hlt : b.numColumns < k1 := by
      by_contra hcon
      rw [hmc, hframe2 k1 (Or.inl (Nat.le_of_not_lt hcon))] at hne
      exact hne rfl
    refine ⟨j, nm, l1, _, hj, hl1, ?_, hget, rfl, hlt⟩
    rcases hjt with h1 | h1
    · exact Or.inl h1
    · right
      refine ⟨h1.1, ?_⟩
      cases hv : sv.DatumTypeHasCompositeKeyEncoding l1.typ with
      | true => rfl
      | false => exact absurd ⟨h1.1, hv⟩ hB1

/-- Witness for C5: the name `a` (index 0) in the full outer join of the example;
the merged column gets the fresh id 7. -/
theorem usingJoin_synthesized_coalesce_witness :
    (buildUsingJoinPredicate exampleServices { numColumns := 6 } sqlbase.FullOuterJoin
        exampleLeft exampleRight ["a", "b"] exampleInScope = Except.ok exampleFullResult ∧
      ["a", "b"][0]? = some "a") ∧
    exampleFullResult.outScope.cols[0]? = some (exampleMerged "a" 7 1 4 0) ∧
    exampleFullResult.mergedCols.get 7 = some (GroupID.ConstructCoalesce
      (InternList [GroupID.ConstructVariable 1, GroupID.ConstructVariable 4])) ∧
    ∃ l r, exampleLeft.find? (usingMatch "a") = some l ∧
      exampleRight.find? (usingMatch "a") = some r ∧
      ((sqlbase.FullOuterJoin = sqlbase.FullOuterJoin ∨
          (sqlbase.FullOuterJoin = sqlbase.RightOuterJoin ∧
            exampleServices.DatumTypeHasCompositeKeyEncoding l.typ = true)) →
        (∃ k c, 6 < k ∧ exampleFullResult.outScope.cols[0]? = some c ∧
          c.id = k ∧ c.name = l.name ∧
          c.typ = (if l.typ ≠ types.T.Unknown then l.typ else r.typ) ∧
          c.hidden = false ∧
          c.group = GroupID.ConstructCoalesce
            (InternList [GroupID.ConstructVariable l.id, GroupID.ConstructVariable r.id]) ∧
          exampleFullResult.mergedCols.get k = some (GroupID.ConstructCoalesce
            (InternList [GroupID.ConstructVariable l.id, GroupID.ConstructVariable r.id]))) ∧
        (∀ k1, exampleFullResult.mergedCols.get k1 ≠ none →
          ∃ (j : Nat) (nm : Name) (l1 : scopeColumn) (c1 : scopeColumn),
            ["a", "b"][j]? = some nm ∧ exampleLeft.find? (usingMatch nm) = some l1 ∧
            (sqlbase.FullOuterJoin = sqlbase.FullOuterJoin ∨
              (sqlbase.FullOuterJoin = sqlbase.RightOuterJoin ∧
                exampleServices.DatumTypeHasCompositeKeyEncoding l1.typ = true)) ∧
            exampleFullResult.outScope.cols[j]? = some c1 ∧ c1.id = k1 ∧ 6 < k1)) :=
  ⟨⟨by decide, by decide⟩, by decide, by decide,
    usingJoin_synthesized_coalesce exampleServices { numColumns := 6 } sqlbase.FullOuterJoin
      exampleLeft exampleRight ["a", "b"] exampleInScope exampleFullResult 0 "a"
      (by decide) (by decide)⟩

/-! ## NATURAL joins and `commonColumns` -/

/-- C6 (NATURAL equals USING on the common columns).  For every join type and
every pair of left and right scopes, `buildJoin` with a NATURAL condition returns
exactly what `buildJoin` returns with the condition
`USING (commonColumns(left, right))`: the same output scope and operator, or the
same error. -/
theorem buildJoin_natural_eq_using (sv : Services) (b : Builder) (joinType : JoinType)
    (leftScope rightScope inScope : scope) :
    buildJoin sv b joinType JoinCond.NaturalJoinCond leftScope rightScope inScope =
      buildJoin sv b joinType (JoinCond.UsingJoinCond (commonColumns leftScope rightScope))
        leftScope rightScope inScope := by
  unfold buildJoin
  cases validateJoinTableNames leftScope rightScope with
  | error e => rfl
  | ok u => rfl

/-- Witness for C6: for `left(a,b,x)` and `right(a,b,y)`, all visible, the common
columns are `[a, b]`, and the NATURAL join is the join `USING (a, b)`. -/
theorem buildJoin_natural_eq_using_witness :
    commonColumns { cols := exampleLeft, group := GroupID.relational 1, context := "" }
        { cols := exampleRight, group := GroupID.relational 2, context := "" } = ["a", "b"] ∧
    buildJoin exampleServices { numColumns := 6 } sqlbase.InnerJoin JoinCond.NaturalJoinCond
        { cols := exampleLeft, group := GroupID.relational 1, context := "" }
        { cols := exampleRight, group := GroupID.relational 2, context := "" } exampleInScope =
      buildJoin exampleServices { numColumns := 6 } sqlbase.InnerJoin
        (JoinCond.UsingJoinCond ["a", "b"])
        { cols := exampleLeft, group := GroupID.relational 1, context := "" }
        { cols := exampleRight, group := GroupID.relational 2, context := "" } exampleInScope :=
  ⟨by decide,
    buildJoin_natural_eq_using exampleServices { numColumns := 6 } sqlbase.InnerJoin
      { cols := exampleLeft, group := GroupID.relational 1, context := "" }
      { cols := exampleRight, group := GroupID.relational 2, context := "" } exampleInScope⟩

theorem commonColumns_inner_eq (leftCol : scopeColumn) :
    ∀ (rightCols : List scopeColumn) (common : NameList),
      commonColumns.inner leftCol rightCols common =
        if rightCols.any (fun d => !d.hidden && decide (leftCol.name = d.name)) then
          common ++ [leftCol.name]
        else common := by
  intro rightCols
  induction rightCols with
  | nil => intro common; rfl
  | cons d rest ih =>
    intro common
    unfold commonColumns.inner
    by_cases hh : d.hidden = true
    · simp [hh, ih]
    · by_cases hn : leftCol.name = d.name
      · simp [hh, hn]
      · simp [hh, hn, ih]

theorem commonColumns_outer_eq (rightCols : List scopeColumn) :
    ∀ (leftCols : List scopeColumn) (common : NameList),
      commonColumns.outer rightCols leftCols common =
        common ++ (leftCols.filter (fun c => !c.hidden &&
          rightCols.any (fun d => !d.hidden && decide (c.name = d.name)))).map
            (fun c => c.name) := by
  intro leftCols
  induction leftCols with
  | nil => intro common; simp [commonColumns.outer]
  | cons c rest ih =>
    intro common
    unfold commonColumns.outer
    by_cases hh : c.hidden = true
    · simp [hh, ih]
    · rw [if_neg hh, ih, commonColumns_inner_eq]
      simp only [Bool.not_eq_true] at hh
      by_cases ha : rightCols.any (fun d => !d.hidden && decide (c.name = d.name)) = true
      · simp [List.filter_cons, hh, ha]
      · simp only [Bool.not_eq_true] at ha
        simp [List.filter_cons, hh, ha]

theorem commonColumns_eq (leftScope rightScope : scope) :
    commonColumns leftScope rightScope =
      (leftScope.cols.filter (fun c => !c.hidden &&
        rightScope.cols.any (fun d => !d.hidden && decide (c.name = d.name)))).map
          (fun c => c.name) := by
  unfold commonColumns
  rw [commonColumns_outer_eq]
  rfl

theorem commonColumns_sublist (leftScope rightScope : scope) :
    List.Sublist (commonColumns leftScope rightScope)
      ((leftScope.cols.filter (fun c => !c.hidden)).map (fun c => c.name)) := by
  rw [commonColumns_eq]
  apply List.Sublist.map
  have hsub : ∀ cols : List scopeColumn,
      List.Sublist (cols.filter (fun c => !c.hidden &&
        rightScope.cols.any (fun d => !d.hidden && decide (c.name = d.name))))
        (cols.filter (fun c => !c.hidden)) := by
    intro cols
    induction cols with
    | nil => exact List.Sublist.slnil
    | cons c rest ih =>
      by_cases hh : c.hidden = true
      · simp [List.filter_cons, hh, ih]
      · simp only [Bool.not_eq_true] at hh
        by_cases ha : rightScope.cols.any
            (fun d => !d.hidden && decide (c.name = d.name)) = true
        · simp [List.filter_cons, hh, ha, ih]
        · simp only [Bool.not_eq_true] at ha
          simp only [List.filter_cons, hh, ha, Bool.not_false, Bool.and_false,
            Bool.false_eq_true, if_false, if_true]
          exact List.Sublist.cons _ ih
  exact hsub leftScope.cols

/-- C7 (`commonColumns` membership and order).  For every left and right scope, a
name occurs in `commonColumns(left, right)` if and only if some non-hidden left
column and some non-hidden right column both have that name; and the returned
list is a subsequence of the names of the non-hidden left columns, in left
order.  Hidden columns on either side never contribute. -/
theorem commonColumns_membership_and_order (leftScope rightScope : scope) :
    (∀ n : Name, n ∈ commonColumns leftScope rightScope ↔
      (∃ c ∈ leftScope.cols, c.hidden = false ∧ c.name = n) ∧
      (∃ d ∈ rightScope.cols, d.hidden = false ∧ d.name = n)) ∧
    List.Sublist (commonColumns leftScope rightScope)
      ((leftScope.cols.filter (fun c => !c.hidden)).map (fun c => c.name)) := by
  refine ⟨?_, commonColumns_sublist leftScope rightScope⟩
  rw [commonColumns_eq]
  intro n
  simp only [List.mem_map, List.mem_filter, Bool.and_eq_true, Bool.not_eq_true',
    List.any_eq_true, decide_eq_true_eq]
  constructor
  · rintro ⟨c, ⟨hc, hh, d, hd, hdh, hcd⟩, hn⟩
    exact ⟨⟨c, hc, hh, hn⟩, ⟨d, hd, hdh, by rw [← hcd, hn]⟩⟩
  · rintro ⟨⟨c, hc, hh, hn⟩, ⟨d, hd, hdh, hdn⟩⟩
    exact ⟨c, ⟨hc, hh, d, hd, hdh, by rw [hn, hdn]⟩, hn⟩

/-- C8, counterexample: with two non-hidden left columns named `a` and a right
column named `a`, `commonColumns` returns `[a, a]`, which has the name `a` twice. -/
theorem commonColumns_repeats_left_name :
    commonColumns exampleRepeatedLeft
        { cols := exampleRight, group := GroupID.relational 2, context := "" } = ["a", "a"] ∧
    ¬ (commonColumns exampleRepeatedLeft
        { cols := exampleRight, group := GroupID.relational 2, context := "" }).Nodup := by
  decide

theorem commonColumns_count (leftScope rightScope : scope) (n : Name) :
    ((∃ d ∈ rightScope.cols, d.hidden = false ∧ d.name = n) →
      (commonColumns leftScope rightScope).count n =
        (leftScope.cols.filter (fun c => !c.hidden && decide (c.name = n))).length) ∧
    ((¬ ∃ d ∈ rightScope.cols, d.hidden = false ∧ d.name = n) →
      (commonColumns leftScope rightScope).count n = 0) := by
  rw [commonColumns_eq]
  have hany : ∀ c : scopeColumn, c.name = n →
      (rightScope.cols.any (fun d => !d.hidden && decide (c.name = d.name)) = true ↔
        ∃ d ∈ rightScope.cols, d.hidden = false ∧ d.name = n) := by
    intro c hc
    rw [List.any_eq_true]
    constructor
    · rintro ⟨d, hd, hp⟩
      simp only [Bool.and_eq_true, Bool.not_eq_true', decide_eq_true_eq] at hp
      exact ⟨d, hd, hp.1, by rw [← hp.2, hc]⟩
    · rintro ⟨d, hd, hh, hdn⟩
      refine ⟨d, hd, ?_⟩
      simp only [Bool.and_eq_true, Bool.not_eq_true', decide_eq_true_eq]
      exact ⟨hh, by rw [hc, hdn]⟩
  constructor
  · intro hR
    induction leftScope.cols with
    | nil => rfl
    | cons c rest ih =>
      by_cases hn : c.name = n
      · have ha := (hany c hn).mpr hR
        by_cases hh : c.hidden = true
        · simp [List.filter_cons, hh, ih]
        · simp only [Bool.not_eq_true] at hh
          have hp : (!c.hidden &&
              rightScope.cols.any (fun d => !d.hidden && decide (c.name = d.name))) = true := by
            rw [hh, ha]
            rfl
          have hq : (!c.hidden && decide (c.name = n)) = true := by
            rw [hh]
            simp [hn]
          rw [List.filter_cons, if_pos hp, List.map_cons, List.count_cons, ih,
            List.filter_cons, if_pos hq, hn]
          simp
      · by_cases hp : (!c.hidden &&
            rightScope.cols.any (fun d => !d.hidden && decide (c.name = d.name))) = true
        · rw [List.filter_cons, if_pos hp, List.map_cons, List.count_cons, ih]
          simp [List.filter_cons, hn]
        · rw [List.filter_cons, if_neg hp, ih]
          simp [List.filter_cons, hn]
  · intro hR
    rw [List.count_eq_zero]
    intro hmem
    obtain ⟨c, hc, hcn⟩ := List.mem_map.mp hmem
    have hp := (List.mem_filter.mp hc).2
    simp only [Bool.and_eq_true] at hp
    exact hR ((hany c hcn).mp hp.2)

/-- C8, amended: `commonColumns` returns a name once for every non-hidden left
column that carries it when some non-hidden right column carries it, however many
right columns do, and not at all otherwise.  So the returned list contains no
name twice if and only if no name carried by a non-hidden right column is carried
by two non-hidden left columns: a name repeated only on the right, or repeated on
the left without a non-hidden right column of that name, is not returned twice. -/
theorem commonColumns_nodup_iff (leftScope rightScope : scope) :
    (∀ n : Name, (∃ d ∈ rightScope.cols, d.hidden = false ∧ d.name = n) →
      (commonColumns leftScope rightScope).count n =
        (leftScope.cols.filter (fun c => !c.hidden && decide (c.name = n))).length) ∧
    (∀ n : Name, (¬ ∃ d ∈ rightScope.cols, d.hidden = false ∧ d.name = n) →
      (commonColumns leftScope rightScope).count n = 0) ∧
    ((commonColumns leftScope rightScope).Nodup ↔
      ∀ n : Name, (∃ d ∈ rightScope.cols, d.hidden = false ∧ d.name = n) →
        (leftScope.cols.filter (fun c => !c.hidden && decide (c.name = n))).length ≤ 1) := by
  refine ⟨fun n => (commonColumns_count leftScope rightScope n).1,
    fun n => (commonColumns_count leftScope rightScope n).2, ?_⟩
  rw [List.nodup_iff_count_le_one]
  constructor
  · intro h n hR
    rw [← (commonColumns_count leftScope rightScope n).1 hR]
    exact h n
  · intro h n
    by_cases hR : ∃ d ∈ rightScope.cols, d.hidden = false ∧ d.name = n
    · rw [(commonColumns_count leftScope rightScope n).1 hR]
      exact h n hR
    · rw [(commonColumns_count leftScope rightScope n).2 hR]
      exact Nat.zero_le _

/-- Witness for the amended C8: the left scope has two non-hidden columns named
`x` and one named `a`, the right scope two non-hidden columns named `a` and none
named `x`; the name `a` is returned once and `x` not at all. -/
theorem commonColumns_nodup_iff_witness :
    commonColumns exampleUnsharedLeft exampleRepeatedRight = ["a"] ∧
    (commonColumns exampleUnsharedLeft exampleRepeatedRight).Nodup ∧
    (commonColumns exampleUnsharedLeft exampleRepeatedRight).count "x" = 0 ∧
    ((commonColumns exampleUnsharedLeft exampleRepeatedRight).Nodup ↔
      ∀ n : Name, (∃ d ∈ exampleRepeatedRight.cols, d.hidden = false ∧ d.name = n) →
        (exampleUnsharedLeft.cols.filter
          (fun c => !c.hidden && decide (c.name = n))).length ≤ 1) :=
  ⟨by decide, by decide, by decide,
    (commonColumns_nodup_iff exampleUnsharedLeft exampleRepeatedRight).2.2⟩

/-! ## Table-alias validation -/

theorem mem_skipDups (sc : scope) (i : Nat) :
    i ∈ skipDups sc ↔ ∃ col, sc.cols[i]? = some col ∧ col.table.TableName ≠ "" ∧
      (i = 0 ∨ some col.table ≠ (sc.cols[i - 1]?).map (fun c => c.table)) := by
  unfold skipDups
  rw [List.mem_filter, List.mem_range]
  constructor
  · rintro ⟨hlt, hf⟩
    have hget : sc.cols[i]? = some sc.cols[i] := List.getElem?_eq_getElem hlt
    rw [hget] at hf
    simp only [] at hf
    by_cases he : sc.cols[i].table.TableName = ""
    · rw [if_pos he] at hf
      exact Bool.noConfusion hf
    · rw [if_neg he] at hf
      refine ⟨sc.cols[i], hget, he, ?_⟩
      simpa using hf
  · rintro ⟨col, hget, he, hd⟩
    have hlt : i < sc.cols.length := by
      by_contra hge
      rw [List.getElem?_eq_none (by omega)] at hget
      simp at hget
    refine ⟨hlt, ?_⟩
    rw [hget]
    simp only []
    rw [if_neg he]
    simpa using hd

theorem skipDups_representative (sc : scope) :
    ∀ (i : Nat) (c : scopeColumn), sc.cols[i]? = some c → c.table.TableName ≠ "" →
      ∃ j ∈ skipDups sc, ∃ c1, sc.cols[j]? = some c1 ∧ c1.table = c.table := by
  intro i
  induction i with
  | zero =>
    intro c hc hne
    exact ⟨0, (mem_skipDups sc 0).mpr ⟨c, hc, hne, Or.inl rfl⟩, c, hc, rfl⟩
  | succ k ih =>
    intro c hc hne
    by_cases hd : some c.table = (sc.cols[k]?).map (fun c => c.table)
    · cases hk : sc.cols[k]? with
      | none => rw [hk] at hd; simp at hd
      | some p =>
        rw [hk] at hd
        simp only [Option.map_some', Option.some.injEq] at hd
        obtain ⟨j, hj, c1, hc1, heq⟩ := ih p hk (by rw [← hd]; exact hne)
        exact ⟨j, hj, c1, hc1, by rw [heq, hd]⟩
    · refine ⟨k + 1, (mem_skipDups sc (k + 1)).mpr ⟨c, hc, hne, Or.inr ?_⟩, c, hc, rfl⟩
      simpa using hd

theorem rightLoop_spec (leftName : TableName) (rightScope : scope) :
    ∀ ords : List Nat, (∀ i ∈ ords, i < rightScope.cols.length) →
      (validateJoinTableNames.rightLoop leftName rightScope ords = Except.ok () ∧
        ¬ ∃ i ∈ ords, ∃ c, rightScope.cols[i]? = some c ∧ sameQualifier leftName c.table) ∨
      (validateJoinTableNames.rightLoop leftName rightScope ords =
          Except.error (Error.DuplicateAlias leftName.TableName) ∧
        ∃ i ∈ ords, ∃ c, rightScope.cols[i]? = some c ∧ sameQualifier leftName c.table) := by
  intro ords
  induction ords with
  | nil =>
    intro _
    left
    exact ⟨rfl, by simp⟩
  | cons right rest ih =>
    intro hr
    unfold validateJoinTableNames.rightLoop
    have hlt : right < rightScope.cols.length := hr right (List.mem_cons_self _ _)
    have hget : rightScope.cols[right]? = some rightScope.cols[right] :=
      List.getElem?_eq_getElem hlt
    rw [hget]
    simp only []
    by_cases hm : sameQualifier leftName rightScope.cols[right].table
    · right
      have hn : ¬ (leftName.TableName ≠ rightScope.cols[right].table.TableName ∨
          leftName.SchemaName ≠ rightScope.cols[right].table.SchemaName ∨
          leftName.CatalogName ≠ rightScope.cols[right].table.CatalogName) := by
        rintro (h1 | h1 | h1)
        · exact h1 hm.1
        · exact h1 hm.2.1
        · exact h1 hm.2.2
      rw [if_neg hn]
      exact ⟨rfl, right, List.mem_cons_self _ _, _, hget, hm⟩
    · have hp : leftName.TableName ≠ rightScope.cols[right].table.TableName ∨
          leftName.SchemaName ≠ rightScope.cols[right].table.SchemaName ∨
          leftName.CatalogName ≠ rightScope.cols[right].table.CatalogName := by
        by_contra hcon
        apply hm
        simp only [not_or, ne_eq, not_not] at hcon
        exact hcon
      rw [if_pos hp]
      rcases ih (fun i hi => hr i (List.mem_cons_of_mem _ hi)) with ⟨h1, h2⟩ | ⟨h1, h2⟩
      · left
        refine ⟨h1, ?_⟩
        rintro ⟨i, hi, c, hc, hs⟩
        rcases List.mem_cons.mp hi with h3 | h3
        · subst h3
          rw [hget] at hc
          injection hc with hc
          exact hm (hc ▸ hs)
        · exact h2 ⟨i, h3, c, hc, hs⟩
      · right
        obtain ⟨i, hi, c, hc, hs⟩ := h2
        exact ⟨h1, i, List.mem_cons_of_mem _ hi, c, hc, hs⟩

theorem leftLoop_spec (leftScope rightScope : scope) (rightOrds : List Nat)
    (hr : ∀ i ∈ rightOrds, i < rightScope.cols.length) :
    ∀ ords : List Nat, (∀ i ∈ ords, i < leftScope.cols.length) →
      (validateJoinTableNames.leftLoop leftScope rightScope rightOrds ords = Except.ok () ∧
        ¬ ∃ i ∈ ords, ∃ l, leftScope.cols[i]? = some l ∧
          ∃ j ∈ rightOrds, ∃ c, rightScope.cols[j]? = some c ∧ sameQualifier l.table c.table) ∨
      (∃ i ∈ ords, ∃ l, leftScope.cols[i]? = some l ∧
        validateJoinTableNames.leftLoop leftScope rightScope rightOrds ords =
          Except.error (Error.DuplicateAlias l.table.TableName) ∧
        ∃ j ∈ rightOrds, ∃ c, rightScope.cols[j]? = some c ∧ sameQualifier l.table c.table) := by
  intro ords
  induction ords with
  | nil =>
    intro _
    left
    exact ⟨rfl, by simp⟩
  | cons left rest ih =>
    intro hl
    unfold validateJoinTableNames.leftLoop
    have hlt : left < leftScope.cols.length := hl left (List.mem_cons_self _ _)
    have hget : leftScope.cols[left]? = some leftScope.cols[left] :=
      List.getElem?_eq_getElem hlt
    rw [hget]
    simp only []
    rcases rightLoop_spec leftScope.cols[left].table rightScope rightOrds hr with
      ⟨h1, h2⟩ | ⟨h1, h2⟩
    · rw [h1]
      simp only []
      rcases ih (fun i hi => hl i (List.mem_cons_of_mem _ hi)) with ⟨h3, h4⟩ | h3
      · left
        refine ⟨h3, ?_⟩
        rintro ⟨i, hi, l, hli, hx⟩
        rcases List.mem_cons.mp hi with h5 | h5
        · subst h5
          rw [hget] at hli
          injection hli with hli
          subst hli
          exact h2 hx
        · exact h4 ⟨i, h5, l, hli, hx⟩
      · right
        obtain ⟨i, hi, l, hli, he, hx⟩ := h3
        exact ⟨i, List.mem_cons_of_mem _ hi, l, hli, he, hx⟩
    · right
      rw [h1]
      exact ⟨left, List.mem_cons_self _ _, _, hget, rfl, h2⟩

theorem skipDups_lt (sc : scope) : ∀ i ∈ skipDups sc, i < sc.cols.length := by
  intro i hi
  unfold skipDups at hi
  exact List.mem_range.mp (List.mem_filter.mp hi).1

theorem validateJoinTableNames_spec (leftScope rightScope : scope) :
    (validateJoinTableNames leftScope rightScope = Except.ok () ∧
      ¬ aliasCollision leftScope rightScope) ∨
    (aliasCollision leftScope rightScope ∧
      ∃ l ∈ leftScope.cols, l.table.TableName ≠ "" ∧
        validateJoinTableNames leftScope rightScope =
          Except.error (Error.DuplicateAlias l.table.TableName)) := by
  unfold validateJoinTableNames
  simp only []
  rcases leftLoop_spec leftScope rightScope (skipDups rightScope) (skipDups_lt rightScope)
      (skipDups leftScope) (skipDups_lt leftScope) with ⟨h1, h2⟩ | h1
  · left
    refine ⟨h1, ?_⟩
    rintro ⟨l, hl, r, hr, hln, hrn, e1, e2, e3⟩
    obtain ⟨i, hi⟩ := List.getElem?_of_mem hl
    obtain ⟨j, hj⟩ := List.getElem?_of_mem hr
    obtain ⟨i1, hi1, l1, hl1, hle⟩ := skipDups_representative leftScope i l hi hln
    obtain ⟨j1, hj1, r1, hr1, hre⟩ := skipDups_representative rightScope j r hj hrn
    apply h2
    refine ⟨i1, hi1, l1, hl1, j1, hj1, r1, hr1, ?_⟩
    unfold sameQualifier
    rw [hle, hre]
    exact ⟨e1, e2, e3⟩
  · right
    obtain ⟨i, hi, l, hli, he, j, hj, c, hc, hs⟩ := h1
    obtain ⟨l1, hl1, hne, _⟩ := (mem_skipDups leftScope i).mp hi
    obtain ⟨c1, hc1, hne2, _⟩ := (mem_skipDups rightScope j).mp hj
    rw [hli] at hl1
    injection hl1 with hl1
    subst hl1
    rw [hc] at hc1
    injection hc1 with hc1
    subst hc1
    have hlm : l ∈ leftScope.cols := List.getElem?_mem hli
    have hcm : c ∈ rightScope.cols := List.getElem?_mem hc
    exact ⟨⟨l, hlm, c, hcm, hne, hne2, hs.1, hs.2.1, hs.2.2⟩, l, hlm, hne, he⟩

/-- C9 (table-alias validation is exact).  For every left and right scope,
`validateJoinTableNames` fails with DuplicateAlias if and only if some left column
and some right column have non-empty table names and equal catalog, schema and
table name parts; it succeeds if and only if there is no such pair; and it never
fails with another error.  So checking only the columns kept by `skipDups` gives
the verdict of checking every pair of columns, and columns with an empty table
name never collide. -/
theorem validateJoinTableNames_exact (leftScope rightScope : scope) :
    ((∃ name, validateJoinTableNames leftScope rightScope =
        Except.error (Error.DuplicateAlias name)) ↔
      ∃ l ∈ leftScope.cols, ∃ r ∈ rightScope.cols,
        l.table.TableName ≠ "" ∧ r.table.TableName ≠ "" ∧
        l.table.TableName = r.table.TableName ∧ l.table.SchemaName = r.table.SchemaName ∧
        l.table.CatalogName = r.table.CatalogName) ∧
    (validateJoinTableNames leftScope rightScope = Except.ok () ↔
      ¬ ∃ l ∈ leftScope.cols, ∃ r ∈ rightScope.cols,
        l.table.TableName ≠ "" ∧ r.table.TableName ≠ "" ∧
        l.table.TableName = r.table.TableName ∧ l.table.SchemaName = r.table.SchemaName ∧
        l.table.CatalogName = r.table.CatalogName) ∧
    (∀ e, validateJoinTableNames leftScope rightScope = Except.error e →
      ∃ name, e = Error.DuplicateAlias name) := by
  rcases validateJoinTableNames_spec leftScope rightScope with ⟨h1, h2⟩ | ⟨h1, l, _, _, h2⟩
  · refine ⟨⟨?_, fun h => absurd h h2⟩, ⟨fun _ => h2, fun _ => h1⟩, ?_⟩
    · rintro ⟨name, hn⟩
      rw [h1] at hn
      exact Except.noConfusion hn
    · intro e he
      rw [h1] at he
      exact Except.noConfusion he
  · refine ⟨⟨fun _ => h1, fun _ => ⟨_, h2⟩⟩, ⟨?_, fun h => absurd h1 h⟩, ?_⟩
    · intro hok
      rw [h2] at hok
      exact Except.noConfusion hok
    · intro e he
      rw [h2] at he
      injection he with he
      exact ⟨_, he.symm⟩

/-- Witness for C9: `t1` on both sides is reported, although the right column of
`t1` is not the first of the right scope; two scopes of anonymous columns with
identical names pass. -/
theorem validateJoinTableNames_exact_witness :
    validateJoinTableNames exampleAliasLeft exampleAliasRight =
      Except.error (Error.DuplicateAlias "t1") ∧
    validateJoinTableNames exampleAnonymous exampleAnonymous = Except.ok () ∧
    (∀ e, validateJoinTableNames exampleAliasLeft exampleAliasRight = Except.error e →
      ∃ name, e = Error.DuplicateAlias name) :=
  ⟨by decide, by decide,
    (validateJoinTableNames_exact exampleAliasLeft exampleAliasRight).2.2⟩

/-! ## Errors of the USING-predicate builder -/

theorem buildUsingJoinPredicate_error (sv : Services) (b : Builder) (joinType : JoinType)
    (leftCols rightCols : List scopeColumn) (names : NameList) (inScope : scope) (e : Error) :
    buildUsingJoinPredicate sv b joinType leftCols rightCols names inScope = Except.error e ↔
      buildUsingJoinPredicate.loop sv joinType leftCols rightCols names
        { joined := [], conditions := [], mergedCols := [], outScope := inScope.push, b := b } =
          Except.error e := by
  unfold buildUsingJoinPredicate
  simp only []
  cases buildUsingJoinPredicate.loop sv joinType leftCols rightCols names
      { joined := [], conditions := [], mergedCols := [], outScope := inScope.push, b := b } with
  | error e1 => simp
  | ok st => simp

theorem loop_duplicate_error (sv : Services) (joinType : JoinType)
    (leftCols rightCols : List scopeColumn) :
    ∀ (names : List Name) (st : usingState) (j : Nat) (n : Name),
      names[j]? = some n →
      (st.joined.get n ≠ none ∨ ∃ i, i < j ∧ names[i]? = some n) →
      (∀ (k : Nat) (nk : Name), k < j → names[k]? = some nk →
        ∃ l r, leftCols.find? (usingMatch nk) = some l ∧
          rightCols.find? (usingMatch nk) = some r ∧
          (sv.Equivalent l.typ r.typ = true ∨
            sv.FindEqualComparisonFunction l.typ r.typ = true)) →
      ∃ m ∈ names, buildUsingJoinPredicate.loop sv joinType leftCols rightCols names st =
        Except.error (Error.DuplicateColumn m) := by
  intro names
  induction names with
  | nil => intro st j n hj; simp at hj
  | cons n0 rest ih =>
    intro st j n hj hdup hres
    unfold buildUsingJoinPredicate.loop
    rw [body_eq]
    cases hget : st.joined.get n0 with
    | some p => exact ⟨n0, List.mem_cons_self _ _, rfl⟩
    | none =>
      simp only []
      cases j with
      | zero =>
        simp only [List.getElem?_cons_zero, Option.some.injEq] at hj
        subst hj
        rcases hdup with h1 | ⟨i, hi, _⟩
        · exact absurd hget h1
        · omega
      | succ j1 =>
        obtain ⟨l, r, hl, hr, hcompat⟩ := hres 0 n0 (Nat.succ_pos _) (by simp)
        rw [hl, hr]
        simp only []
        have hnot : ¬ (sv.Equivalent l.typ r.typ = false ∧
            sv.FindEqualComparisonFunction l.typ r.typ = false) := by
          rintro ⟨h1, h2⟩
          rcases hcompat with h3 | h3
          · rw [h1] at h3; exact Bool.noConfusion h3
          · rw [h2] at h3; exact Bool.noConfusion h3
        rw [if_neg hnot]
        simp only []
        simp only [List.getElem?_cons_succ] at hj
        have hjoined : ∀ x, (buildUsingJoinPredicate.merge sv joinType st n0
            ⟨Side.left, leftCols.findIdx (usingMatch n0)⟩ l
            ⟨Side.right, rightCols.findIdx (usingMatch n0)⟩ r).joined.get x =
            if x = n0 then some (chosenRepresentative sv joinType leftCols rightCols n0)
            else st.joined.get x := by
          intro x
          rw [merge_joined sv joinType leftCols rightCols st n0 l r hl, GoMap.get_set]
        have hdup2 : (buildUsingJoinPredicate.merge sv joinType st n0
            ⟨Side.left, leftCols.findIdx (usingMatch n0)⟩ l
            ⟨Side.right, rightCols.findIdx (usingMatch n0)⟩ r).joined.get n ≠ none ∨
            ∃ i, i < j1 ∧ rest[i]? = some n := by
          rcases hdup with h1 | ⟨i, hi, hin⟩
          · left
            rw [hjoined n]
            by_cases hx : n = n0
            · simp [hx]
            · rw [if_neg hx]; exact h1
          · cases i with
            | zero =>
              simp only [List.getElem?_cons_zero, Option.some.injEq] at hin
              left
              rw [hjoined n, if_pos hin.symm]
              simp
            | succ i1 =>
              right
              exact ⟨i1, by omega, by simpa using hin⟩
        obtain ⟨m, hm, herr⟩ := ih _ j1 n hj hdup2
          (fun k nk hk hnk => hres (k + 1) nk (by omega) (by simpa using hnk))
        exact ⟨m, List.mem_cons_of_mem _ hm, herr⟩

theorem loop_nodup_no_duplicate_error (sv : Services) (joinType : JoinType)
    (leftCols rightCols : List scopeColumn) :
    ∀ (names : List Name) (st : usingState), names.Nodup →
      (∀ n ∈ names, st.joined.get n = none) →
      ∀ m, buildUsingJoinPredicate.loop sv joinType leftCols rightCols names st ≠
        Except.error (Error.DuplicateColumn m) := by
  intro names
  induction names with
  | nil =>
    intro st _ _ m h
    simp [buildUsingJoinPredicate.loop] at h
  | cons n0 rest ih =>
    intro st hnd hnone m
    unfold buildUsingJoinPredicate.loop
    rw [body_eq, hnone n0 (List.mem_cons_self _ _)]
    simp only []
    have hnd2 := List.nodup_cons.mp hnd
    cases hl : leftCols.find? (usingMatch n0) with
    | none => simp
    | some l =>
      cases hr : rightCols.find? (usingMatch n0) with
      | none => simp
      | some r =>
        simp only []
        by_cases hc : sv.Equivalent l.typ r.typ = false ∧
            sv.FindEqualComparisonFunction l.typ r.typ = false
        · rw [if_pos hc]
          simp
        · rw [if_neg hc]
          simp only []
          apply ih _ hnd2.2
          intro n hn
          rw [merge_joined sv joinType leftCols rightCols st n0 l r hl, GoMap.get_set]
          have hne : n ≠ n0 := fun e => hnd2.1 (e ▸ hn)
          rw [if_neg hne]
          exact hnone n (List.mem_cons_of_mem _ hn)

/-- C10 (DuplicateColumn on a repeated USING name).  For every join type and
column lists: if the USING list has the same name at two positions `i < j` and
every name before position `j` resolves to a non-hidden column on both sides with
compatible types (equivalent, or with an equality operator), then
`buildUsingJoinPredicate` fails with DuplicateColumn for a name of the list; and
if the names of the USING list are pairwise distinct it never fails with
DuplicateColumn. -/
theorem usingJoin_duplicate_column (sv : Services) (b : Builder) (joinType : JoinType)
    (leftCols rightCols : List scopeColumn) (names : NameList) (inScope : scope) :
    (∀ (i j : Nat) (n : Name), i < j → names[i]? = some n → names[j]? = some n →
      (∀ (k : Nat) (nk : Name), k < j → names[k]? = some nk →
        ∃ l r, leftCols.find? (usingMatch nk) = some l ∧
          rightCols.find? (usingMatch nk) = some r ∧
          (sv.Equivalent l.typ r.typ = true ∨
            sv.FindEqualComparisonFunction l.typ r.typ = true)) →
      ∃ m ∈ names, buildUsingJoinPredicate sv b joinType leftCols rightCols names inScope =
        Except.error (Error.DuplicateColumn m)) ∧
    (names.Nodup → ∀ m,
      buildUsingJoinPredicate sv b joinType leftCols rightCols names inScope ≠
        Except.error (Error.DuplicateColumn m)) := by
  constructor
  · intro i j n hij hi hj hres
    obtain ⟨m, hm, herr⟩ := loop_duplicate_error sv joinType leftCols rightCols names
      { joined := [], conditions := [], mergedCols := [], outScope := inScope.push, b := b }
      j n hj (Or.inr ⟨i, hij, hi⟩) hres
    exact ⟨m, hm, (buildUsingJoinPredicate_error sv b joinType leftCols rightCols names
      inScope _).mpr herr⟩
  · intro hnd m herr
    exact loop_nodup_no_duplicate_error sv joinType leftCols rightCols names
      { joined := [], conditions := [], mergedCols := [], outScope := inScope.push, b := b } hnd
      (fun _ _ => rfl) m
      ((buildUsingJoinPredicate_error sv b joinType leftCols rightCols names inScope _).mp herr)

/-- Witness for C10: `USING (a, a)` with `a` present on both sides fails with
DuplicateColumn, and `USING (a, b)` does not. -/
theorem usingJoin_duplicate_column_witness :
    buildUsingJoinPredicate exampleServices { numColumns := 6 } sqlbase.InnerJoin
        exampleLeft exampleRight ["a", "a"] exampleInScope =
      Except.error (Error.DuplicateColumn "a") ∧
    (∃ m ∈ ["a", "a"],
      buildUsingJoinPredicate exampleServices { numColumns := 6 } sqlbase.InnerJoin
        exampleLeft exampleRight ["a", "a"] exampleInScope =
          Except.error (Error.DuplicateColumn m)) ∧
    (∀ m, buildUsingJoinPredicate exampleServices { numColumns := 6 } sqlbase.InnerJoin
        exampleLeft exampleRight ["a", "b"] exampleInScope ≠
          Except.error (Error.DuplicateColumn m)) :=
  ⟨by decide,
    (usingJoin_duplicate_column exampleServices { numColumns := 6 } sqlbase.InnerJoin
      exampleLeft exampleRight ["a", "a"] exampleInScope).1 0 1 "a" (by decide) (by decide)
      (by decide)
      (fun k nk hk hnk => by
        have hk0 : k = 0 := by omega
        subst hk0
        have hn : nk = "a" := by simpa using hnk.symm
        subst hn
        exact ⟨exampleColumn "a" "left" 1, exampleColumn "a" "right" 4, by decide, by decide,
          Or.inl (by decide)⟩),
    (usingJoin_duplicate_column exampleServices { numColumns := 6 } sqlbase.InnerJoin
      exampleLeft exampleRight ["a", "b"] exampleInScope).2 (by decide)⟩

/-! ## The errors of `findUsingColumn` and of the type check -/

theorem find?_usingMatch_index (name : Name) :
    ∀ (cols : List scopeColumn) (c : scopeColumn), cols.find? (usingMatch name) = some c →
      cols[cols.findIdx (usingMatch name)]? = some c ∧
      ∀ (j : Nat) (d : scopeColumn), j < cols.findIdx (usingMatch name) → cols[j]? = some d →
        usingMatch name d = false := by
  intro cols
  induction cols with
  | nil => intro c h; simp at h
  | cons x rest ih =>
    intro c h
    by_cases hx : usingMatch name x = true
    · rw [List.find?_cons, hx] at h
      injection h with h
      subst h
      rw [List.findIdx_cons, hx]
      refine ⟨by simp, ?_⟩
      intro j d hj
      simp at hj
    · simp only [Bool.not_eq_true] at hx
      rw [List.find?_cons, hx] at h
      obtain ⟨h1, h2⟩ := ih c h
      rw [List.findIdx_cons, hx]
      refine ⟨by simpa using h1, ?_⟩
      intro j d hj hd
      cases j with
      | zero =>
        simp only [List.getElem?_cons_zero, Option.some.injEq] at hd
        subst hd
        exact hx
      | succ j1 =>
        simp only [List.getElem?_cons_succ] at hd
        exact h2 j1 d (by simpa using hj) hd

/-- C11 (UndefinedColumn names the missing side and ignores hidden columns).  For
every column list, name and side label: if some non-hidden column has the name,
`findUsingColumn` returns the first such column in list order (a pointer to index
`i`, the column at `i`, no non-hidden column of that name before `i`); it fails,
with UndefinedColumn carrying the name and the given side label, if and only if
no non-hidden column has the name, a hidden column of that name not counting.
`buildUsingJoinPredicate` resolves the left side first: when the first USING name
has no non-hidden left column, the call fails with UndefinedColumn for the side
`left`, whatever the right side holds. -/
theorem findUsingColumn_undefined_column (sv : Services) (b : Builder) (joinType : JoinType)
    (base : Side) (cols leftCols rightCols : List scopeColumn) (name : Name) (context : String)
    (rest : NameList) (inScope : scope) :
    ((∃ c ∈ cols, c.hidden = false ∧ c.name = name) →
      ∃ (i : Nat) (c : scopeColumn),
        findUsingColumn base cols name context = Except.ok (⟨base, i⟩, c) ∧
        cols[i]? = some c ∧ c.hidden = false ∧ c.name = name ∧
        ∀ (j : Nat) (d : scopeColumn), j < i → cols[j]? = some d →
          ¬ (d.hidden = false ∧ d.name = name)) ∧
    ((∃ e, findUsingColumn base cols name context = Except.error e) ↔
      ¬ ∃ c ∈ cols, c.hidden = false ∧ c.name = name) ∧
    (∀ e, findUsingColumn base cols name context = Except.error e →
      e = Error.UndefinedColumn name context) ∧
    ((¬ ∃ c ∈ leftCols, c.hidden = false ∧ c.name = name) →
      buildUsingJoinPredicate sv b joinType leftCols rightCols (name :: rest) inScope =
        Except.error (Error.UndefinedColumn name "left")) := by
  have hnone : ∀ cs : List scopeColumn, cs.find? (usingMatch name) = none ↔
      ¬ ∃ c ∈ cs, c.hidden = false ∧ c.name = name := by
    intro cs
    rw [List.find?_eq_none]
    constructor
    · rintro h ⟨c, hc, hh⟩
      exact h c hc ((usingMatch_iff name c).mpr hh)
    · intro h c hc hm
      exact h ⟨c, hc, (usingMatch_iff name c).mp hm⟩
  refine ⟨?_, ?_, ?_, ?_⟩
  · intro hex
    rw [findUsingColumn_eq]
    cases hf : cols.find? (usingMatch name) with
    | none => exact absurd hex ((hnone cols).mp hf)
    | some c =>
      obtain ⟨h1, h2⟩ := find?_usingMatch_index name cols c hf
      have hm := (usingMatch_iff name c).mp (List.find?_some hf)
      refine ⟨_, c, rfl, h1, hm.1, hm.2, ?_⟩
      intro j d hj hd hdm
      have := h2 j d hj hd
      rw [(usingMatch_iff name d).mpr hdm] at this
      exact Bool.noConfusion this
  · rw [findUsingColumn_eq, ← hnone cols]
    cases hf : cols.find? (usingMatch name) with
    | none => simp
    | some c => simp
  · intro e he
    rw [findUsingColumn_eq] at he
    cases hf : cols.find? (usingMatch name) with
    | none =>
      rw [hf] at he
      injection he with he
      exact he.symm
    | some c =>
      rw [hf] at he
      exact Except.noConfusion he
  · intro hno
    rw [buildUsingJoinPredicate_error]
    unfold buildUsingJoinPredicate.loop
    rw [body_eq, (hnone leftCols).mpr hno]
    rfl

/-- Witness for C11: in the left list `a, h (hidden), h`, the name `h` resolves to
the column at index 2; the name `z` is missing, hidden columns or not; and
`USING (z)` with `z` on neither side is reported for the left table. -/
theorem findUsingColumn_undefined_column_witness :
    findUsingColumn Side.left exampleHiddenLeft "h" "left" =
      Except.ok (⟨Side.left, 2⟩, exampleColumn "h" "left" 3) ∧
    findUsingColumn Side.right [(exampleColumn "z" "right" 1).hide] "z" "right" =
      Except.error (Error.UndefinedColumn "z" "right") ∧
    buildUsingJoinPredicate exampleServices { numColumns := 6 } sqlbase.InnerJoin
        exampleLeft exampleRight ["z"] exampleInScope =
      Except.error (Error.UndefinedColumn "z" "left") :=
  ⟨by decide, by decide,
    (findUsingColumn_undefined_column exampleServices { numColumns := 6 } sqlbase.InnerJoin
      Side.left exampleLeft exampleLeft exampleRight "z" "left" [] exampleInScope).2.2.2
      (by decide)⟩

theorem merge_conditions (sv : Services) (joinType : JoinType) (st : usingState) (name : Name)
    (lp rp : scopeColumnPtr) (l r : scopeColumn) :
    (buildUsingJoinPredicate.merge sv joinType st name lp l rp r).conditions =
      st.conditions ++
        [GroupID.ConstructEq (GroupID.ConstructVariable l.id) (GroupID.ConstructVariable r.id)] := by
  unfold buildUsingJoinPredicate.merge
  simp only []
  split
  · rfl
  · split <;> rfl

/-- C12 (DatatypeMismatch exactly when the pair is incomparable).  For a USING
name that is not a duplicate (not yet in `joined`) and resolves to the left
column `l` and the right column `r`: processing the name fails, with
DatatypeMismatch, if and only if the types of `l` and `r` are not equivalent and
no equality comparison function exists between them; when the types are
equivalent, or an equality function exists, the name is accepted and the
predicate `Eq(Variable(l.id), Variable(r.id))` is appended to the conditions. -/
theorem usingJoin_datatype_mismatch (sv : Services) (joinType : JoinType)
    (leftCols rightCols : List scopeColumn) (st : usingState) (name : Name)
    (l r : scopeColumn)
    (hdup : st.joined.get name = none)
    (hl : leftCols.find? (usingMatch name) = some l)
    (hr : rightCols.find? (usingMatch name) = some r) :
    ((∃ e, buildUsingJoinPredicate.body sv joinType leftCols rightCols st name =
        Except.error e) ↔
      (sv.Equivalent l.typ r.typ = false ∧
        sv.FindEqualComparisonFunction l.typ r.typ = false)) ∧
    (∀ e, buildUsingJoinPredicate.body sv joinType leftCols rightCols st name =
        Except.error e → e = Error.DatatypeMismatch l.typ r.typ l.name) ∧
    ((sv.Equivalent l.typ r.typ = true ∨ sv.FindEqualComparisonFunction l.typ r.typ = true) →
      ∃ st1, buildUsingJoinPredicate.body sv joinType leftCols rightCols st name =
          Except.ok st1 ∧
        st1.conditions = st.conditions ++
          [GroupID.ConstructEq (GroupID.ConstructVariable l.id)
            (GroupID.ConstructVariable r.id)]) := by
  rw [body_eq, hdup, hl, hr]
  simp only []
  by_cases hc : sv.Equivalent l.typ r.typ = false ∧
      sv.FindEqualComparisonFunction l.typ r.typ = false
  · rw [if_pos hc]
    refine ⟨⟨fun _ => hc, fun _ => ⟨_, rfl⟩⟩, ?_, ?_⟩
    · intro e he
      injection he with he
      exact he.symm
    · rintro (h1 | h1)
      · rw [hc.1] at h1; exact Bool.noConfusion h1
      · rw [hc.2] at h1; exact Bool.noConfusion h1
  · rw [if_neg hc]
    refine ⟨⟨?_, fun h => absurd h hc⟩, ?_, ?_⟩
    · rintro ⟨e, he⟩
      exact Except.noConfusion he
    · intro e he
      exact Except.noConfusion he
    · intro _
      exact ⟨_, rfl, merge_conditions sv joinType st name _ _ l r⟩

/-- Witness for C12: the left column `a` has type code 1, the right column `a`
type code 2; in the example type system they are neither equivalent nor
comparable, and the name is rejected with DatatypeMismatch. -/
theorem usingJoin_datatype_mismatch_witness :
    (exampleInitialState.joined.get "a" = none ∧
      exampleLeft.find? (usingMatch "a") = some (exampleColumn "a" "left" 1) ∧
      exampleMismatchRight.find? (usingMatch "a") =
        some { exampleColumn "a" "right" 4 with typ := types.T.Typ 2 }) ∧
    buildUsingJoinPredicate.body exampleServices sqlbase.InnerJoin exampleLeft
        exampleMismatchRight exampleInitialState "a" =
      Except.error (Error.DatatypeMismatch (types.T.Typ 1) (types.T.Typ 2) "a") ∧
    ((∃ e, buildUsingJoinPredicate.body exampleServices sqlbase.InnerJoin exampleLeft
        exampleMismatchRight exampleInitialState "a" = Except.error e) ↔
      (exampleServices.Equivalent (types.T.Typ 1) (types.T.Typ 2) = false ∧
        exampleServices.FindEqualComparisonFunction (types.T.Typ 1) (types.T.Typ 2) = false)) :=
  ⟨⟨by decide, by decide, by decide⟩, by decide,
    (usingJoin_datatype_mismatch exampleServices sqlbase.InnerJoin exampleLeft
      exampleMismatchRight exampleInitialState "a" (exampleColumn "a" "left" 1)
      { exampleColumn "a" "right" 4 with typ := types.T.Typ 2 }
      (by decide) (by decide) (by decide)).1⟩

/-! ## The join operator and the ON path -/

/-- C16 (join operator construction).  For every left, right and filter handle,
`constructJoin` wraps the filter in a `Filters` node over the one-element list
holding it, whatever the filter is, and returns `InnerJoin`, `LeftJoin`,
`RightJoin` or `FullJoin` of the left handle, the right handle and the wrapped
filter for the join types inner, left outer, right outer and full outer; for any
other join-type value it fails with an internal error, not a user error. -/
theorem constructJoin_operator (joinType : JoinType) (left right filter : GroupID) :
    InternList [filter] = GroupID.ListCons filter GroupID.EmptyList ∧
    constructJoin sqlbase.InnerJoin left right filter =
      Except.ok (GroupID.ConstructInnerJoin left right
        (GroupID.ConstructFilters (InternList [filter]))) ∧
    constructJoin sqlbase.LeftOuterJoin left right filter =
      Except.ok (GroupID.ConstructLeftJoin left right
        (GroupID.ConstructFilters (InternList [filter]))) ∧
    constructJoin sqlbase.RightOuterJoin left right filter =
      Except.ok (GroupID.ConstructRightJoin left right
        (GroupID.ConstructFilters (InternList [filter]))) ∧
    constructJoin sqlbase.FullOuterJoin left right filter =
      Except.ok (GroupID.ConstructFullJoin left right
        (GroupID.ConstructFilters (InternList [filter]))) ∧
    ((joinType ≠ sqlbase.InnerJoin ∧ joinType ≠ sqlbase.LeftOuterJoin ∧
        joinType ≠ sqlbase.RightOuterJoin ∧ joinType ≠ sqlbase.FullOuterJoin) →
      constructJoin joinType left right filter =
        Except.error (Error.unsupportedJoinType joinType) ∧
      (Error.unsupportedJoinType joinType).isInternal = true) := by
  refine ⟨rfl, rfl, rfl, rfl, rfl, ?_⟩
  rintro ⟨h1, h2, h3, h4⟩
  unfold constructJoin
  simp only []
  rw [if_neg h1, if_neg h2, if_neg h3, if_neg h4]
  exact ⟨rfl, rfl⟩

/-- Witness for C16: the join-type value 7 is none of the four join types; the
constant true and a conjunction are wrapped like any other filter. -/
theorem constructJoin_operator_witness :
    ((7 : JoinType) ≠ sqlbase.InnerJoin ∧ (7 : JoinType) ≠ sqlbase.LeftOuterJoin ∧
      (7 : JoinType) ≠ sqlbase.RightOuterJoin ∧ (7 : JoinType) ≠ sqlbase.FullOuterJoin) ∧
    constructJoin sqlbase.InnerJoin (GroupID.relational 1) (GroupID.relational 2)
        GroupID.ConstructTrue =
      Except.ok (GroupID.ConstructInnerJoin (GroupID.relational 1) (GroupID.relational 2)
        (GroupID.ConstructFilters (GroupID.ListCons GroupID.ConstructTrue GroupID.EmptyList))) ∧
    (constructJoin 7 (GroupID.relational 1) (GroupID.relational 2) GroupID.ConstructTrue =
        Except.error (Error.unsupportedJoinType 7) ∧
      (Error.unsupportedJoinType 7).isInternal = true) :=
  ⟨by decide, by decide,
    (constructJoin_operator 7 (GroupID.relational 1) (GroupID.relational 2)
      GroupID.ConstructTrue).2.2.2.2.2 (by decide)⟩

theorem constructJoin_ok_of_known (joinType : JoinType) (left right filter : GroupID)
    (hjt : joinType = sqlbase.InnerJoin ∨ joinType = sqlbase.LeftOuterJoin ∨
      joinType = sqlbase.RightOuterJoin ∨ joinType = sqlbase.FullOuterJoin) :
    ∃ g, constructJoin joinType left right filter = Except.ok g := by
  rcases hjt with h | h | h | h <;> subst h <;> exact ⟨_, rfl⟩

theorem constructJoin_not_project (joinType : JoinType) (left right filter g : GroupID)
    (h : constructJoin joinType left right filter = Except.ok g) :
    ¬ ∃ i c e, g = GroupID.ConstructProject i c e := by
  unfold constructJoin at h
  simp only [] at h
  rintro ⟨i, c, e, hg⟩
  subst hg
  split at h
  · injection h with h; exact GroupID.noConfusion h
  · split at h
    · injection h with h; exact GroupID.noConfusion h
    · split at h
      · injection h with h; exact GroupID.noConfusion h
      · split at h
        · injection h with h; exact GroupID.noConfusion h
        · exact Except.noConfusion h

/-- C13 (ON / no-condition join output).  For each of the four join types and
every left and right scope that pass alias validation: `buildJoin` with no
condition returns an output scope whose columns are the left scope's columns in
order followed by the right scope's columns in order, each with unchanged id,
name, table name, type and hidden flag; its filter is the constant true and its
group is the join operator itself, not a projection.  With an ON condition, when
the scalar builder returns a filter the result has the same columns and its group
is the join operator over that filter, not a projection; when the scalar builder
fails, `buildJoin` fails with the same error. -/
theorem buildJoin_on_output (sv : Services) (b : Builder) (joinType : JoinType)
    (leftScope rightScope inScope : scope) (onExpr : Expr)
    (hv : validateJoinTableNames leftScope rightScope = Except.ok ())
    (hjt : joinType = sqlbase.InnerJoin ∨ joinType = sqlbase.LeftOuterJoin ∨
      joinType = sqlbase.RightOuterJoin ∨ joinType = sqlbase.FullOuterJoin) :
    (∃ jr, buildJoin sv b joinType JoinCond.nil leftScope rightScope inScope = Except.ok jr ∧
      jr.outScope.cols.map scopeColumn.fields =
        (leftScope.cols ++ rightScope.cols).map scopeColumn.fields ∧
      constructJoin joinType leftScope.group rightScope.group GroupID.ConstructTrue =
        Except.ok jr.outScope.group ∧
      ¬ ∃ i c e, jr.outScope.group = GroupID.ConstructProject i c e) ∧
    (∀ filter b1,
      sv.buildScalar b onExpr (leftScope.cols ++ rightScope.cols) = Except.ok (filter, b1) →
      ∃ jr, buildJoin sv b joinType (JoinCond.OnJoinCond onExpr) leftScope rightScope inScope =
          Except.ok jr ∧
        jr.outScope.cols.map scopeColumn.fields =
          (leftScope.cols ++ rightScope.cols).map scopeColumn.fields ∧
        constructJoin joinType leftScope.group rightScope.group filter =
          Except.ok jr.outScope.group ∧
        ¬ ∃ i c e, jr.outScope.group = GroupID.ConstructProject i c e) ∧
    (∀ e, sv.buildScalar b onExpr (leftScope.cols ++ rightScope.cols) = Except.error e →
      buildJoin sv b joinType (JoinCond.OnJoinCond onExpr) leftScope rightScope inScope =
        Except.error e) := by
  have hcols : ((inScope.push.appendColumnsFromScope leftScope).appendColumnsFromScope
      rightScope).cols = leftScope.cols ++ rightScope.cols := by
    simp [scope.push, scope.appendColumnsFromScope]
  refine ⟨?_, ?_, ?_⟩
  · obtain ⟨g, hg⟩ := constructJoin_ok_of_known joinType leftScope.group rightScope.group
      GroupID.ConstructTrue hjt
    unfold buildJoin
    rw [hv]
    simp only []
    rw [hg]
    exact ⟨_, rfl, by rw [hcols], rfl,
      constructJoin_not_project joinType _ _ _ g hg⟩
  · intro filter b1 hs
    obtain ⟨g, hg⟩ := constructJoin_ok_of_known joinType leftScope.group rightScope.group
      filter hjt
    unfold buildJoin
    rw [hv]
    simp only []
    rw [hcols, hs]
    simp only []
    rw [hg]
    exact ⟨_, rfl, rfl, rfl,
      constructJoin_not_project joinType _ _ _ g hg⟩
  · intro e hs
    unfold buildJoin
    rw [hv]
    simp only []
    rw [hcols, hs]

/-- Witness for C13: the left outer join of the example scopes without condition
has the six columns `a, b, x, a, b, y` and the group
`LeftJoin(1, 2, Filters([True]))`. -/
theorem buildJoin_on_output_witness :
    (validateJoinTableNames exampleLeftScope exampleRightScope = Except.ok () ∧
      (sqlbase.LeftOuterJoin = sqlbase.InnerJoin ∨
        sqlbase.LeftOuterJoin = sqlbase.LeftOuterJoin ∨
        sqlbase.LeftOuterJoin = sqlbase.RightOuterJoin ∨
        sqlbase.LeftOuterJoin = sqlbase.FullOuterJoin)) ∧
    buildJoin exampleServices { numColumns := 6 } sqlbase.LeftOuterJoin JoinCond.nil
        exampleLeftScope exampleRightScope exampleInScope =
      Except.ok
        { outScope :=
            { cols := exampleLeft ++ exampleRight
              group := GroupID.ConstructLeftJoin (GroupID.relational 1) (GroupID.relational 2)
                (GroupID.ConstructFilters (InternList [GroupID.ConstructTrue]))
              context := "" }
          leftScope := exampleLeftScope
          rightScope := exampleRightScope
          b := { numColumns := 6 } } ∧
    ∃ jr, buildJoin exampleServices { numColumns := 6 } sqlbase.LeftOuterJoin JoinCond.nil
        exampleLeftScope exampleRightScope exampleInScope = Except.ok jr ∧
      jr.outScope.cols.map scopeColumn.fields =
        (exampleLeftScope.cols ++ exampleRightScope.cols).map scopeColumn.fields ∧
      constructJoin sqlbase.LeftOuterJoin exampleLeftScope.group exampleRightScope.group
        GroupID.ConstructTrue = Except.ok jr.outScope.group ∧
      ¬ ∃ i c e, jr.outScope.group = GroupID.ConstructProject i c e :=
  ⟨⟨by decide, by decide⟩, by decide,
    (buildJoin_on_output exampleServices { numColumns := 6 } sqlbase.LeftOuterJoin
      exampleLeftScope exampleRightScope exampleInScope { code := 0 }
      (by decide) (by decide)).1⟩

/-! ## The filter and the projection of USING joins -/

theorem loop_conditions (sv : Services) (joinType : JoinType)
    (leftCols rightCols : List scopeColumn) :
    ∀ (names : List Name) (st st1 : usingState),
      buildUsingJoinPredicate.loop sv joinType leftCols rightCols names st = Except.ok st1 →
      ∃ conds, st1.conditions = st.conditions ++ conds ∧
        List.Forall₂ (IsUsingCondition leftCols rightCols) names conds := by
  intro names
  induction names with
  | nil =>
    intro st st1 h
    simp only [buildUsingJoinPredicate.loop, Except.ok.injEq] at h
    subst h
    exact ⟨[], by simp, List.Forall₂.nil⟩
  | cons name rest ih =>
    intro st st1 h
    unfold buildUsingJoinPredicate.loop at h
    cases hb : buildUsingJoinPredicate.body sv joinType leftCols rightCols st name with
    | error e => rw [hb] at h; simp at h
    | ok st2 =>
      rw [hb] at h
      simp only [] at h
      obtain ⟨conds, hc, hall⟩ := ih st2 st1 h
      obtain ⟨_, l, r, hl, hr, _, hst2⟩ := body_ok hb
      refine ⟨GroupID.ConstructEq (GroupID.ConstructVariable l.id)
        (GroupID.ConstructVariable r.id) :: conds, ?_, List.Forall₂.cons ⟨l, r, hl, hr, rfl⟩ hall⟩
      rw [hc, hst2, merge_conditions]
      simp

/-- C15 (USING filter construction).  On every successful call of
`buildUsingJoinPredicate` the returned filter is `constructFilter` of a list with
one condition per USING name, in USING-list order, the condition of a name being
`Eq(Variable(l.id), Variable(r.id))` for the left column `l` and the right column
`r` the name resolves to; and `constructFilter` returns the constant true for the
empty list, the element itself for a one-element list, and `And` of the interned
list for two or more elements. -/
theorem usingJoin_filter_construction (sv : Services) (b : Builder) (joinType : JoinType)
    (leftCols rightCols : List scopeColumn) (names : NameList) (inScope : scope)
    (res : usingResult)
    (h : buildUsingJoinPredicate sv b joinType leftCols rightCols names inScope = Except.ok res) :
    (∃ conds : List GroupID,
      List.Forall₂ (fun name cond =>
        ∃ l r, leftCols.find? (usingMatch name) = some l ∧
          rightCols.find? (usingMatch name) = some r ∧
          cond = GroupID.ConstructEq (GroupID.ConstructVariable l.id)
            (GroupID.ConstructVariable r.id)) names conds ∧
      res.out = constructFilter conds) ∧
    constructFilter [] = GroupID.ConstructTrue ∧
    (∀ c, constructFilter [c] = c) ∧
    (∀ c1 c2 cs, constructFilter (c1 :: c2 :: cs) =
      GroupID.ConstructAnd (InternList (c1 :: c2 :: cs))) := by
  obtain ⟨st, hst, _, hout, _, _⟩ := buildUsingJoinPredicate_ok h
  obtain ⟨conds, hc, hall⟩ := loop_conditions sv joinType leftCols rightCols names _ st hst
  refine ⟨⟨conds, hall, ?_⟩, rfl, fun _ => rfl, fun _ _ _ => rfl⟩
  rw [hout, hc]
  rfl

/-- Witness for C15: the inner join of the example with `USING (a, b)` has the
filter `And([Eq(@1, @4), Eq(@2, @5)])`. -/
theorem usingJoin_filter_construction_witness :
    buildUsingJoinPredicate exampleServices { numColumns := 6 } sqlbase.InnerJoin
        exampleLeft exampleRight ["a", "b"] exampleInScope = Except.ok exampleInnerResult ∧
    exampleInnerResult.out = GroupID.ConstructAnd (InternList
      [GroupID.ConstructEq (GroupID.ConstructVariable 1) (GroupID.ConstructVariable 4),
       GroupID.ConstructEq (GroupID.ConstructVariable 2) (GroupID.ConstructVariable 5)]) ∧
    ∃ conds : List GroupID,
      List.Forall₂ (fun name cond =>
        ∃ l r, exampleLeft.find? (usingMatch name) = some l ∧
          exampleRight.find? (usingMatch name) = some r ∧
          cond = GroupID.ConstructEq (GroupID.ConstructVariable l.id)
            (GroupID.ConstructVariable r.id)) ["a", "b"] conds ∧
      exampleInnerResult.out = constructFilter conds :=
  ⟨by decide, by decide,
    (usingJoin_filter_construction exampleServices { numColumns := 6 } sqlbase.InnerJoin
      exampleLeft exampleRight ["a", "b"] exampleInScope exampleInnerResult (by decide)).1⟩

theorem buildUsingJoin_ok {sv : Services} {b : Builder} {joinType : JoinType}
    {names : NameList} {leftScope rightScope inScope : scope} {jr : joinResult}
    (h : buildUsingJoin sv b joinType names leftScope rightScope inScope = Except.ok jr) :
    ∃ res g,
      buildUsingJoinPredicate sv b joinType leftScope.cols rightScope.cols names inScope =
        Except.ok res ∧
      constructJoin joinType leftScope.group rightScope.group res.out = Except.ok g ∧
      jr.leftScope = { leftScope with cols := res.leftCols } ∧
      jr.rightScope = { rightScope with cols := res.rightCols } ∧
      jr.b = res.b ∧
      (res.mergedCols = [] → jr.outScope = { res.outScope with group := g }) ∧
      (res.mergedCols ≠ [] →
        jr.outScope.cols = res.outScope.cols.map
          (fun c => { c with group := (res.mergedCols.get c.id).getD GroupID.zero }) ∧
        jr.outScope.group = constructProject g jr.outScope.cols) := by
  unfold buildUsingJoin at h
  cases hp : buildUsingJoinPredicate sv b joinType leftScope.cols rightScope.cols names
      inScope with
  | error e => rw [hp] at h; simp at h
  | ok res =>
    rw [hp] at h
    simp only [] at h
    cases hg : constructJoin joinType leftScope.group rightScope.group res.out with
    | error e => rw [hg] at h; simp at h
    | ok g =>
      rw [hg] at h
      simp only [] at h
      injection h with h
      subst h
      refine ⟨res, g, rfl, hg, rfl, rfl, rfl, ?_, ?_⟩
      · intro he
        simp [he]
      · intro hne
        have hlen : res.mergedCols.length > 0 := List.length_pos.mpr hne
        rw [if_pos hlen]
        refine ⟨?_, rfl⟩
        apply List.map_congr_left
        intro c _
        cases res.mergedCols.get c.id with
        | none => rfl
        | some m => rfl

theorem GoMap.get_ne_none_of_ne_nil {κ ν : Type} [DecidableEq κ] (m : GoMap κ ν)
    (h : m ≠ []) : ∃ k, GoMap.get m k ≠ none := by
  cases m with
  | nil => exact absurd rfl h
  | cons e rest =>
    refine ⟨e.1, ?_⟩
    simp [GoMap.get, List.find?_cons]

/-- C14 (projection wrapping).  On every successful call of `buildUsingJoin`, with
`res` the result of `buildUsingJoinPredicate` and `g` the join operator built by
`constructJoin`: the merged-column mapping is non-empty if and only if some USING
name was given a synthesized column; the group of the output scope is a projection
if and only if the mapping is non-empty.  If the mapping is empty, the group is
the join operator itself and the columns are returned as they are.  If it is
non-empty, every output column gets as group the mapping's handle for its id when
the id is a key of the mapping and the passthrough marker `0` otherwise, and the
group of the scope is the projection over the join operator that lists every
column of the output scope, in scope order, with that handle. -/
theorem buildUsingJoin_projection_wrapping (sv : Services) (b : Builder)
    (joinType : JoinType) (names : NameList) (leftScope rightScope inScope : scope)
    (jr : joinResult)
    (h : buildUsingJoin sv b joinType names leftScope rightScope inScope = Except.ok jr) :
    ∃ res g,
      buildUsingJoinPredicate sv b joinType leftScope.cols rightScope.cols names inScope =
        Except.ok res ∧
      constructJoin joinType leftScope.group rightScope.group res.out = Except.ok g ∧
      (res.mergedCols ≠ [] ↔
        ∃ name ∈ names, ∃ l, leftScope.cols.find? (usingMatch name) = some l ∧
          ¬ (joinType = sqlbase.InnerJoin ∨ joinType = sqlbase.LeftOuterJoin) ∧
          ¬ (joinType = sqlbase.RightOuterJoin ∧
            sv.DatumTypeHasCompositeKeyEncoding l.typ = false)) ∧
      ((∃ i c e, jr.outScope.group = GroupID.ConstructProject i c e) ↔ res.mergedCols ≠ []) ∧
      (res.mergedCols = [] →
        jr.outScope.group = g ∧ jr.outScope.cols = res.outScope.cols) ∧
      (res.mergedCols ≠ [] →
        jr.outScope.cols = res.outScope.cols.map
          (fun c => { c with group := (res.mergedCols.get c.id).getD GroupID.zero }) ∧
        jr.outScope.group = GroupID.ConstructProject g
          (jr.outScope.cols.map (fun c => c.id))
          (InternList (jr.outScope.cols.map (fun c => c.group)))) := by
  obtain ⟨res, g, hres, hg, _, _, _, hempty, hproj⟩ := buildUsingJoin_ok h
  obtain ⟨_, hpoint, hkeys⟩ :=
    usingJoin_merged sv b joinType leftScope.cols rightScope.cols names inScope res hres
  refine ⟨res, g, hres, hg, ⟨?_, ?_⟩, ⟨?_, ?_⟩, ?_, ?_⟩
  · intro hne
    obtain ⟨k, hk⟩ := GoMap.get_ne_none_of_ne_nil res.mergedCols hne
    obtain ⟨j, nm, l, r, hj, hl, _, hA, hB, _⟩ := hkeys k hk
    exact ⟨nm, List.getElem?_mem hj, l, hl, hA, hB⟩
  · rintro ⟨name, hn, l, hl, hA, hB⟩
    obtain ⟨i, hi⟩ := List.getElem?_of_mem hn
    obtain ⟨c, _, l1, r1, hl1, _, _, _, h3⟩ := hpoint i name hi
    rw [hl] at hl1
    injection hl1 with hl1
    subst hl1
    obtain ⟨k, _, _, hk, _⟩ := h3 hA hB
    intro he
    rw [he] at hk
    exact Option.noConfusion hk
  · rintro ⟨i, c, e, hp⟩ he
    rw [hempty he] at hp
    exact constructJoin_not_project joinType _ _ _ g hg ⟨i, c, e, hp⟩
  · intro hne
    exact ⟨_, _, _, (hproj hne).2⟩
  · intro he
    rw [hempty he]
    exact ⟨rfl, rfl⟩
  · intro hne
    exact ⟨(hproj hne).1, (hproj hne).2⟩

/-- Witness for C14: the full outer join of the example with `USING (a, b)` is a
projection over the full join that lists the eight columns; the inner join is the
join operator itself. -/
theorem buildUsingJoin_projection_wrapping_witness :
    buildUsingJoin exampleServices { numColumns := 6 } sqlbase.FullOuterJoin ["a", "b"]
        exampleLeftScope exampleRightScope exampleInScope = Except.ok exampleFullJoinResult ∧
    exampleFullJoinColumns.map (fun c => decide (c.group = GroupID.zero)) =
      [false, false, true, true, true, true, true, true] ∧
    (buildUsingJoin exampleServices { numColumns := 6 } sqlbase.InnerJoin ["a", "b"]
        exampleLeftScope exampleRightScope exampleInScope).map (fun jr => jr.outScope.group) =
      Except.ok (GroupID.ConstructInnerJoin (GroupID.relational 1) (GroupID.relational 2)
        (GroupID.ConstructFilters (InternList [exampleInnerResult.out]))) ∧
    ∃ res g,
      buildUsingJoinPredicate exampleServices { numColumns := 6 } sqlbase.FullOuterJoin
        exampleLeftScope.cols exampleRightScope.cols ["a", "b"] exampleInScope =
          Except.ok res ∧
      constructJoin sqlbase.FullOuterJoin exampleLeftScope.group exampleRightScope.group
        res.out = Except.ok g ∧
      (res.mergedCols ≠ [] ↔
        ∃ name ∈ ["a", "b"], ∃ l, exampleLeftScope.cols.find? (usingMatch name) = some l ∧
          ¬ (sqlbase.FullOuterJoin = sqlbase.InnerJoin ∨
            sqlbase.FullOuterJoin = sqlbase.LeftOuterJoin) ∧
          ¬ (sqlbase.FullOuterJoin = sqlbase.RightOuterJoin ∧
            exampleServices.DatumTypeHasCompositeKeyEncoding l.typ = false)) ∧
      ((∃ i c e, exampleFullJoinResult.outScope.group = GroupID.ConstructProject i c e) ↔
        res.mergedCols ≠ []) ∧
      (res.mergedCols = [] →
        exampleFullJoinResult.outScope.group = g ∧
        exampleFullJoinResult.outScope.cols = res.outScope.cols) ∧
      (res.mergedCols ≠ [] →
        exampleFullJoinResult.outScope.cols = res.outScope.cols.map
          (fun c => { c with group := (res.mergedCols.get c.id).getD GroupID.zero }) ∧
        exampleFullJoinResult.outScope.group = GroupID.ConstructProject g
          (exampleFullJoinResult.outScope.cols.map (fun c => c.id))
          (InternList (exampleFullJoinResult.outScope.cols.map (fun c => c.group)))) :=
  ⟨by decide, by decide, by decide,
    buildUsingJoin_projection_wrapping exampleServices { numColumns := 6 }
      sqlbase.FullOuterJoin ["a", "b"] exampleLeftScope exampleRightScope exampleInScope
      exampleFullJoinResult (by decide)⟩

/-! ## The writes of `hideMatchingColumns` to its input -/

theorem hide_loop_fst (base : Side) (joined : GoMap Name (Option scopeColumnPtr)) :
    ∀ (cols : List scopeColumn) (i : Nat) (acc : List scopeColumn),
      (hideMatchingColumns.loop base joined i cols acc).1 =
        (cols.enumFrom i).map (writeAction base joined) := by
  intro cols
  induction cols with
  | nil => intro i acc; simp [hideMatchingColumns.loop]
  | cons col rest ih =>
    intro i acc
    unfold hideMatchingColumns.loop
    simp only [List.enumFrom_cons, List.map_cons, writeAction]
    cases hj : joined.get col.name with
    | none => simp only [ih]
    | some foundCol =>
      simp only []
      by_cases hp : some (scopeColumnPtr.mk base i) = foundCol
      · simp only [hp, if_true, ih]
      · simp only [hp, if_false, ih]

theorem buildUsingJoinPredicate_written {sv : Services} {b : Builder} {joinType : JoinType}
    {leftCols rightCols : List scopeColumn} {names : NameList} {inScope : scope}
    {res : usingResult}
    (h : buildUsingJoinPredicate sv b joinType leftCols rightCols names inScope = Except.ok res) :
    ∃ st, buildUsingJoinPredicate.loop sv joinType leftCols rightCols names
        { joined := [], conditions := [], mergedCols := [], outScope := inScope.push, b := b } =
          Except.ok st ∧
      res.leftCols = leftCols.enum.map (writeAction Side.left st.joined) ∧
      res.rightCols = rightCols.enum.map (writeAction Side.right st.joined) := by
  unfold buildUsingJoinPredicate at h
  simp only [] at h
  split at h
  · simp at h
  · rename_i st hst
    refine ⟨st, hst, ?_⟩
    injection h with h
    subst h
    simp [hideMatchingColumns, hide_loop_fst, List.enum]

theorem isRepresentative_iff (sv : Services) (joinType : JoinType)
    (leftCols rightCols : List scopeColumn) (names : NameList) (base : Side)
    (ic : Nat × scopeColumn)
    (hget : (match base with
      | Side.left => leftCols
      | Side.right => rightCols)[ic.1]? = some ic.2) :
    isRepresentative (chosenRepresentative sv joinType leftCols rightCols) names
        base ic.1 = true ↔
      (ic.2.name ∈ names ∧
        chosenRepresentative sv joinType leftCols rightCols ic.2.name = some ⟨base, ic.1⟩) := by
  unfold isRepresentative
  rw [List.any_eq_true]
  constructor
  · rintro ⟨n, hn, hch⟩
    have hch2 := of_decide_eq_true hch
    have := chosenRepresentative_points sv joinType leftCols rightCols n base ic.1 ic.2 hch2 hget
    rw [this]
    exact ⟨hn, hch2⟩
  · rintro ⟨hn, hch⟩
    exact ⟨ic.2.name, hn, decide_eq_true hch⟩

theorem writeAction_eq_written (sv : Services) (joinType : JoinType)
    (leftCols rightCols : List scopeColumn) (names : NameList)
    (joined : GoMap Name (Option scopeColumnPtr)) (base : Side)
    (hj : ∀ n, joined.get n =
      if n ∈ names then some (chosenRepresentative sv joinType leftCols rightCols n) else none) :
    (match base with
      | Side.left => leftCols
      | Side.right => rightCols).enum.map (writeAction base joined) =
    writtenColumns (chosenRepresentative sv joinType leftCols rightCols) names base
      (match base with
        | Side.left => leftCols
        | Side.right => rightCols) := by
  unfold writtenColumns
  apply List.map_congr_left
  intro ic hic
  have hget := List.mem_enum_iff_getElem?.mp hic
  have hrep := isRepresentative_iff sv joinType leftCols rightCols names base ic hget
  unfold writeAction
  rw [hj ic.2.name]
  by_cases hn : ic.2.name ∈ names
  · rw [if_pos hn]
    simp only []
    by_cases hch : chosenRepresentative sv joinType leftCols rightCols ic.2.name =
        some ⟨base, ic.1⟩
    · have h1 := hrep.mpr ⟨hn, hch⟩
      rw [if_pos hch.symm]
      have h2 : ¬ (ic.2.name ∈ names ∧
          isRepresentative (chosenRepresentative sv joinType leftCols rightCols) names
            base ic.1 = false) := by
        rintro ⟨_, h3⟩
        rw [h1] at h3
        exact Bool.noConfusion h3
      rw [if_neg h2]
    · have h1 : isRepresentative (chosenRepresentative sv joinType leftCols rightCols) names
          base ic.1 = false := by
        cases hv : isRepresentative (chosenRepresentative sv joinType leftCols rightCols) names
            base ic.1 with
        | false => rfl
        | true => exact absurd (hrep.mp hv).2 hch
      have h2 : ¬ some (scopeColumnPtr.mk base ic.1) =
          chosenRepresentative sv joinType leftCols rightCols ic.2.name := fun e => hch e.symm
      rw [if_neg h2, if_pos ⟨hn, h1⟩]
      rfl
  · rw [if_neg hn]
    simp only []
    have h2 : ¬ (ic.2.name ∈ names ∧
        isRepresentative (chosenRepresentative sv joinType leftCols rightCols) names
          base ic.1 = false) := fun h3 => hn h3.1
    rw [if_neg h2]

/-- C17, counterexample: in the inner join of the example with `USING (a, b)` the
right column list is not unchanged by the call: its columns `a` and `b` were
visible before the call and are hidden after it. -/
theorem usingJoin_writes_hidden_flag :
    buildUsingJoinPredicate exampleServices { numColumns := 6 } sqlbase.InnerJoin
        exampleLeft exampleRight ["a", "b"] exampleInScope = Except.ok exampleInnerResult ∧
    exampleRight.map (fun c => c.hidden) = [false, false, false] ∧
    exampleInnerResult.rightCols.map (fun c => c.hidden) = [true, true, false] ∧
    exampleInnerResult.rightCols.map scopeColumn.fields ≠
      exampleRight.map scopeColumn.fields := by
  decide

/-- C17, amended: after a successful call of `buildUsingJoinPredicate` the left
and right column lists it was given hold the same columns in the same order with
the same id, name, table name and type; the hidden flag of a column is unchanged
unless the column is named like a USING name and was not chosen as the merged
representative, in which case `hideMatchingColumns` has set `hidden = true` in
the input list itself. -/
theorem usingJoin_input_frame (sv : Services) (b : Builder) (joinType : JoinType)
    (leftCols rightCols : List scopeColumn) (names : NameList) (inScope : scope)
    (res : usingResult)
    (h : buildUsingJoinPredicate sv b joinType leftCols rightCols names inScope = Except.ok res) :
    res.leftCols = writtenColumns (chosenRepresentative sv joinType leftCols rightCols) names
      Side.left leftCols ∧
    res.rightCols = writtenColumns (chosenRepresentative sv joinType leftCols rightCols) names
      Side.right rightCols ∧
    res.leftCols.map (fun c => (c.id, c.name, c.table, c.typ)) =
      leftCols.map (fun c => (c.id, c.name, c.table, c.typ)) ∧
    res.rightCols.map (fun c => (c.id, c.name, c.table, c.typ)) =
      rightCols.map (fun c => (c.id, c.name, c.table, c.typ)) := by
  obtain ⟨st, hst, hL, hR⟩ := buildUsingJoinPredicate_written h
  obtain ⟨_, _, hj⟩ := loop_joined sv joinType leftCols rightCols names _ st hst
  have hj2 : ∀ n, st.joined.get n =
      if n ∈ names then some (chosenRepresentative sv joinType leftCols rightCols n)
      else none := by
    intro n
    rw [hj n]
    rfl
  have hwL := writeAction_eq_written sv joinType leftCols rightCols names st.joined Side.left hj2
  have hwR := writeAction_eq_written sv joinType leftCols rightCols names st.joined Side.right hj2
  simp only [] at hwL hwR
  have hkeep : ∀ (base : Side) (cols : List scopeColumn),
      (writtenColumns (chosenRepresentative sv joinType leftCols rightCols) names base cols).map
        (fun c => (c.id, c.name, c.table, c.typ)) =
      cols.map (fun c => (c.id, c.name, c.table, c.typ)) := by
    intro base cols
    unfold writtenColumns
    rw [List.map_map]
    have hfun : ∀ ic ∈ cols.enum,
        ((fun c : scopeColumn => (c.id, c.name, c.table, c.typ)) ∘
          (fun ic : Nat × scopeColumn =>
            if ic.2.name ∈ names ∧
                isRepresentative (chosenRepresentative sv joinType leftCols rightCols) names
                  base ic.1 = false then ic.2.hide
            else ic.2)) ic =
        ((fun c : scopeColumn => (c.id, c.name, c.table, c.typ)) ∘ Prod.snd) ic := by
      intro ic _
      simp only [Function.comp]
      split <;> rfl
    rw [List.map_congr_left hfun, ← List.map_map]
    congr 1
    exact List.enum_map_snd cols
  rw [hL, hR, hwL, hwR]
  exact ⟨rfl, rfl, hkeep Side.left leftCols, hkeep Side.right rightCols⟩

/-- Witness for the amended C17: the inner join of the example. -/
theorem usingJoin_input_frame_witness :
    buildUsingJoinPredicate exampleServices { numColumns := 6 } sqlbase.InnerJoin
        exampleLeft exampleRight ["a", "b"] exampleInScope = Except.ok exampleInnerResult ∧
    exampleInnerResult.leftCols = exampleLeft ∧
    (exampleInnerResult.leftCols = writtenColumns
        (chosenRepresentative exampleServices sqlbase.InnerJoin exampleLeft exampleRight)
        ["a", "b"] Side.left exampleLeft ∧
      exampleInnerResult.rightCols = writtenColumns
        (chosenRepresentative exampleServices sqlbase.InnerJoin exampleLeft exampleRight)
        ["a", "b"] Side.right exampleRight ∧
      exampleInnerResult.leftCols.map (fun c => (c.id, c.name, c.table, c.typ)) =
        exampleLeft.map (fun c => (c.id, c.name, c.table, c.typ)) ∧
      exampleInnerResult.rightCols.map (fun c => (c.id, c.name, c.table, c.typ)) =
        exampleRight.map (fun c => (c.id, c.name, c.table, c.typ))) :=
  ⟨by decide, by decide,
    usingJoin_input_frame exampleServices { numColumns := 6 } sqlbase.InnerJoin
      exampleLeft exampleRight ["a", "b"] exampleInScope exampleInnerResult (by decide)⟩

/-! ## Column ids of the output scope -/

theorem hideAction_id_set (base : Side) (joined : GoMap Name (Option scopeColumnPtr))
    (n : Name) (v : Option scopeColumnPtr) (hget : joined.get n = none)
    (ic : Nat × scopeColumn) :
    (hideAction base (GoMap.set joined n v) ic).map (fun c => c.id) =
      if ic.2.name = n ∧ v = some ⟨base, ic.1⟩ then none
      else (hideAction base joined ic).map (fun c => c.id) := by
  unfold hideAction
  rw [GoMap.get_set]
  by_cases hn : ic.2.name = n
  · rw [if_pos hn]
    have hold : joined.get ic.2.name = none := by rw [hn]; exact hget
    rw [hold]
    simp only []
    by_cases hv : v = some ⟨base, ic.1⟩
    · rw [if_pos hv.symm, if_pos ⟨hn, hv⟩]
      rfl
    · have hv2 : ¬ some (scopeColumnPtr.mk base ic.1) = v := fun e => hv e.symm
      have hc : ¬ (ic.2.name = n ∧ v = some ⟨base, ic.1⟩) := fun e => hv e.2
      rw [if_neg hv2, if_neg hc]
      rfl
  · rw [if_neg hn]
    have hc : ¬ (ic.2.name = n ∧ v = some ⟨base, ic.1⟩) := fun e => hn e.1
    rw [if_neg hc]

theorem hideIds_cons (base : Side) (joined : GoMap Name (Option scopeColumnPtr)) (k : Nat)
    (c : scopeColumn) (cs : List scopeColumn) :
    hideIds base joined k (c :: cs) =
      ((hideAction base joined (k, c)).map (fun c => c.id)).toList ++
        hideIds base joined (k + 1) cs := by
  unfold hideIds
  rw [List.enumFrom_cons, List.filterMap_cons]
  cases hideAction base joined (k, c) with
  | none => rfl
  | some d => rfl

theorem hideIds_set_other (base : Side) (joined : GoMap Name (Option scopeColumnPtr))
    (n : Name) (v : Option scopeColumnPtr) (hget : joined.get n = none) :
    ∀ (cols : List scopeColumn) (k : Nat), (∀ j, k ≤ j → v ≠ some ⟨base, j⟩) →
      hideIds base (GoMap.set joined n v) k cols = hideIds base joined k cols := by
  intro cols
  induction cols with
  | nil => intro k _; rfl
  | cons c cs ih =>
    intro k hv
    rw [hideIds_cons, hideIds_cons, ih (k + 1) (fun j hj => hv j (by omega)),
      hideAction_id_set base joined n v hget (k, c)]
    have hc : ¬ (c.name = n ∧ v = some ⟨base, k⟩) := fun e => hv k (le_refl _) e.2
    rw [if_neg hc]

theorem hideIds_set_representative (base : Side) (joined : GoMap Name (Option scopeColumnPtr))
    (n : Name) (hget : joined.get n = none) (i : Nat) (l : scopeColumn) (hl : l.name = n) :
    ∀ (cols : List scopeColumn) (k : Nat), k ≤ i → cols[i - k]? = some l →
      List.Perm (l.id :: hideIds base (GoMap.set joined n (some ⟨base, i⟩)) k cols)
        (hideIds base joined k cols) := by
  intro cols
  induction cols with
  | nil => intro k _ h; simp at h
  | cons c cs ih =>
    intro k hk h
    rw [hideIds_cons, hideIds_cons, hideAction_id_set base joined n _ hget (k, c)]
    by_cases hik : i = k
    · subst hik
      simp only [Nat.sub_self, List.getElem?_cons_zero, Option.some.injEq] at h
      subst h
      have hc : c.name = n ∧ some (scopeColumnPtr.mk base i) = some ⟨base, i⟩ := ⟨hl, rfl⟩
      rw [if_pos hc]
      have htail := hideIds_set_other base joined n (some ⟨base, i⟩) hget cs (i + 1)
        (fun j hj e => by
          injection e with e
          injection e with _ e2
          omega)
      rw [htail]
      have hold : hideAction base joined (i, c) = some c := by
        unfold hideAction
        have : joined.get c.name = none := by rw [hl]; exact hget
        rw [this]
      rw [hold]
      exact List.Perm.refl _
    · have hc : ¬ (c.name = n ∧ some (scopeColumnPtr.mk base i) = some ⟨base, k⟩) := by
        rintro ⟨_, e⟩
        injection e with e
        injection e with _ e2
        exact hik e2
      rw [if_neg hc]
      have hsub : i - k = (i - (k + 1)) + 1 := by omega
      rw [hsub, List.getElem?_cons_succ] at h
      have ih2 := ih (k + 1) (by omega) h
      exact List.Perm.trans List.perm_middle.symm (List.Perm.append_left _ ih2)

theorem hideIds_nil (base : Side) :
    ∀ (cols : List scopeColumn) (k : Nat),
      hideIds base ([] : GoMap Name (Option scopeColumnPtr)) k cols =
        cols.map (fun c => c.id) := by
  intro cols
  induction cols with
  | nil => intro k; rfl
  | cons c cs ih =>
    intro k
    rw [hideIds_cons, ih]
    rfl

theorem body_pendingIds (sv : Services) (joinType : JoinType)
    (leftCols rightCols : List scopeColumn) (st st2 : usingState) (name : Name)
    (hb : buildUsingJoinPredicate.body sv joinType leftCols rightCols st name = Except.ok st2) :
    ∃ l, leftCols.find? (usingMatch name) = some l ∧
      ((List.Perm (pendingIds leftCols rightCols st2) (pendingIds leftCols rightCols st) ∧
          st2.b = st.b) ∨
        (List.Perm (pendingIds leftCols rightCols st2)
            ((st.b.numColumns + 1) :: pendingIds leftCols rightCols st) ∧
          st2.b.numColumns = st.b.numColumns + 1 ∧
          ¬ (joinType = sqlbase.InnerJoin ∨ joinType = sqlbase.LeftOuterJoin) ∧
          ¬ (joinType = sqlbase.RightOuterJoin ∧
            sv.DatumTypeHasCompositeKeyEncoding l.typ = false))) := by
  obtain ⟨hget, l, r, hl, hr, _, hst2⟩ := body_ok hb
  have hlm := (usingMatch_iff name l).mp (List.find?_some hl)
  have hrm := (usingMatch_iff name r).mp (List.find?_some hr)
  have hli := (find?_usingMatch_index name leftCols l hl).1
  have hri := (find?_usingMatch_index name rightCols r hr).1
  refine ⟨l, hl, ?_⟩
  by_cases hA : joinType = sqlbase.InnerJoin ∨ joinType = sqlbase.LeftOuterJoin
  · left
    rw [merge_left sv joinType st name _ _ l r hA] at hst2
    subst hst2
    refine ⟨?_, rfl⟩
    unfold pendingIds
    simp only [List.map_append, List.map_cons, List.map_nil]
    rw [hideIds_set_other Side.right st.joined name _ hget rightCols 0
      (fun j _ e => by
        injection e with e
        injection e with e1 _
        exact Side.noConfusion e1)]
    have hp := hideIds_set_representative Side.left st.joined name hget
      (leftCols.findIdx (usingMatch name)) l hlm.2 leftCols 0 (Nat.zero_le _)
      (by simpa using hli)
    rw [List.append_assoc, List.append_assoc, List.append_assoc]
    apply List.Perm.append_left
    rw [← List.append_assoc]
    apply List.Perm.append_right
    exact hp
  · by_cases hB : joinType = sqlbase.RightOuterJoin ∧
        sv.DatumTypeHasCompositeKeyEncoding l.typ = false
    · left
      rw [merge_right sv joinType st name _ _ l r hA hB] at hst2
      subst hst2
      refine ⟨?_, rfl⟩
      unfold pendingIds
      simp only [List.map_append, List.map_cons, List.map_nil]
      rw [hideIds_set_other Side.left st.joined name _ hget leftCols 0
        (fun j _ e => by
          injection e with e
          injection e with e1 _
          exact Side.noConfusion e1)]
      have hp := hideIds_set_representative Side.right st.joined name hget
        (rightCols.findIdx (usingMatch name)) r hrm.2 rightCols 0 (Nat.zero_le _)
        (by simpa using hri)
      rw [List.append_assoc, List.append_assoc, List.append_assoc]
      apply List.Perm.append_left
      have h1 : List.Perm
          (r.id :: (hideIds Side.left st.joined 0 leftCols ++
            hideIds Side.right (GoMap.set st.joined name
              (some ⟨Side.right, rightCols.findIdx (usingMatch name)⟩)) 0 rightCols))
          (hideIds Side.left st.joined 0 leftCols ++
            (r.id :: hideIds Side.right (GoMap.set st.joined name
              (some ⟨Side.right, rightCols.findIdx (usingMatch name)⟩)) 0 rightCols)) :=
        List.perm_middle.symm
      exact List.Perm.trans h1 (List.Perm.append_left _ hp)
    · right
      rw [merge_synth sv joinType st name _ _ l r hA hB] at hst2
      subst hst2
      refine ⟨?_, rfl, hA, hB⟩
      unfold pendingIds
      simp only [List.map_append, List.map_cons, List.map_nil]
      rw [hideIds_set_other Side.left st.joined name none hget leftCols 0
          (fun j _ e => Option.noConfusion e),
        hideIds_set_other Side.right st.joined name none hget rightCols 0
          (fun j _ e => Option.noConfusion e)]
      rw [List.append_assoc, List.append_assoc]
      have h1 : List.Perm
          (List.map (fun c => c.id) st.outScope.cols ++
            ([(coalesceColumn (st.b.numColumns + 1)
                ⟨Side.left, leftCols.findIdx (usingMatch name)⟩ l
                ⟨Side.right, rightCols.findIdx (usingMatch name)⟩ r).id] ++
              (hideIds Side.left st.joined 0 leftCols ++
                hideIds Side.right st.joined 0 rightCols)))
          ((st.b.numColumns + 1) :: (List.map (fun c => c.id) st.outScope.cols ++
              (hideIds Side.left st.joined 0 leftCols ++
                hideIds Side.right st.joined 0 rightCols))) :=
        List.perm_middle
      rw [List.append_assoc]
      exact h1

theorem loop_pendingIds (sv : Services) (joinType : JoinType)
    (leftCols rightCols : List scopeColumn) :
    ∀ (names : List Name) (st st1 : usingState),
      buildUsingJoinPredicate.loop sv joinType leftCols rightCols names st = Except.ok st1 →
      st.b.numColumns ≤ st1.b.numColumns ∧
      ∃ fresh : List ColumnID,
        List.Perm (pendingIds leftCols rightCols st1)
          (fresh ++ pendingIds leftCols rightCols st) ∧
        fresh.Nodup ∧
        (∀ k ∈ fresh, st.b.numColumns < k ∧ k ≤ st1.b.numColumns) ∧
        ((∀ n ∈ names, ∀ l, leftCols.find? (usingMatch n) = some l →
            (joinType = sqlbase.InnerJoin ∨ joinType = sqlbase.LeftOuterJoin) ∨
            (joinType = sqlbase.RightOuterJoin ∧
              sv.DatumTypeHasCompositeKeyEncoding l.typ = false)) → fresh = []) := by
  intro names
  induction names with
  | nil =>
    intro st st1 h
    simp only [buildUsingJoinPredicate.loop, Except.ok.injEq] at h
    subst h
    exact ⟨le_refl _, [], List.Perm.refl _, List.nodup_nil, by simp, fun _ => rfl⟩
  | cons name rest ih =>
    intro st st1 h
    unfold buildUsingJoinPredicate.loop at h
    cases hb : buildUsingJoinPredicate.body sv joinType leftCols rightCols st name with
    | error e => rw [hb] at h; simp at h
    | ok st2 =>
      rw [hb] at h
      simp only [] at h
      obtain ⟨hle, fresh, hperm, hnd, hbound, hnosynth⟩ := ih st2 st1 h
      obtain ⟨l, hl, hcase⟩ := body_pendingIds sv joinType leftCols rightCols st st2 name hb
      rcases hcase with ⟨hp, hb2⟩ | ⟨hp, hb2, hA, hB⟩
      · rw [hb2] at hle hbound
        refine ⟨hle, fresh, hperm.trans (List.Perm.append_left _ hp), hnd, hbound, ?_⟩
        intro hall
        exact hnosynth (fun n hn => hall n (List.mem_cons_of_mem _ hn))
      · refine ⟨by omega, fresh ++ [st.b.numColumns + 1], ?_, ?_, ?_, ?_⟩
        · refine hperm.trans ((List.Perm.append_left _ hp).trans ?_)
          rw [List.append_assoc]
          exact List.Perm.refl _
        · rw [List.nodup_append]
          refine ⟨hnd, List.nodup_singleton _, ?_⟩
          intro k hk1 hk2
          have hlt : st2.b.numColumns < k := (hbound k hk1).1
          simp only [List.mem_singleton] at hk2
          subst hk2
          omega
        · intro k hk
          rcases List.mem_append.mp hk with h1 | h1
          · have hlt : st2.b.numColumns < k := (hbound k h1).1
            have hle2 : k ≤ st1.b.numColumns := (hbound k h1).2
            exact ⟨by omega, hle2⟩
          · simp only [List.mem_singleton] at h1
            subst h1
            have h2 : st.b.numColumns < st.b.numColumns + 1 := Nat.lt_succ_self _
            have h3 : st.b.numColumns + 1 ≤ st1.b.numColumns := by omega
            exact ⟨h2, h3⟩
        · intro hall
          rcases hall name (List.mem_cons_self _ _) l hl with h1 | h1
          · exact absurd h1 hA
          · exact absurd h1 hB

theorem usingJoin_ids (sv : Services) (b : Builder) (joinType : JoinType)
    (leftCols rightCols : List scopeColumn) (names : NameList) (inScope : scope)
    (res : usingResult)
    (h : buildUsingJoinPredicate sv b joinType leftCols rightCols names inScope = Except.ok res) :
    ∃ fresh : List ColumnID,
      List.Perm (res.outScope.cols.map (fun c => c.id))
        (fresh ++ (leftCols ++ rightCols).map (fun c => c.id)) ∧
      fresh.Nodup ∧
      (∀ k ∈ fresh, b.numColumns < k) ∧
      ((∀ n ∈ names, ∀ l, leftCols.find? (usingMatch n) = some l →
          (joinType = sqlbase.InnerJoin ∨ joinType = sqlbase.LeftOuterJoin) ∨
          (joinType = sqlbase.RightOuterJoin ∧
            sv.DatumTypeHasCompositeKeyEncoding l.typ = false)) → fresh = []) := by
  obtain ⟨st, hst, _, _, _, hcols⟩ := buildUsingJoinPredicate_ok h
  obtain ⟨_, fresh, hperm, hnd, hbound, hnosynth⟩ :=
    loop_pendingIds sv joinType leftCols rightCols names _ st hst
  have hout : res.outScope.cols.map (fun c => c.id) = pendingIds leftCols rightCols st := by
    rw [hcols]
    unfold pendingIds hideIds List.enum
    simp only [List.map_append]
  have hinit : pendingIds leftCols rightCols
      { joined := [], conditions := [], mergedCols := [], outScope := inScope.push, b := b } =
      (leftCols ++ rightCols).map (fun c => c.id) := by
    unfold pendingIds
    simp only []
    rw [hideIds_nil, hideIds_nil]
    simp [scope.push]
  rw [hinit] at hperm
  rw [← hout] at hperm
  exact ⟨fresh, hperm, hnd, fun k hk => (hbound k hk).1, hnosynth⟩

theorem buildUsingJoin_ids {sv : Services} {b : Builder} {joinType : JoinType}
    {names : NameList} {leftScope rightScope inScope : scope} {jr : joinResult}
    (h : buildUsingJoin sv b joinType names leftScope rightScope inScope = Except.ok jr) :
    ∃ res,
      buildUsingJoinPredicate sv b joinType leftScope.cols rightScope.cols names inScope =
        Except.ok res ∧
      jr.outScope.cols.map (fun c => c.id) = res.outScope.cols.map (fun c => c.id) := by
  obtain ⟨res, g, hres, _, _, _, _, hempty, hproj⟩ := buildUsingJoin_ok h
  refine ⟨res, hres, ?_⟩
  by_cases he : res.mergedCols = []
  · rw [hempty he]
  · rw [(hproj he).1, List.map_map]
    rfl

theorem buildJoin_ids (sv : Services) (b : Builder) (joinType : JoinType) (cond : JoinCond)
    (leftScope rightScope inScope : scope) (jr : joinResult)
    (h : buildJoin sv b joinType cond leftScope rightScope inScope = Except.ok jr) :
    ((cond = JoinCond.nil ∨ ∃ e, cond = JoinCond.OnJoinCond e) ∧
      jr.outScope.cols = leftScope.cols ++ rightScope.cols) ∨
    ((cond = JoinCond.NaturalJoinCond ∨ ∃ cols, cond = JoinCond.UsingJoinCond cols) ∧
      ∃ res,
        buildUsingJoinPredicate sv b joinType leftScope.cols rightScope.cols
          (usingNames cond leftScope rightScope) inScope = Except.ok res ∧
        jr.outScope.cols.map (fun c => c.id) = res.outScope.cols.map (fun c => c.id)) := by
  unfold buildJoin at h
  cases hv : validateJoinTableNames leftScope rightScope with
  | error e => rw [hv] at h; simp at h
  | ok u =>
    rw [hv] at h
    simp only [] at h
    cases cond with
    | nil =>
      left
      simp only [] at h
      split at h
      · exact Except.noConfusion h
      · injection h with h
        subst h
        exact ⟨Or.inl rfl, by simp [scope.push, scope.appendColumnsFromScope]⟩
    | OnJoinCond e =>
      left
      simp only [] at h
      split at h
      · exact Except.noConfusion h
      · split at h
        · exact Except.noConfusion h
        · injection h with h
          subst h
          exact ⟨Or.inr ⟨e, rfl⟩, by simp [scope.push, scope.appendColumnsFromScope]⟩
    | UsingJoinCond cols =>
      right
      simp only [] at h
      exact ⟨Or.inr ⟨cols, rfl⟩, buildUsingJoin_ids h⟩
    | NaturalJoinCond =>
      right
      simp only [] at h
      exact ⟨Or.inl rfl, buildUsingJoin_ids h⟩
    | unsupported =>
      simp only [] at h
      exact Except.noConfusion h

/-- C18 (column ids stay unique in the output scope).  If the ids of the left and
right columns are pairwise distinct, within each list and across the two, and
every one of them has been handed out before the call (so that the id given to a
synthesized column is fresh), then on every successful call of `buildJoin`, for
every join type and condition shape, no two columns of the output scope share an
id.  Moreover for ON joins and joins without condition, and for USING and NATURAL
joins that are inner, left outer, or right outer with no USING name whose left
column type has composite key encoding, the ids of the output scope are exactly
the ids of the left columns together with the ids of the right columns. -/
theorem buildJoin_column_ids_unique (sv : Services) (b : Builder) (joinType : JoinType)
    (cond : JoinCond) (leftScope rightScope inScope : scope) (jr : joinResult)
    (hnd : ((leftScope.cols ++ rightScope.cols).map (fun c => c.id)).Nodup)
    (hfresh : ∀ c ∈ leftScope.cols ++ rightScope.cols, c.id ≤ b.numColumns)
    (h : buildJoin sv b joinType cond leftScope rightScope inScope = Except.ok jr) :
    (jr.outScope.cols.map (fun c => c.id)).Nodup ∧
    ((cond = JoinCond.nil ∨ (∃ e, cond = JoinCond.OnJoinCond e) ∨
        joinType = sqlbase.InnerJoin ∨ joinType = sqlbase.LeftOuterJoin ∨
        (joinType = sqlbase.RightOuterJoin ∧
          ∀ n ∈ usingNames cond leftScope rightScope, ∀ l,
            leftScope.cols.find? (usingMatch n) = some l →
            sv.DatumTypeHasCompositeKeyEncoding l.typ = false)) →
      List.Perm (jr.outScope.cols.map (fun c => c.id))
        ((leftScope.cols ++ rightScope.cols).map (fun c => c.id))) := by
  rcases buildJoin_ids sv b joinType cond leftScope rightScope inScope jr h with
    ⟨_, hcols⟩ | ⟨hshape, res, hres, hids⟩
  · rw [hcols]
    exact ⟨hnd, fun _ => List.Perm.refl _⟩
  · obtain ⟨fresh, hperm, hfnd, hfb, hnosynth⟩ :=
      usingJoin_ids sv b joinType leftScope.cols rightScope.cols
        (usingNames cond leftScope rightScope) inScope res hres
    rw [hids]
    constructor
    · rw [List.Perm.nodup_iff hperm, List.nodup_append]
      refine ⟨hfnd, hnd, ?_⟩
      intro k hk1 hk2
      obtain ⟨c, hc, hck⟩ := List.mem_map.mp hk2
      have h1 : c.id ≤ b.numColumns := hfresh c hc
      have h2 : b.numColumns < k := hfb k hk1
      subst hck
      exact absurd h1 (Nat.not_le_of_lt h2)
    · intro hcase
      have hempty : fresh = [] := by
        apply hnosynth
        intro n hn l hl
        rcases hcase with h1 | h1 | h1 | h1 | h1
        · rcases hshape with h2 | ⟨cols, h2⟩
          · rw [h2] at h1; exact JoinCond.noConfusion h1
          · rw [h2] at h1; exact JoinCond.noConfusion h1
        · obtain ⟨e, h1⟩ := h1
          rcases hshape with h2 | ⟨cols, h2⟩
          · rw [h2] at h1; exact JoinCond.noConfusion h1
          · rw [h2] at h1; exact JoinCond.noConfusion h1
        · exact Or.inl (Or.inl h1)
        · exact Or.inl (Or.inr h1)
        · exact Or.inr ⟨h1.1, h1.2 n hn l hl⟩
      rw [hempty] at hperm
      exact hperm

/-- Witness for C18: the full outer join of the example with `USING (a, b)`; the
input ids are 1 to 6, all handed out, and the output ids are 7, 8, 1, ..., 6. -/
theorem buildJoin_column_ids_unique_witness :
    (((exampleLeftScope.cols ++ exampleRightScope.cols).map (fun c => c.id)).Nodup ∧
      (∀ c ∈ exampleLeftScope.cols ++ exampleRightScope.cols, c.id ≤ 6) ∧
      buildJoin exampleServices { numColumns := 6 } sqlbase.FullOuterJoin
        (JoinCond.UsingJoinCond ["a", "b"]) exampleLeftScope exampleRightScope
        exampleInScope = Except.ok exampleFullJoinResult) ∧
    exampleFullJoinResult.outScope.cols.map (fun c => c.id) = exampleFullJoinIds ∧
    (exampleFullJoinResult.outScope.cols.map (fun c => c.id)).Nodup :=
  ⟨⟨by decide, by decide, by decide⟩, by decide,
    (buildJoin_column_ids_unique exampleServices { numColumns := 6 } sqlbase.FullOuterJoin
      (JoinCond.UsingJoinCond ["a", "b"]) exampleLeftScope exampleRightScope exampleInScope
      exampleFullJoinResult (by decide) (by decide) (by decide)).1⟩

/-! ## The order of the failures -/

theorem loop_firstFailure (sv : Services) (joinType : JoinType)
    (leftCols rightCols : List scopeColumn) :
    ∀ (names : List Name) (st : usingState) (seen : List Name),
      (∀ n, st.joined.get n ≠ none ↔ n ∈ seen) →
      (∀ e, firstFailure sv leftCols rightCols seen names = some e →
        buildUsingJoinPredicate.loop sv joinType leftCols rightCols names st =
          Except.error e) ∧
      (firstFailure sv leftCols rightCols seen names = none →
        ∃ st1, buildUsingJoinPredicate.loop sv joinType leftCols rightCols names st =
          Except.ok st1) := by
  intro names
  induction names with
  | nil =>
    intro st seen _
    refine ⟨?_, fun _ => ⟨st, rfl⟩⟩
    intro e he
    simp [firstFailure] at he
  | cons n rest ih =>
    intro st seen hinv
    unfold buildUsingJoinPredicate.loop firstFailure
    rw [body_eq]
    by_cases hseen : n ∈ seen
    · rw [if_pos hseen]
      have hne := (hinv n).mpr hseen
      cases hget : st.joined.get n with
      | none => exact absurd hget hne
      | some p =>
        simp only []
        refine ⟨?_, ?_⟩
        · intro e he
          injection he with he
          rw [he]
        · intro he
          exact Option.noConfusion he
    · rw [if_neg hseen]
      have hget : st.joined.get n = none := by
        by_contra hne
        exact hseen ((hinv n).mp hne)
      rw [hget]
      simp only []
      cases hl : leftCols.find? (usingMatch n) with
      | none =>
        simp only []
        refine ⟨?_, ?_⟩
        · intro e he
          injection he with he
          rw [he]
        · intro he
          exact Option.noConfusion he
      | some l =>
        simp only []
        cases hr : rightCols.find? (usingMatch n) with
        | none =>
          simp only []
          refine ⟨?_, ?_⟩
          · intro e he
            injection he with he
            rw [he]
          · intro he
            exact Option.noConfusion he
        | some r =>
          simp only []
          by_cases hc : sv.Equivalent l.typ r.typ = false ∧
              sv.FindEqualComparisonFunction l.typ r.typ = false
          · rw [if_pos hc, if_pos hc]
            refine ⟨?_, ?_⟩
            · intro e he
              injection he with he
              rw [he]
            · intro he
              exact Option.noConfusion he
          · rw [if_neg hc, if_neg hc]
            simp only []
            apply ih
            intro x
            rw [merge_joined sv joinType leftCols rightCols st n l r hl, GoMap.get_set]
            by_cases hx : x = n
            · rw [if_pos hx]
              simp [hx]
            · rw [if_neg hx, hinv x]
              simp [hx]

theorem usingJoin_firstFailure (sv : Services) (b : Builder) (joinType : JoinType)
    (leftCols rightCols : List scopeColumn) (names : NameList) (inScope : scope) :
    (∀ e, buildUsingJoinPredicate sv b joinType leftCols rightCols names inScope =
        Except.error e ↔ firstFailure sv leftCols rightCols [] names = some e) ∧
    ((∃ res, buildUsingJoinPredicate sv b joinType leftCols rightCols names inScope =
        Except.ok res) ↔ firstFailure sv leftCols rightCols [] names = none) := by
  obtain ⟨h1, h2⟩ := loop_firstFailure sv joinType leftCols rightCols names
    { joined := [], conditions := [], mergedCols := [], outScope := inScope.push, b := b } []
    (fun n => by simp [GoMap.get])
  constructor
  · intro e
    rw [buildUsingJoinPredicate_error]
    constructor
    · intro he
      cases hf : firstFailure sv leftCols rightCols [] names with
      | none =>
        obtain ⟨st1, hst1⟩ := h2 hf
        rw [hst1] at he
        exact Except.noConfusion he
      | some e1 =>
        rw [h1 e1 hf] at he
        injection he with he
        rw [he]
    · exact h1 e
  · constructor
    · rintro ⟨res, hres⟩
      cases hf : firstFailure sv leftCols rightCols [] names with
      | none => rfl
      | some e1 =>
        have := (buildUsingJoinPredicate_error sv b joinType leftCols rightCols names
          inScope e1).mpr (h1 e1 hf)
        rw [this] at hres
        exact Except.noConfusion hres
    · intro hf
      obtain ⟨st1, hst1⟩ := h2 hf
      unfold buildUsingJoinPredicate
      simp only []
      rw [hst1]
      exact ⟨_, rfl⟩

theorem buildJoin_using_error (sv : Services) (b : Builder) (joinType : JoinType)
    (cond : JoinCond) (leftScope rightScope inScope : scope) (e : Error)
    (hv : validateJoinTableNames leftScope rightScope = Except.ok ())
    (hshape : cond = JoinCond.NaturalJoinCond ∨ ∃ cols, cond = JoinCond.UsingJoinCond cols)
    (he : buildUsingJoinPredicate sv b joinType leftScope.cols rightScope.cols
      (usingNames cond leftScope rightScope) inScope = Except.error e) :
    buildJoin sv b joinType cond leftScope rightScope inScope = Except.error e := by
  unfold buildJoin
  rw [hv]
  simp only []
  rcases hshape with h1 | ⟨cols, h1⟩
  · subst h1
    simp only [usingNames] at he
    simp only []
    unfold buildUsingJoin
    rw [he]
  · subst h1
    simp only [usingNames] at he
    simp only []
    unfold buildUsingJoin
    rw [he]

/-- C19 (first failure wins, in a fixed order).  `buildJoin` runs alias validation
before looking at the condition: when a left and a right column share a qualified
table name with a non-empty table name, the result is DuplicateAlias for every
condition shape.  `buildUsingJoinPredicate` fails exactly when some name fails a
check, and its error is the one that `firstFailure` gives: that of the first name
in list order that fails, the checks of a name being made in the order duplicate
name, missing on the left, missing on the right, type mismatch; it returns an
output scope only when no check fails.  When alias validation passes, that error
is also the result of `buildJoin` for a USING or NATURAL condition. -/
theorem buildJoin_first_failure (sv : Services) (b : Builder) (joinType : JoinType)
    (cond : JoinCond) (leftScope rightScope inScope : scope) (names : NameList) :
    (aliasCollision leftScope rightScope →
      ∃ name, buildJoin sv b joinType cond leftScope rightScope inScope =
        Except.error (Error.DuplicateAlias name)) ∧
    (∀ e, buildUsingJoinPredicate sv b joinType leftScope.cols rightScope.cols names inScope =
        Except.error e ↔ firstFailure sv leftScope.cols rightScope.cols [] names = some e) ∧
    ((∃ res, buildUsingJoinPredicate sv b joinType leftScope.cols rightScope.cols names
        inScope = Except.ok res) ↔
      firstFailure sv leftScope.cols rightScope.cols [] names = none) ∧
    (validateJoinTableNames leftScope rightScope = Except.ok () →
      (cond = JoinCond.NaturalJoinCond ∨ ∃ cols, cond = JoinCond.UsingJoinCond cols) →
      ∀ e, firstFailure sv leftScope.cols rightScope.cols []
          (usingNames cond leftScope rightScope) = some e →
        buildJoin sv b joinType cond leftScope rightScope inScope = Except.error e) := by
  obtain ⟨h1, h2⟩ := usingJoin_firstFailure sv b joinType leftScope.cols rightScope.cols
    names inScope
  refine ⟨?_, h1, h2, ?_⟩
  · intro hcol
    rcases validateJoinTableNames_spec leftScope rightScope with ⟨_, hno⟩ | ⟨_, l, _, _, herr⟩
    · exact absurd hcol hno
    · refine ⟨l.table.TableName, ?_⟩
      unfold buildJoin
      rw [herr]
  · intro hv hshape e hf
    apply buildJoin_using_error sv b joinType cond leftScope rightScope inScope e hv hshape
    exact (usingJoin_firstFailure sv b joinType leftScope.cols rightScope.cols
      (usingNames cond leftScope rightScope) inScope).1 e |>.mpr hf

/-- Witness for C19: `USING (z, z)` with `z` absent on the left fails with
UndefinedColumn for the left table, not DuplicateColumn; and a join of two scopes
that share the table name `t1` fails with DuplicateAlias although its USING list
is invalid as well. -/
theorem buildJoin_first_failure_witness :
    buildUsingJoinPredicate exampleServices { numColumns := 6 } sqlbase.InnerJoin
        exampleLeft exampleRight ["z", "z"] exampleInScope =
      Except.error (Error.UndefinedColumn "z" "left") ∧
    firstFailure exampleServices exampleAliasLeft.cols exampleAliasRight.cols [] ["z", "z"] =
      some (Error.UndefinedColumn "z" "left") ∧
    buildJoin exampleServices { numColumns := 6 } sqlbase.InnerJoin
        (JoinCond.UsingJoinCond ["z", "z"]) exampleAliasLeft exampleAliasRight exampleInScope =
      Except.error (Error.DuplicateAlias "t1") ∧
    ∃ name, buildJoin exampleServices { numColumns := 6 } sqlbase.InnerJoin
        (JoinCond.UsingJoinCond ["z", "z"]) exampleAliasLeft exampleAliasRight exampleInScope =
      Except.error (Error.DuplicateAlias name) :=
  ⟨by decide, by decide, by decide,
    (buildJoin_first_failure exampleServices { numColumns := 6 } sqlbase.InnerJoin
      (JoinCond.UsingJoinCond ["z", "z"]) exampleAliasLeft exampleAliasRight exampleInScope
      ["z", "z"]).1
      ⟨exampleColumn "a" "t1" 1, by decide, exampleColumn "e" "t1" 5, by decide,
        by decide, by decide, by decide, by decide, by decide⟩⟩

/-! ## NATURAL joins never miss a column -/

theorem firstFailure_undefined (sv : Services) (leftCols rightCols : List scopeColumn)
    (n : Name) (context : String) :
    ∀ (names seen : List Name),
      firstFailure sv leftCols rightCols seen names = some (Error.UndefinedColumn n context) →
      ∃ m ∈ names, leftCols.find? (usingMatch m) = none ∨
        rightCols.find? (usingMatch m) = none := by
  intro names
  induction names with
  | nil => intro seen h; simp [firstFailure] at h
  | cons m rest ih =>
    intro seen h
    unfold firstFailure at h
    by_cases hseen : m ∈ seen
    · rw [if_pos hseen] at h
      injection h with h
      exact Error.noConfusion h
    · rw [if_neg hseen] at h
      cases hl : leftCols.find? (usingMatch m) with
      | none => exact ⟨m, List.mem_cons_self _ _, Or.inl hl⟩
      | some l =>
        cases hr : rightCols.find? (usingMatch m) with
        | none => exact ⟨m, List.mem_cons_self _ _, Or.inr hr⟩
        | some r =>
          rw [hl, hr] at h
          simp only [] at h
          by_cases hc : sv.Equivalent l.typ r.typ = false ∧
              sv.FindEqualComparisonFunction l.typ r.typ = false
          · rw [if_pos hc] at h
            injection h with h
            exact Error.noConfusion h
          · rw [if_neg hc] at h
            obtain ⟨m1, hm1, hnone⟩ := ih _ h
            exact ⟨m1, List.mem_cons_of_mem _ hm1, hnone⟩

theorem commonColumns_found (leftScope rightScope : scope) (n : Name)
    (hn : n ∈ commonColumns leftScope rightScope) :
    (∃ l, leftScope.cols.find? (usingMatch n) = some l) ∧
    (∃ r, rightScope.cols.find? (usingMatch n) = some r) := by
  rw [commonColumns_eq] at hn
  simp only [List.mem_map, List.mem_filter, Bool.and_eq_true, Bool.not_eq_true',
    List.any_eq_true, decide_eq_true_eq] at hn
  obtain ⟨c, ⟨hc, hh, d, hd, hdh, hcd⟩, hcn⟩ := hn
  constructor
  · cases hf : leftScope.cols.find? (usingMatch n) with
    | some l => exact ⟨l, rfl⟩
    | none =>
      have := List.find?_eq_none.mp hf c hc
      exact absurd ((usingMatch_iff n c).mpr ⟨hh, hcn⟩) this
  · cases hf : rightScope.cols.find? (usingMatch n) with
    | some r => exact ⟨r, rfl⟩
    | none =>
      have := List.find?_eq_none.mp hf d hd
      exact absurd ((usingMatch_iff n d).mpr ⟨hdh, by rw [← hcd, hcn]⟩) this

theorem buildUsingJoin_error {sv : Services} {b : Builder} {joinType : JoinType}
    {names : NameList} {leftScope rightScope inScope : scope} {e : Error}
    (h : buildUsingJoin sv b joinType names leftScope rightScope inScope = Except.error e) :
    buildUsingJoinPredicate sv b joinType leftScope.cols rightScope.cols names inScope =
        Except.error e ∨
      e = Error.unsupportedJoinType joinType := by
  unfold buildUsingJoin at h
  cases hp : buildUsingJoinPredicate sv b joinType leftScope.cols rightScope.cols names
      inScope with
  | error e1 =>
    rw [hp] at h
    injection h with h
    left
    rw [h]
  | ok res =>
    rw [hp] at h
    simp only [] at h
    right
    cases hg : constructJoin joinType leftScope.group rightScope.group res.out with
    | ok g => rw [hg] at h; exact Except.noConfusion h
    | error e1 =>
      rw [hg] at h
      injection h with h
      subst h
      unfold constructJoin at hg
      simp only [] at hg
      split at hg
      · exact Except.noConfusion hg
      · split at hg
        · exact Except.noConfusion hg
        · split at hg
          · exact Except.noConfusion hg
          · split at hg
            · exact Except.noConfusion hg
            · injection hg with hg
              exact hg.symm

/-- C20 (a NATURAL join never fails with UndefinedColumn).  For every left and
right scope and every name in `commonColumns(left, right)`, `findUsingColumn`
succeeds for that name on the left column list and on the right column list;
hence `buildUsingJoinPredicate` called with the name list computed by
`commonColumns` on the same two scopes never fails with UndefinedColumn, and
neither does `buildJoin` with a NATURAL condition. -/
theorem naturalJoin_never_undefined_column (sv : Services) (b : Builder)
    (joinType : JoinType) (leftScope rightScope inScope : scope) :
    (∀ n ∈ commonColumns leftScope rightScope,
      ∃ pl l pr r,
        findUsingColumn Side.left leftScope.cols n "left" = Except.ok (pl, l) ∧
        findUsingColumn Side.right rightScope.cols n "right" = Except.ok (pr, r)) ∧
    (∀ n context,
      buildUsingJoinPredicate sv b joinType leftScope.cols rightScope.cols
        (commonColumns leftScope rightScope) inScope ≠
          Except.error (Error.UndefinedColumn n context)) ∧
    (∀ n context,
      buildJoin sv b joinType JoinCond.NaturalJoinCond leftScope rightScope inScope ≠
        Except.error (Error.UndefinedColumn n context)) := by
  have hpred : ∀ n context,
      buildUsingJoinPredicate sv b joinType leftScope.cols rightScope.cols
        (commonColumns leftScope rightScope) inScope ≠
          Except.error (Error.UndefinedColumn n context) := by
    intro n context herr
    have hf := (usingJoin_firstFailure sv b joinType leftScope.cols rightScope.cols
      (commonColumns leftScope rightScope) inScope).1 _ |>.mp herr
    obtain ⟨m, hm, hnone⟩ := firstFailure_undefined sv leftScope.cols rightScope.cols n
      context _ _ hf
    obtain ⟨⟨l, hl⟩, ⟨r, hr⟩⟩ := commonColumns_found leftScope rightScope m hm
    rcases hnone with h1 | h1
    · rw [hl] at h1; exact Option.noConfusion h1
    · rw [hr] at h1; exact Option.noConfusion h1
  refine ⟨?_, hpred, ?_⟩
  · intro n hn
    obtain ⟨⟨l, hl⟩, ⟨r, hr⟩⟩ := commonColumns_found leftScope rightScope n hn
    refine ⟨⟨Side.left, leftScope.cols.findIdx (usingMatch n)⟩, l,
      ⟨Side.right, rightScope.cols.findIdx (usingMatch n)⟩, r, ?_, ?_⟩
    · rw [findUsingColumn_eq, hl]
    · rw [findUsingColumn_eq, hr]
  · intro n context herr
    unfold buildJoin at herr
    rcases validateJoinTableNames_spec leftScope rightScope with ⟨hv, _⟩ | ⟨_, l, _, _, hv⟩
    · rw [hv] at herr
      simp only [] at herr
      rcases buildUsingJoin_error herr with h1 | h1
      · exact hpred n context h1
      · exact Error.noConfusion h1
    · rw [hv] at herr
      injection herr with herr
      exact Error.noConfusion herr

/-- Witness for C20: the common columns of the example scopes are `a` and `b`,
both resolve on both sides, and the NATURAL join succeeds. -/
theorem naturalJoin_never_undefined_column_witness :
    commonColumns exampleLeftScope exampleRightScope = ["a", "b"] ∧
    findUsingColumn Side.left exampleLeftScope.cols "b" "left" =
      Except.ok (⟨Side.left, 1⟩, exampleColumn "b" "left" 2) ∧
    findUsingColumn Side.right exampleRightScope.cols "b" "right" =
      Except.ok (⟨Side.right, 1⟩, exampleColumn "b" "right" 5) ∧
    (∀ n context,
      buildJoin exampleServices { numColumns := 6 } sqlbase.InnerJoin JoinCond.NaturalJoinCond
        exampleLeftScope exampleRightScope exampleInScope ≠
          Except.error (Error.UndefinedColumn n context)) :=
  ⟨by decide, by decide, by decide,
    (naturalJoin_never_undefined_column exampleServices { numColumns := 6 }
      sqlbase.InnerJoin exampleLeftScope exampleRightScope exampleInScope).2.2⟩

end optbuilder
